import Mathlib

/-!
Verification of the `databas` storage engine and SQL front-end.

This file is a shallow embedding, in Lean 4, of the parts of the `databas`
repository that the verified properties talk about:

* the LEB128 / zig-zag varint codec (`crates/databas_core/src/varint.rs`),
* the record value codec (`crates/databas_core/src/record.rs`),
* the page checksum and disk manager
  (`crates/databas_core/src/page_checksum.rs`, `disk_manager.rs`),
* the clock-replacement page cache (`crates/databas_core/src/page_cache.rs`),
* the slotted table-page layout with leaf and interior pages
  (`crates/databas_core/src/table_page/`),
* the Pratt expression parser of the SQL front-end
  (`src/parser/op.rs`, `crates/databas_sql_parser/src/parser/mod.rs`).

Machine integers (`u8`, `u16`, `u32`, `u64`) are modelled as `Nat` with
explicit masking (`% 2 ^ w`, `&&& mask`) wherever the Rust code can wrap or
truncate.  `i64` values appear either as their two's-complement bit pattern
(a `Nat` below `2 ^ 64`) or as an `Int` in `[-2 ^ 63, 2 ^ 63)`, with explicit
conversions.  Fallible operations return `Except` with error types copied
from the Rust error enums.  Byte buffers are `List Nat`.
-/

namespace Databas

/-- Two's-complement modulus of `u64` arithmetic. -/
def U64_MOD : Nat := 2 ^ 64

/-- `2 ^ 63`, the sign-bit threshold of `i64`. -/
def I64_SIGN : Nat := 2 ^ 63

/-!
## Varint codec (`crates/databas_core/src/varint.rs`)

The Rust functions write through a `std::io::Cursor<&mut [u8]>` and read
through a `Cursor<&[u8]>`.  The embedding replaces the write cursor by the
list of emitted bytes (a successful Rust run writes exactly these bytes, in
order; the only write failure is buffer exhaustion, a resource error that
does not change the bytes a successful run produces) and the read cursor by
the list of not-yet-consumed bytes (`read_exact` of one byte fails on an
empty list exactly when the Rust call fails).
-/

/-- `SerializationError` from `crates/databas_core/src/record.rs`.
`IoError(std::io::Error)` is modelled without the payload. -/
inductive SerializationError where
  | invalidData (msg : String)
  | invalidTag (tag : Nat)
  | bufferTooSmall (required available : Nat)
  | varIntBufferTooSmall (available : Nat)
  | invalidVarInt
  | stringTooLong
  | invalidSignedInteger (v : Nat)
  | ioError
  deriving Repr, DecidableEq

/-- The `while value != 0` loop of `varint_encode`: emit low-7-bit groups,
setting the continuation bit on all but the final byte. -/
def varintEncodeLoop (value : Nat) : List Nat :=
  if h : value = 0 then []
  else
    let byte := value &&& 0x7F
    let rest := value >>> 7
    (if rest ≠ 0 then byte ||| 0x80 else byte) :: varintEncodeLoop rest
termination_by value
decreasing_by
  simp only [Nat.shiftRight_eq_div_pow]
  exact Nat.div_lt_self (Nat.pos_of_ne_zero h) (by norm_num)

/-- `varint_encode`: the bytes written for `value`.  The Rust function
returns the number of bytes written; that count is the length of this
list. -/
def varint_encode (value : Nat) : List Nat :=
  if value ≤ 0x7F then [value &&& 0x7F] else varintEncodeLoop value

/-- Fuel-indexed unrolling of `varintEncodeLoop`, used only to evaluate the
well-founded recursion on concrete inputs (`varintEncodeLoop_eq_fuel`). -/
def varintEncodeFuel : Nat → Nat → List Nat
  | 0, _ => []
  | fuel + 1, value =>
    if value = 0 then []
    else
      (if value >>> 7 ≠ 0 then (value &&& 0x7F) ||| 0x80 else value &&& 0x7F) ::
        varintEncodeFuel fuel (value >>> 7)

/-- The `while value != 0` loop of `varint_size`. -/
def varintSizeLoop (value : Nat) : Nat :=
  if h : value = 0 then 0 else 1 + varintSizeLoop (value >>> 7)
termination_by value
decreasing_by
  simp only [Nat.shiftRight_eq_div_pow]
  exact Nat.div_lt_self (Nat.pos_of_ne_zero h) (by norm_num)

/-- `varint_size`: byte length of the encoding of `value` without encoding. -/
def varint_size (value : Nat) : Nat :=
  if value ≤ 0x7F then 1 else varintSizeLoop value

/-- The `for _ in 0..10` loop of `varint_decode`.  `result` and `shift`
are the loop accumulators; the input is the unread byte stream.
`result |= value_bits << shift` is `u64` arithmetic: bits shifted past
position 63 are discarded, hence the `% 2 ^ 64`. -/
def varintDecodeLoop : Nat → Nat → Nat → List Nat →
    Except SerializationError (Nat × List Nat)
  | 0, _, _, _ => .error .invalidVarInt
  | _ + 1, result, shift, [] => .error .ioError
  | fuel + 1, result, shift, byte :: rest =>
    let valueBits := byte &&& 0x7F
    let result := result ||| (valueBits <<< shift) % U64_MOD
    if byte &&& 0x80 = 0 then .ok (result, rest)
    else varintDecodeLoop fuel result (shift + 7) rest

/-- `varint_decode`: decodes one varint from the front of `input`, returning
the value and the unread remainder. -/
def varint_decode (input : List Nat) :
    Except SerializationError (Nat × List Nat) :=
  varintDecodeLoop 10 0 0 input

/-- `zigzag_encode_i64` on two's-complement bit patterns:
`((value << 1) ^ (value >> 63)) as u64` where `<<` wraps and `>>` is the
arithmetic shift. -/
def zigzagEncodeBits (n : Nat) : Nat :=
  ((n <<< 1) % U64_MOD) ^^^ (if I64_SIGN ≤ n then U64_MOD - 1 else 0)

/-- `zigzag_decode_i64` on two's-complement bit patterns:
`((value >> 1) as i64) ^ -((value & 1) as i64)`. -/
def zigzagDecodeBits (n : Nat) : Nat :=
  (n >>> 1) ^^^ (if n &&& 1 = 1 then U64_MOD - 1 else 0)

/-- Two's-complement bit pattern of an `i64` value. -/
def i64ToBits (x : Int) : Nat := (x % (U64_MOD : Int)).toNat

/-- The `i64` value of a two's-complement bit pattern. -/
def i64OfBits (n : Nat) : Int :=
  if n < I64_SIGN then (n : Int) else (n : Int) - (U64_MOD : Int)

/-- `varint_encode_signed`: zig-zag then unsigned encode. -/
def varint_encode_signed (value : Int) : List Nat :=
  varint_encode (zigzagEncodeBits (i64ToBits value))

/-- `varint_decode_signed`: unsigned decode then zig-zag invert. -/
def varint_decode_signed (input : List Nat) :
    Except SerializationError (Int × List Nat) := do
  let (value, rest) ← varint_decode input
  pure (i64OfBits (zigzagDecodeBits value), rest)

/-- `varint_size_signed`. -/
def varint_size_signed (value : Int) : Nat :=
  varint_size (zigzagEncodeBits (i64ToBits value))

/-!
## Record codec (`crates/databas_core/src/record.rs`)

`f64` payloads are embedded as their IEEE-754 bit pattern (a `Nat` below
`2 ^ 64`): the Rust code moves floats only through `f64::to_le_bytes` and
`f64::from_le_bytes`, which preserve the bit pattern exactly, so bit-for-bit
float behaviour (including `-0`, NaN payloads and subnormals) is the
behaviour of these bit patterns.  Rust `String` values are embedded as their
UTF-8 byte lists together with a proof of UTF-8 validity, which is the
representation invariant of `String`.
-/

/-- Whether `b` is a UTF-8 continuation byte (`0x80..=0xBF`). -/
def isUtf8Cont (b : Nat) : Bool := 0x80 ≤ b && b ≤ 0xBF

/-- Modelled from the spec: `String::from_utf8` (Rust standard library, not
part of this repository's sources) accepts exactly well-formed UTF-8; this
is the standard well-formedness test (RFC 3629 table: no overlongs, no
surrogates, maximum U+10FFFF). -/
def utf8Validate : List Nat → Bool
  | [] => true
  | b :: rest =>
    if b ≤ 0x7F then utf8Validate rest
    else if 0xC2 ≤ b && b ≤ 0xDF then
      match rest with
      | c1 :: rest2 => isUtf8Cont c1 && utf8Validate rest2
      | [] => false
    else if 0xE0 ≤ b && b ≤ 0xEF then
      match rest with
      | c1 :: c2 :: rest2 =>
        (if b = 0xE0 then 0xA0 ≤ c1 && c1 ≤ 0xBF
         else if b = 0xED then 0x80 ≤ c1 && c1 ≤ 0x9F
         else isUtf8Cont c1) && isUtf8Cont c2 && utf8Validate rest2
      | _ => false
    else if 0xF0 ≤ b && b ≤ 0xF4 then
      match rest with
      | c1 :: c2 :: c3 :: rest2 =>
        (if b = 0xF0 then 0x90 ≤ c1 && c1 ≤ 0xBF
         else if b = 0xF4 then 0x80 ≤ c1 && c1 ≤ 0x8F
         else isUtf8Cont c1) && isUtf8Cont c2 && isUtf8Cont c3 && utf8Validate rest2
      | _ => false
    else false
termination_by l => l.length
decreasing_by all_goals simp +arith

/-- A Rust `String`: a UTF-8-valid byte sequence. -/
def Utf8String : Type := { bytes : List Nat // utf8Validate bytes = true }

instance : DecidableEq Utf8String := fun a b =>
  decidable_of_iff (a.val = b.val) Subtype.ext_iff.symm

/-- `String::from_utf8`: returns the string when the bytes are valid UTF-8,
otherwise the `InvalidData` conversion of the `FromUtf8Error`. -/
def stringFromUtf8 (bytes : List Nat) : Except SerializationError Utf8String :=
  if h : utf8Validate bytes = true then .ok ⟨bytes, h⟩
  else .error (.invalidData "invalid utf-8 sequence")

/-- `Value` from `record.rs`. -/
inductive Value where
  | unsignedInteger (i : Nat)
  | integer (i : Int)
  | float (bits : Nat)
  | string (s : Utf8String)
  | boolean (b : Bool)
  | null
  deriving DecidableEq

/-- The range invariants guaranteed by the Rust types `u64`/`i64`/`f64`
that the `Nat`/`Int` embedding does not enforce by itself. -/
def Value.WF : Value → Prop
  | .unsignedInteger i => i < U64_MOD
  | .integer i => -(I64_SIGN : Int) ≤ i ∧ i < (I64_SIGN : Int)
  | .float bits => bits < U64_MOD
  | .string _ => True
  | .boolean _ => True
  | .null => True

/-- `Value::tag`. -/
def Value.tag : Value → Nat
  | .unsignedInteger _ => 1
  | .integer _ => 2
  | .float _ => 3
  | .string _ => 4
  | .boolean _ => 5
  | .null => 6

/-- `f64::to_le_bytes` on the bit pattern. -/
def u64ToLeBytes (n : Nat) : List Nat :=
  [n &&& 0xFF, (n >>> 8) &&& 0xFF, (n >>> 16) &&& 0xFF, (n >>> 24) &&& 0xFF,
   (n >>> 32) &&& 0xFF, (n >>> 40) &&& 0xFF, (n >>> 48) &&& 0xFF, (n >>> 56) &&& 0xFF]

/-- `f64::from_le_bytes` on the bit pattern: little-endian recomposition. -/
def u64FromLeBytes (b : List Nat) : Nat :=
  match b with
  | [b0, b1, b2, b3, b4, b5, b6, b7] =>
    b0 + b1 * 2 ^ 8 + b2 * 2 ^ 16 + b3 * 2 ^ 24 + b4 * 2 ^ 32 + b5 * 2 ^ 40 +
      b6 * 2 ^ 48 + b7 * 2 ^ 56
  | _ => 0

/-- `u32::MAX`, the bound of `Value::serialize`'s string-length cast. -/
def U32_MAX : Nat := 0xFFFFFFFF

/-- `Value::serialized_size`. -/
def Value.serialized_size : Value → Nat
  | .unsignedInteger i => varint_size i + 1
  | .integer i => varint_size_signed i + 1
  | .float _ => 8 + 1
  | .string s => (varint_size s.val.length + s.val.length) + 1
  | .boolean _ => 1 + 1
  | .null => 0 + 1

/-- `Value::serialize`: the bytes written on success.  The only failure of
the emission itself is `StringTooLong` (the `u32` length cast); buffer
exhaustion is a resource error of the caller-supplied cursor and does not
change the bytes a successful run writes. -/
def Value.serialize : Value → Except SerializationError (List Nat)
  | .unsignedInteger i => .ok (1 :: varint_encode i)
  | .integer i => .ok (2 :: varint_encode_signed i)
  | .float bits => .ok (3 :: u64ToLeBytes bits)
  | .string s =>
    if s.val.length ≤ U32_MAX then
      .ok (4 :: (varint_encode s.val.length ++ s.val))
    else .error .stringTooLong
  | .boolean b => .ok (5 :: [if b then 1 else 0])
  | .null => .ok [6]

/-- `Cursor::read_exact` into an `n`-byte buffer: the bytes read and the
unread remainder. -/
def readExact (n : Nat) (input : List Nat) :
    Except SerializationError (List Nat × List Nat) :=
  if n ≤ input.length then .ok (input.take n, input.drop n) else .error .ioError

/-- `Value::deserialize`.  The `Tag::try_from` dispatch on the tag byte is
written as an `if` chain over the six tag values. -/
def Value.deserialize (input : List Nat) :
    Except SerializationError (Value × List Nat) :=
  match input with
  | [] => .error .ioError
  | tagByte :: rest =>
    if tagByte = 1 then do
      let (u, r) ← varint_decode rest
      .ok (.unsignedInteger u, r)
    else if tagByte = 2 then do
      let (i, r) ← varint_decode_signed rest
      .ok (.integer i, r)
    else if tagByte = 3 then do
      let (bytes, r) ← readExact 8 rest
      .ok (.float (u64FromLeBytes bytes), r)
    else if tagByte = 4 then do
      let (len, r) ← varint_decode rest
      let (bytes, r2) ← readExact len r
      let s ← stringFromUtf8 bytes
      .ok (.string s, r2)
    else if tagByte = 5 then do
      let (bytes, r) ← readExact 1 rest
      .ok (.boolean (bytes.headD 0 != 0), r)
    else if tagByte = 6 then .ok (.null, rest)
    else .error (.invalidTag tagByte)

/-- `Record`. -/
structure Record where
  values : List Value
  deriving DecidableEq

/-- `Record::serialized_size`. -/
def Record.serialized_size (r : Record) : Nat :=
  (r.values.map Value.serialized_size).sum

/-- The `for value in &self.0` serialization loop. -/
def serializeValues : List Value → Except SerializationError (List Nat)
  | [] => .ok []
  | v :: rest => do
    let bytes ← v.serialize
    let more ← serializeValues rest
    .ok (bytes ++ more)

/-- `Record::serialize`: varint-encoded total size, then the values. -/
def Record.serialize (r : Record) : Except SerializationError (List Nat) := do
  let body ← serializeValues r.values
  .ok (varint_encode r.serialized_size ++ body)

/-- The `while bytes_read < record_size` loop of `Record::deserialize`,
phrased on the remaining byte budget `record_size - bytes_read`. -/
def recordDeserializeLoop (remaining : Nat) (input : List Nat) :
    Except SerializationError (List Value × List Nat) :=
  if h : 0 < remaining then
    match Value.deserialize input with
    | .error e => .error e
    | .ok (v, r) =>
      match recordDeserializeLoop (remaining - v.serialized_size) r with
      | .error e => .error e
      | .ok (vs, r2) => .ok (v :: vs, r2)
  else .ok ([], input)
termination_by remaining
decreasing_by
  have h1 : 1 ≤ v.serialized_size := by
    cases v <;> simp [Value.serialized_size]
  omega

/-- `Record::deserialize`. -/
def Record.deserialize (input : List Nat) :
    Except SerializationError (Record × List Nat) := do
  let (recordSize, r) ← varint_decode input
  let (values, r2) ← recordDeserializeLoop recordSize r
  .ok (⟨values⟩, r2)

/-- Range invariants for a `Record`: each value is well-formed and the total
size fits `usize`/`u64` (the Rust size accumulator). -/
def Record.WF (r : Record) : Prop :=
  (∀ v ∈ r.values, v.WF) ∧ r.serialized_size < U64_MOD

/-!
## Page checksum and disk manager
(`crates/databas_core/src/page_checksum.rs`, `disk_manager.rs`)
-/

/-- Modelled from the spec: the repository's `types.rs` (defining the
compile-time `PAGE_SIZE`, `PageId = u64`, `RowId = u64`) is absent from the
sources.  The spec requires `PAGE_SIZE` to fit a `u16`; the repository's
tests (three 1200-byte leaf payloads fit one page, a fourth does not) pin
the value 4096 used here. -/
def PAGE_SIZE : Nat := 4096

/-- `PAGE_CHECKSUM_SIZE` from `page_checksum.rs`. -/
def PAGE_CHECKSUM_SIZE : Nat := 4

/-- `PAGE_DATA_END = PAGE_SIZE - PAGE_CHECKSUM_SIZE`. -/
def PAGE_DATA_END : Nat := PAGE_SIZE - PAGE_CHECKSUM_SIZE

/-- The reflected CRC-32 polynomial used by `crc32_v2::crc32`. -/
def CRC32_POLY : Nat := 0xEDB88320

/-- One bit step of CRC-32: shift right, conditionally xor the polynomial. -/
def crc32Bit (c : Nat) : Nat :=
  if c &&& 1 = 1 then (c >>> 1) ^^^ CRC32_POLY else c >>> 1

/-- One byte step of CRC-32: xor the byte in, then eight bit steps. -/
def crc32Byte (c b : Nat) : Nat := crc32Bit^[8] (c ^^^ (b &&& 0xFF))

/-- `crc32_v2::crc32(crc, buf)`: zlib-style CRC-32 (initial and final
complement around the byte folds). -/
def crc32 (crc : Nat) (data : List Nat) : Nat :=
  (data.foldl crc32Byte (crc ^^^ 0xFFFFFFFF)) ^^^ 0xFFFFFFFF

/-- `u32::from_le_bytes` on a 4-byte list. -/
def u32FromLeBytes (b : List Nat) : Nat :=
  match b with
  | [b0, b1, b2, b3] => b0 + b1 * 2 ^ 8 + b2 * 2 ^ 16 + b3 * 2 ^ 24
  | _ => 0

/-- `u32::to_le_bytes`. -/
def u32ToLeBytes (n : Nat) : List Nat :=
  [n &&& 0xFF, (n >>> 8) &&& 0xFF, (n >>> 16) &&& 0xFF, (n >>> 24) &&& 0xFF]

/-- `compute_page_checksum`: CRC-32 across the data region of one page. -/
def compute_page_checksum (page : List Nat) : Nat :=
  crc32 0 (page.take PAGE_DATA_END)

/-- `stored_page_checksum`: the trailing four bytes, little-endian. -/
def stored_page_checksum (page : List Nat) : Nat :=
  u32FromLeBytes ((page.drop PAGE_DATA_END).take PAGE_CHECKSUM_SIZE)

/-- `write_page_checksum`: store the computed checksum in the trailing
field (the data region is unchanged). -/
def write_page_checksum (page : List Nat) : List Nat :=
  page.take PAGE_DATA_END ++ u32ToLeBytes (compute_page_checksum page)

/-- `checksum_matches`. -/
def checksum_matches (page : List Nat) : Bool :=
  stored_page_checksum page == compute_page_checksum page

/-- `StorageError` from `crates/databas_core/src/error.rs` (the `IO`
payload is dropped). -/
inductive StorageError where
  | io
  | invalidPageId (pageId : Nat)
  | invalidFileSize (bytes : Nat)
  | invalidPageChecksum (pageId : Nat)
  deriving Repr, DecidableEq

/-- Overwrite `bytes.length` bytes of `file` at `off` (seek + `write_all`). -/
def writeBytesAt (file : List Nat) (off : Nat) (bytes : List Nat) : List Nat :=
  file.take off ++ bytes ++ file.drop (off + bytes.length)

/-- `DiskManager`: the file contents and the recorded page count.  The
construction-time invariant `file.length = page_count * PAGE_SIZE` is
carried as a hypothesis of the theorems. -/
structure DiskManager where
  file : List Nat
  page_count : Nat

/-- `DiskManager::page_offset`. -/
def DiskManager.page_offset (page_id : Nat) : Nat := page_id * PAGE_SIZE

/-- `DiskManager::read_page`: bounds check, seek, `read_exact`, verify
checksum.  Returns the page bytes (the caller's output buffer). -/
def DiskManager.read_page (dm : DiskManager) (page_id : Nat) :
    Except StorageError (List Nat) :=
  if page_id ≥ dm.page_count then .error (.invalidPageId page_id)
  else
    let buf := (dm.file.drop (DiskManager.page_offset page_id)).take PAGE_SIZE
    if buf.length = PAGE_SIZE then
      if checksum_matches buf then .ok buf
      else .error (.invalidPageChecksum page_id)
    else .error .io

/-- `DiskManager::write_page`: bounds check, canonicalize the trailing
checksum field, seek, write, fsync. -/
def DiskManager.write_page (dm : DiskManager) (page_id : Nat) (buf : List Nat) :
    Except StorageError DiskManager :=
  if page_id ≥ dm.page_count then .error (.invalidPageId page_id)
  else
    let canonical := write_page_checksum buf
    .ok { dm with
      file := writeBytesAt dm.file (DiskManager.page_offset page_id) canonical }

/-!
## Database header and page allocation
(`crates/databas_core/src/database_header.rs`, `disk_manager.rs`)
-/

/-- `u16::to_le_bytes`. -/
def u16ToLeBytes (n : Nat) : List Nat := [n &&& 0xFF, (n >>> 8) &&& 0xFF]

/-- `DATABASE_MAGIC = b"databas format1\0"`. -/
def DATABASE_MAGIC : List Nat :=
  [100, 97, 116, 97, 98, 97, 115, 32, 102, 111, 114, 109, 97, 116, 49, 0]

/-- `DatabaseHeader::write` on a fresh buffer: zero the page, write the
magic, page size, page count, and the trailing checksum. -/
def databaseHeaderPage (page_count : Nat) : List Nat :=
  write_page_checksum
    (writeBytesAt
      (writeBytesAt
        (writeBytesAt (List.replicate PAGE_SIZE 0) 0 DATABASE_MAGIC)
        16 (u16ToLeBytes PAGE_SIZE))
      18 (u64ToLeBytes page_count))

/-- `File::set_len`: truncate or zero-extend to `n` bytes. -/
def setLen (file : List Nat) (n : Nat) : List Nat :=
  if n ≤ file.length then file.take n
  else file ++ List.replicate (n - file.length) 0

/-- `DiskManager::new_page`: extend the file by one zeroed page with a
valid checksum, bump the page count, rewrite the header page, return the
new page's id (the old page count). -/
def DiskManager.new_page (dm : DiskManager) : Except StorageError (Nat × DiskManager) :=
  let page_id := dm.page_count
  let new_page_id := page_id + 1
  let file1 := setLen dm.file (new_page_id * PAGE_SIZE)
  let buf := write_page_checksum (List.replicate PAGE_SIZE 0)
  let file2 := writeBytesAt file1 (DiskManager.page_offset page_id) buf
  let new_count := dm.page_count + 1
  let file3 := writeBytesAt file2 0 (databaseHeaderPage new_count)
  .ok (page_id, ⟨file3, new_count⟩)

/-!
## Page cache (`crates/databas_core/src/page_cache.rs`)

The `HashMap<PageId, FrameId>` page table is embedded as an association
list with the map operations (lookup, insert-or-replace, remove).  A
`PinGuard` is embedded as the frame index it pins; dropping the guard is
the explicit state transition `dropPinGuard`.
-/

/-- `PageCacheError` from `error.rs` (the storage payload is kept). -/
inductive PageCacheError where
  | storage (e : StorageError)
  | noEvictableFrame
  | pinnedPage (pageId : Nat)
  | invalidFrameCount (n : Nat)
  | corruptPageTableEntry (pageId frameId frameCount : Nat)
  deriving Repr, DecidableEq

/-- `Frame`. -/
structure Frame where
  page_id : Option Nat
  data : List Nat
  reference : Bool
  dirty : Bool
  pin_count : Nat
  deriving Repr, DecidableEq

/-- `Frame::empty`. -/
def Frame.empty : Frame :=
  ⟨none, List.replicate PAGE_SIZE 0, false, false, 0⟩

/-- `HashMap::get` on the association-list page table. -/
def ptGet (pt : List (Nat × Nat)) (k : Nat) : Option Nat :=
  (pt.find? (fun e => e.1 == k)).map (·.2)

/-- `HashMap::insert` (replace an existing key or add a new entry). -/
def ptInsert (pt : List (Nat × Nat)) (k v : Nat) : List (Nat × Nat) :=
  if (pt.find? (fun e => e.1 == k)).isSome then
    pt.map (fun e => if e.1 == k then (k, v) else e)
  else pt ++ [(k, v)]

/-- `HashMap::remove`. -/
def ptRemove (pt : List (Nat × Nat)) (k : Nat) : List (Nat × Nat) :=
  pt.filter (fun e => e.1 != k)

/-- `HashMap::contains_key`. -/
def ptContains (pt : List (Nat × Nat)) (k : Nat) : Bool :=
  (ptGet pt k).isSome

/-- `PageCache`. -/
structure PageCache where
  disk_manager : DiskManager
  frames : List Frame
  page_table : List (Nat × Nat)
  clock_hand : Nat

/-- The clock scan of `select_victim_frame`: examine the frame under the
hand, advance the hand modulo the frame count, skip pinned frames, clear
the referenced bit of referenced unpinned frames, stop at an unreferenced
unpinned frame; `fuel` is the remaining scan budget. -/
def selectVictimLoop (frames : List Frame) (hand : Nat) :
    Nat → Option Nat × List Frame × Nat
  | 0 => (none, frames, hand)
  | fuel + 1 =>
    let frame_id := hand
    let hand2 := (hand + 1) % frames.length
    let frame := frames.getD frame_id Frame.empty
    if frame.pin_count > 0 then selectVictimLoop frames hand2 fuel
    else if frame.reference then
      selectVictimLoop (frames.set frame_id { frame with reference := false }) hand2 fuel
    else (some frame_id, frames, hand2)

/-- `PageCache::select_victim_frame`: scan up to `2 * frames.len()`
positions. -/
def PageCache.select_victim_frame (pc : PageCache) : Option Nat × PageCache :=
  let max_scans := pc.frames.length * 2
  let r := selectVictimLoop pc.frames pc.clock_hand max_scans
  (r.1, { pc with frames := r.2.1, clock_hand := r.2.2 })

/-- `PageCache::flush_frame_if_dirty`. -/
def PageCache.flush_frame_if_dirty (pc : PageCache) (frame_id : Nat) :
    Except PageCacheError PageCache :=
  let frame := pc.frames.getD frame_id Frame.empty
  if frame.dirty then
    match frame.page_id with
    | none => .ok pc
    | some page_id =>
      match pc.disk_manager.write_page page_id frame.data with
      | .error e => .error (.storage e)
      | .ok dm =>
        .ok (PageCache.mk dm
          (pc.frames.set frame_id { frame with dirty := false })
          pc.page_table pc.clock_hand)
  else .ok pc

/-- `PageCache::replace_frame`: flush the victim if dirty, drop its page
table entry, read the new page from disk, install the fresh pinned frame,
insert the new page-table entry. -/
def PageCache.replace_frame (pc : PageCache) (frame_id new_page_id : Nat) :
    Except PageCacheError PageCache :=
  match pc.flush_frame_if_dirty frame_id with
  | .error e => .error e
  | .ok pc1 =>
    let pc2 :=
      match (pc1.frames.getD frame_id Frame.empty).page_id with
      | some old_page_id =>
        PageCache.mk pc1.disk_manager pc1.frames
          (ptRemove pc1.page_table old_page_id) pc1.clock_hand
      | none => pc1
    match pc2.disk_manager.read_page new_page_id with
    | .error e => .error (.storage e)
    | .ok data =>
      .ok (PageCache.mk pc2.disk_manager
        (pc2.frames.set frame_id ⟨some new_page_id, data, true, false, 1⟩)
        (ptInsert pc2.page_table new_page_id frame_id) pc2.clock_hand)

/-- `PageCache::fetch_page`: on a hit set the referenced bit and increment
the pin count; on a miss select a victim and replace it.  The returned
`Nat` is the frame index the returned `PinGuard` is bound to. -/
def PageCache.fetch_page (pc : PageCache) (page_id : Nat) :
    Except PageCacheError (Nat × PageCache) :=
  match ptGet pc.page_table page_id with
  | some frame_id =>
    let frame := pc.frames.getD frame_id Frame.empty
    let frame2 := { frame with reference := true, pin_count := frame.pin_count + 1 }
    .ok (frame_id, { pc with frames := pc.frames.set frame_id frame2 })
  | none =>
    let r := pc.select_victim_frame
    match r.1 with
    | none => .error .noEvictableFrame
    | some frame_id =>
      match r.2.replace_frame frame_id page_id with
      | .error e => .error e
      | .ok pc2 => .ok (frame_id, pc2)

/-- `PageCache::new_page`: select a victim first (fail fast), then allocate
on disk, then replace. -/
def PageCache.new_page (pc : PageCache) :
    Except PageCacheError (Nat × Nat × PageCache) :=
  let r := pc.select_victim_frame
  match r.1 with
  | none => .error .noEvictableFrame
  | some frame_id =>
    match r.2.disk_manager.new_page with
    | .error e => .error (.storage e)
    | .ok (page_id, dm) =>
      let pc2 := PageCache.mk dm r.2.frames r.2.page_table r.2.clock_hand
      match pc2.replace_frame frame_id page_id with
      | .error e => .error e
      | .ok pc3 => .ok (page_id, frame_id, pc3)

/-- `impl Drop for PinGuard`: decrement the pin count of the guarded frame;
the decrement is guarded so the count can never underflow (the
`debug_assert!` is a debug-build diagnostic only). -/
def PageCache.dropPinGuard (pc : PageCache) (frame_id : Nat) : PageCache :=
  let frame := pc.frames.getD frame_id Frame.empty
  if frame.pin_count > 0 then
    { pc with frames :=
      pc.frames.set frame_id { frame with pin_count := frame.pin_count - 1 } }
  else pc

/-- Entries of the page table index real frames, and the clock hand is in
range: invariants established by `PageCache::new` and preserved by every
operation. -/
def PageCache.WF (pc : PageCache) : Prop :=
  0 < pc.frames.length ∧ pc.clock_hand < pc.frames.length ∧
    ∀ e ∈ pc.page_table, e.2 < pc.frames.length

/-!
### The S5 scenario (frameCount = 2, fetch+release pages 0, 1, 2)
-/

/-- A zeroed page with a valid trailing checksum. -/
def s5Page : List Nat := write_page_checksum (List.replicate PAGE_SIZE 0)

/-- A three-page disk of valid zeroed pages. -/
def s5Disk : DiskManager := ⟨s5Page ++ s5Page ++ s5Page, 3⟩

/-- A fresh two-frame cache over `s5Disk`. -/
def s5Cache : PageCache := ⟨s5Disk, [Frame.empty, Frame.empty], [], 0⟩

/-- Fetch a page and immediately release the pin guard. -/
def fetchRelease (pc : PageCache) (page_id : Nat) :
    Except PageCacheError PageCache :=
  match pc.fetch_page page_id with
  | .error e => .error e
  | .ok r => .ok (r.2.dropPinGuard r.1)

/-- Sequencing of fallible page-cache steps (the `?` operator). -/
def exceptSeq (x : Except PageCacheError PageCache)
    (f : PageCache → Except PageCacheError PageCache) :
    Except PageCacheError PageCache :=
  match x with
  | .error e => .error e
  | .ok pc => f pc

/-- The S5 run: fetch+release pages 0, 1, 2 in order. -/
def s5Run : Except PageCacheError PageCache :=
  exceptSeq (fetchRelease s5Cache 0) (fun pc1 =>
    exceptSeq (fetchRelease pc1 1) (fun pc2 =>
      fetchRelease pc2 2))

/-!
## The SQL expression parser

Embedded from `src/parser/op.rs` (the `Op` enum, `TryFrom<Token> for Op`,
`prefix_binding_power`, `infix_binding_power`) and
`crates/databas_sql_parser/src/parser/mod.rs` (`Parser::expr_bp`,
`Parser::parse_unary_op`) over the token kinds of
`crates/databas_sql_parser/src/lexer/token_kind.rs`.

The lexer is replaced by an explicit token list (one-token lookahead
`peek` becomes pattern matching on the head); byte offsets carried by
`Token`/`SQLError` are omitted, so errors carry only their kind.  The
`Keyword::Aggregate` arm of `expr_bp` is unreachable here because the
`Keyword` enum in `token_kind.rs` of this tree has no `Aggregate`
variant, so that arm is not modelled.  Rust's call stack is modelled by
an explicit fuel parameter; `RecursionLimit` stands for fuel exhaustion
and is never reached for the inputs appearing in the theorems below.
-/

inductive Keyword where
  | Select | From | Where | Order | By | Asc | Desc | True | False
  | And | Or | Not | Limit | Offset | Insert | Into | Values | Create
  | Table | Int | Float | Text
deriving DecidableEq

/-- Rust `NumberKind`; the `f32` payload of `Float` is kept as its raw
32-bit pattern. -/
inductive NumberKind where
  | Integer (n : Int)
  | Float (bits : Nat)
deriving DecidableEq

inductive TokenKind where
  | String (s : String)
  | Identifier (s : String)
  | Keyword (k : Keyword)
  | Number (n : NumberKind)
  | LeftParen
  | RightParen
  | Plus
  | Minus
  | Equals
  | NotEquals
  | EqualsEquals
  | LessThan
  | GreaterThan
  | LessThanOrEqual
  | GreaterThanOrEqual
  | Asterisk
  | Comma
  | Semicolon
  | Slash
deriving DecidableEq

inductive Op where
  | And | Or | NotEquals | EqualsEquals | LessThan | GreaterThan
  | LessThanOrEqual | GreaterThanOrEqual | Not | Add | Sub | Mul | Div
deriving DecidableEq

/-- `SQLError` kinds reachable from expression parsing (positions omitted). -/
inductive SQLError where
  | UnexpectedEnd
  | InvalidOperator (op : TokenKind)
  | InvalidPrefixOperator (op : TokenKind)
  | UnclosedParenthesis
  | Other (t : TokenKind)
  | UnexpectedTokenKind (expected got : TokenKind)
  | RecursionLimit
deriving DecidableEq

/-- `impl TryFrom<Token> for Op` from `src/parser/op.rs`. -/
def Op.try_from (t : TokenKind) : Except SQLError Op :=
  match t with
  | .Keyword .And => .ok .And
  | .Keyword .Or => .ok .Or
  | .Keyword .Not => .ok .Not
  | .Plus => .ok .Add
  | .Minus => .ok .Sub
  | .Asterisk => .ok .Mul
  | .Slash => .ok .Div
  | .EqualsEquals => .ok .EqualsEquals
  | .NotEquals => .ok .NotEquals
  | .LessThan => .ok .LessThan
  | .GreaterThan => .ok .GreaterThan
  | .LessThanOrEqual => .ok .LessThanOrEqual
  | .GreaterThanOrEqual => .ok .GreaterThanOrEqual
  | other => .error (.InvalidOperator other)

def Op.prefix_binding_power : Op → Option (Unit × Nat)
  | .Not | .Sub => some ((), 7)
  | _ => none

def Op.infix_binding_power : Op → Option (Nat × Nat)
  | .And | .Or => some (1, 2)
  | .NotEquals | .EqualsEquals | .LessThan | .GreaterThan
  | .LessThanOrEqual | .GreaterThanOrEqual => some (3, 4)
  | .Add | .Sub => some (5, 6)
  | .Mul | .Div => some (6, 7)
  | _ => none

inductive Literal where
  | String (s : String)
  | Number (n : NumberKind)
  | Boolean (b : Bool)
deriving DecidableEq

inductive AggregateFunctionKind where
  | Sum | Count | Avg | StdDev | Min | Max
deriving DecidableEq

inductive Expression where
  | Literal (l : Literal)
  | Identifier (s : String)
  | UnaryOp (op : Op) (e : Expression)
  | BinaryOp (lhs : Expression) (op : Op) (rhs : Expression)
  | Wildcard
  | AggregateFunction (kind : AggregateFunctionKind) (e : Expression)
deriving DecidableEq

/-- The token kinds at which the infix loop of `expr_bp` breaks (the
`matches!` at the top of the loop). -/
def isExprStopper (t : TokenKind) : Bool :=
  match t with
  | .Comma | .RightParen | .Semicolon
  | .Keyword .From | .Keyword .Where | .Keyword .Order
  | .Keyword .Desc | .Keyword .Asc | .Keyword .Limit | .Keyword .Offset => true
  | _ => false

/-- `Lexer::expect_token`: consume the next token, demanding `expected`. -/
def expect_token (expected : TokenKind) (toks : List TokenKind) :
    Except SQLError (List TokenKind) :=
  match toks with
  | [] => .error .UnexpectedEnd
  | t :: rest =>
    if t = expected then .ok rest else .error (.UnexpectedTokenKind expected t)

mutual

/-- `Parser::expr_bp`, returning the parsed expression and remaining
tokens.  The atom is parsed first, then control enters the infix loop
`expr_loop`. -/
def expr_bp : Nat → Nat → List TokenKind →
    Except SQLError (Expression × List TokenKind)
  | 0, _, _ => .error .RecursionLimit
  | fuel + 1, min_bp, toks =>
    match toks with
    | [] => .error .UnexpectedEnd
    | t :: rest =>
      match t with
      | .String s => expr_loop fuel min_bp (.Literal (.String s)) rest
      | .Number n => expr_loop fuel min_bp (.Literal (.Number n)) rest
      | .Keyword .True => expr_loop fuel min_bp (.Literal (.Boolean true)) rest
      | .Keyword .False => expr_loop fuel min_bp (.Literal (.Boolean false)) rest
      | .Identifier id => expr_loop fuel min_bp (.Identifier id) rest
      | .Asterisk => expr_loop fuel min_bp .Wildcard rest
      | .LeftParen =>
        match expr_bp fuel 0 rest with
        | .error _ => .error .UnclosedParenthesis
        | .ok (lhs, rest2) =>
          match expect_token .RightParen rest2 with
          | .error e => .error e
          | .ok rest3 => expr_loop fuel min_bp lhs rest3
      | .Minus =>
        match parse_unary_op fuel .Minus rest with
        | .error e => .error e
        | .ok (lhs, rest2) => expr_loop fuel min_bp lhs rest2
      | .Keyword .Not =>
        match parse_unary_op fuel (.Keyword .Not) rest with
        | .error e => .error e
        | .ok (lhs, rest2) => expr_loop fuel min_bp lhs rest2
      | other => .error (.Other other)

/-- `Parser::parse_unary_op`: convert the token to an `Op`, demand a
prefix binding power, and parse the operand at that power. -/
def parse_unary_op : Nat → TokenKind → List TokenKind →
    Except SQLError (Expression × List TokenKind)
  | 0, _, _ => .error .RecursionLimit
  | fuel + 1, t, toks =>
    match Op.try_from t with
    | .error e => .error e
    | .ok op =>
      match op.prefix_binding_power with
      | none => .error (.InvalidPrefixOperator t)
      | some (_, r_bp) =>
        match expr_bp fuel r_bp toks with
        | .error e => .error e
        | .ok (rhs, rest) => .ok (.UnaryOp op rhs, rest)

/-- The `while let Some(Ok(token)) = self.lexer.peek()` infix loop of
`expr_bp`: stop at end of input, at a stopper token or when the next
operator binds weaker than `min_bp`; otherwise consume the operator,
parse the right operand and fold into a `BinaryOp`. -/
def expr_loop : Nat → Nat → Expression → List TokenKind →
    Except SQLError (Expression × List TokenKind)
  | 0, _, _, _ => .error .RecursionLimit
  | fuel + 1, min_bp, lhs, toks =>
    match toks with
    | [] => .ok (lhs, [])
    | t :: rest =>
      if isExprStopper t then .ok (lhs, t :: rest)
      else
        match Op.try_from t with
        | .error e => .error e
        | .ok op =>
          match op.infix_binding_power with
          | none => .error (.InvalidOperator t)
          | some (l_bp, r_bp) =>
            if l_bp < min_bp then .ok (lhs, t :: rest)
            else
              match expr_bp fuel r_bp rest with
              | .error e => .error e
              | .ok (rhs, rest2) =>
                expr_loop fuel min_bp (.BinaryOp lhs op rhs) rest2

end

/-- `Parser::expr`: parse a whole expression from minimum binding power 0.
The fuel bound is generous: every recursive call either consumes a token
first or alternates at most once without consuming. -/
def parse_expression (toks : List TokenKind) :
    Except SQLError (Expression × List TokenKind) :=
  expr_bp (2 * toks.length + 2) 0 toks

/-- Shorthand for an integer-literal token. -/
def numTok (n : Int) : TokenKind := .Number (.Integer n)

/-- Shorthand for an integer-literal expression. -/
def numExpr (n : Int) : Expression := .Literal (.Number (.Integer n))

/-!
## Slotted table pages

Embedded from `crates/databas_core/src/table_page/layout.rs`,
`leaf.rs` and `interior.rs`.  A page is a `List Nat` of `PAGE_SIZE`
bytes; fallible operations return the updated page in `Except`.
`layout.rs` in this tree lacks four helpers its callers use
(`find_row_id`, `defragment`, `try_append_cell_with_writer`,
`try_append_cell_with_writer_for_insert`, and the revalidation-free
`cell_bytes_at_slot_on_valid_page`); those are modelled from the spec,
each marked below.  The vacuous `u16`/`usize` conversion checks of the
source (values already bounded by `PAGE_SIZE` or by a `u16` read) are
not modelled.
-/

def LEAF_PAGE_TYPE : Nat := 1

def INTERIOR_PAGE_TYPE : Nat := 2

def LEAF_HEADER_SIZE : Nat := 8

def INTERIOR_HEADER_SIZE : Nat := 16

def INTERIOR_RIGHTMOST_CHILD_OFFSET : Nat := 8

def PAGE_TYPE_OFFSET : Nat := 0

def CELL_COUNT_OFFSET : Nat := 2

def CONTENT_START_OFFSET : Nat := 4

def SLOT_WIDTH : Nat := 2

/-- Static properties of one table-page kind. -/
structure PageSpec where
  page_type : Nat
  header_size : Nat

inductive TablePageError where
  | InvalidPageType (page_type : Nat)
  | CorruptPage (msg : String)
  | CorruptCell (slot_index : Nat)
  | CellTooLarge (len : Nat)
  | DuplicateRowId (row_id : Nat)
  | RowIdNotFound (row_id : Nat)
  | PageFull (needed available : Nat)
deriving DecidableEq

/-- Row-id lookup result: matching slot or sorted insertion point. -/
inductive SearchResult where
  | Found (slot_index : Nat)
  | NotFound (insertion_index : Nat)
deriving DecidableEq

/-- `u16::from_le_bytes` of two bytes read at `off`. -/
def read_u16 (bytes : List Nat) (off : Nat) : Nat :=
  bytes.getD off 0 + 256 * bytes.getD (off + 1) 0

def write_u16 (page : List Nat) (off v : Nat) : List Nat :=
  writeBytesAt page off (u16ToLeBytes v)

/-- `u64::from_le_bytes` of eight bytes read at `off`. -/
def read_u64 (bytes : List Nat) (off : Nat) : Nat :=
  u64FromLeBytes ((bytes.drop off).take 8)

def write_u64_at (page : List Nat) (off v : Nat) : List Nat :=
  writeBytesAt page off (u64ToLeBytes v)

def page_type (page : List Nat) : Nat := page.getD PAGE_TYPE_OFFSET 0

def cell_count (page : List Nat) : Nat := read_u16 page CELL_COUNT_OFFSET

def content_start (page : List Nat) : Nat := read_u16 page CONTENT_START_OFFSET

def validate_spec (spec : PageSpec) : Except TablePageError Unit :=
  if spec.header_size < CONTENT_START_OFFSET + 2 ∨ PAGE_SIZE < spec.header_size then
    .error (.CorruptPage "invalid page header size")
  else .ok ()

def set_cell_count (page : List Nat) (c : Nat) : List Nat :=
  write_u16 page CELL_COUNT_OFFSET c

def set_content_start (page : List Nat) (cs : Nat) :
    Except TablePageError (List Nat) :=
  if 0xFFFF < cs then .error (.CorruptPage "content start overflow")
  else .ok (write_u16 page CONTENT_START_OFFSET cs)

def slot_dir_end_for_count (spec : PageSpec) (count : Nat) :
    Except TablePageError Nat :=
  if PAGE_SIZE < spec.header_size + count * SLOT_WIDTH then
    .error (.CorruptPage "slot directory exceeds page size")
  else .ok (spec.header_size + count * SLOT_WIDTH)

def validate (page : List Nat) (spec : PageSpec) : Except TablePageError Unit :=
  match validate_spec spec with
  | .error e => .error e
  | .ok _ =>
    if page_type page ≠ spec.page_type then
      .error (.InvalidPageType (page_type page))
    else
      match slot_dir_end_for_count spec (cell_count page) with
      | .error e => .error e
      | .ok slot_dir_end =>
        if content_start page < slot_dir_end ∨ PAGE_SIZE < content_start page then
          .error (.CorruptPage "invalid cell content start")
        else .ok ()

def init_empty (page : List Nat) (spec : PageSpec) :
    Except TablePageError (List Nat) :=
  match validate_spec spec with
  | .error e => .error e
  | .ok _ =>
    set_content_start
      (set_cell_count
        (writeBytesAt (List.replicate PAGE_SIZE 0) PAGE_TYPE_OFFSET
          [spec.page_type]) 0)
      PAGE_SIZE

def free_space (page : List Nat) (spec : PageSpec) :
    Except TablePageError Nat :=
  match validate page spec with
  | .error e => .error e
  | .ok _ =>
    match slot_dir_end_for_count spec (cell_count page) with
    | .error e => .error e
    | .ok slot_dir_end => .ok (content_start page - slot_dir_end)

def slot_position (spec : PageSpec) (slot_index : Nat) :
    Except TablePageError Nat :=
  if PAGE_SIZE < spec.header_size + slot_index * SLOT_WIDTH + SLOT_WIDTH then
    .error (.CorruptPage "slot directory exceeds page size")
  else .ok (spec.header_size + slot_index * SLOT_WIDTH)

def slot_offset (page : List Nat) (spec : PageSpec) (slot_index : Nat) :
    Except TablePageError Nat :=
  if cell_count page ≤ slot_index then
    .error (.CorruptPage "slot index out of bounds")
  else
    match slot_position spec slot_index with
    | .error e => .error e
    | .ok position => .ok (read_u16 page position)

def write_slot_offset_raw (page : List Nat) (spec : PageSpec)
    (slot_index cell_offset : Nat) : Except TablePageError (List Nat) :=
  match slot_position spec slot_index with
  | .error e => .error e
  | .ok position => .ok (write_u16 page position cell_offset)

def set_slot_offset (page : List Nat) (spec : PageSpec)
    (slot_index cell_offset : Nat) : Except TablePageError (List Nat) :=
  match validate page spec with
  | .error e => .error e
  | .ok _ =>
    if cell_count page ≤ slot_index then
      .error (.CorruptPage "slot index out of bounds")
    else write_slot_offset_raw page spec slot_index cell_offset

/-- Outcome of a cell append: Rust's `Result<u16, SpaceError>` plus the
mutated page. -/
inductive AppendResult where
  | appended (offset : Nat) (page : List Nat)
  | space (needed available : Nat)

def try_append_cell (page : List Nat) (spec : PageSpec) (cell : List Nat) :
    Except TablePageError AppendResult :=
  match validate page spec with
  | .error e => .error e
  | .ok _ =>
    if 0xFFFF < cell.length then .error (.CellTooLarge cell.length)
    else
      match slot_dir_end_for_count spec (cell_count page) with
      | .error e => .error e
      | .ok slot_dir_end =>
        if content_start page - slot_dir_end < cell.length then
          .ok (.space cell.length (content_start page - slot_dir_end))
        else
          match set_content_start
              (writeBytesAt page (content_start page - cell.length) cell)
              (content_start page - cell.length) with
          | .error e => .error e
          | .ok p2 => .ok (.appended (content_start page - cell.length) p2)

def try_append_cell_for_insert (page : List Nat) (spec : PageSpec)
    (cell : List Nat) : Except TablePageError AppendResult :=
  match validate page spec with
  | .error e => .error e
  | .ok _ =>
    if 0xFFFF < cell.length then .error (.CellTooLarge cell.length)
    else
      match slot_dir_end_for_count spec (cell_count page + 1) with
      | .error e => .error e
      | .ok slot_dir_end =>
        if content_start page - slot_dir_end < cell.length then
          .ok (.space cell.length (content_start page - slot_dir_end))
        else
          match set_content_start
              (writeBytesAt page (content_start page - cell.length) cell)
              (content_start page - cell.length) with
          | .error e => .error e
          | .ok p2 => .ok (.appended (content_start page - cell.length) p2)

/-- The `for slot in (insert_index..cell_count).rev()` loop of
`insert_slot`: copy slot `a + n - 1` down to slot `a` each one entry up. -/
def shiftSlotsUp (spec : PageSpec) (a : Nat) :
    Nat → List Nat → Except TablePageError (List Nat)
  | 0, page => .ok page
  | n + 1, page =>
    match slot_offset page spec (a + n) with
    | .error e => .error e
    | .ok off =>
      match write_slot_offset_raw page spec (a + n + 1) off with
      | .error e => .error e
      | .ok p2 => shiftSlotsUp spec a n p2

def insert_slot (page : List Nat) (spec : PageSpec)
    (insert_index cell_offset : Nat) : Except TablePageError (List Nat) :=
  match validate page spec with
  | .error e => .error e
  | .ok _ =>
    if cell_count page < insert_index then
      .error (.CorruptPage "slot index out of bounds")
    else
      match slot_dir_end_for_count spec (cell_count page + 1) with
      | .error e => .error e
      | .ok slot_dir_end =>
        if content_start page < slot_dir_end then
          .error (.CorruptPage "slot directory overlaps cell content")
        else
          match shiftSlotsUp spec insert_index
              (cell_count page - insert_index) page with
          | .error e => .error e
          | .ok p2 =>
            match write_slot_offset_raw p2 spec insert_index cell_offset with
            | .error e => .error e
            | .ok p3 => .ok (set_cell_count p3 (cell_count page + 1))

/-- The `for slot in remove_index..(cell_count - 1)` loop of
`remove_slot`: copy each following slot one entry down. -/
def shiftSlotsDown (spec : PageSpec) :
    Nat → Nat → List Nat → Except TablePageError (List Nat)
  | 0, _, page => .ok page
  | n + 1, a, page =>
    match slot_offset page spec (a + 1) with
    | .error e => .error e
    | .ok off =>
      match write_slot_offset_raw page spec a off with
      | .error e => .error e
      | .ok p2 => shiftSlotsDown spec n (a + 1) p2

def remove_slot (page : List Nat) (spec : PageSpec) (remove_index : Nat) :
    Except TablePageError (List Nat) :=
  match validate page spec with
  | .error e => .error e
  | .ok _ =>
    if cell_count page ≤ remove_index then
      .error (.CorruptPage "slot index out of bounds")
    else
      match shiftSlotsDown spec (cell_count page - 1 - remove_index)
          remove_index page with
      | .error e => .error e
      | .ok p2 =>
        match write_slot_offset_raw p2 spec (cell_count page - 1) 0 with
        | .error e => .error e
        | .ok p3 => .ok (set_cell_count p3 (cell_count page - 1))

def cell_bytes_at_slot_impl (page : List Nat) (spec : PageSpec)
    (slot_index : Nat) : Except TablePageError (List Nat) :=
  match slot_offset page spec slot_index with
  | .error e => .error e
  | .ok cell_offset =>
    if cell_offset < content_start page ∨ PAGE_SIZE ≤ cell_offset then
      .error (.CorruptCell slot_index)
    else .ok (page.drop cell_offset)

def cell_bytes_at_slot (page : List Nat) (spec : PageSpec)
    (slot_index : Nat) : Except TablePageError (List Nat) :=
  match validate page spec with
  | .error e => .error e
  | .ok _ => cell_bytes_at_slot_impl page spec slot_index

/-- Modelled from the spec: `cell_bytes_at_slot_on_valid_page`, the
revalidation-free accessor used by `find_interior_row_id` and
defragmentation on already-validated pages, is the in-source
`cell_bytes_at_slot_impl` without the leading `validate`. -/
def cell_bytes_at_slot_on_valid_page (page : List Nat) (spec : PageSpec)
    (slot_index : Nat) : Except TablePageError (List Nat) :=
  cell_bytes_at_slot_impl page spec slot_index

/-- The `while left < right` binary-search loop of
`find_interior_row_id`, generalized over the per-kind key extractor.
The fuel models loop termination; callers pass `cell_count`, which
bounds `right - left`. -/
def findRowIdLoop (page : List Nat) (spec : PageSpec)
    (extract : List Nat → Except TablePageError Nat) (row_id : Nat) :
    Nat → Nat → Nat → Except TablePageError SearchResult
  | 0, left, _ => .ok (.NotFound left)
  | fuel + 1, left, right =>
    if left < right then
      match cell_bytes_at_slot_on_valid_page page spec
          (left + (right - left) / 2) with
      | .error e => .error e
      | .ok cell =>
        match extract cell with
        | .error _ => .error (.CorruptCell (left + (right - left) / 2))
        | .ok current =>
          if current < row_id then
            findRowIdLoop page spec extract row_id fuel
              (left + (right - left) / 2 + 1) right
          else if row_id < current then
            findRowIdLoop page spec extract row_id fuel left
              (left + (right - left) / 2)
          else .ok (.Found (left + (right - left) / 2))
    else .ok (.NotFound left)

/-- Modelled from the spec: the shared `layout::find_row_id` used by the
leaf page ("binary search across slots", §4.8) is the in-source
`find_interior_row_id` binary search generalized over the key
extractor: validate, then search `[0, cell_count)`. -/
def find_row_id (page : List Nat) (spec : PageSpec) (row_id : Nat)
    (extract : List Nat → Except TablePageError Nat) :
    Except TablePageError SearchResult :=
  match validate page spec with
  | .error e => .error e
  | .ok _ =>
    findRowIdLoop page spec extract row_id (cell_count page) 0
      (cell_count page)

/-- The cell-collection loop of defragmentation: decoded live cells of
slots `i, i+1, …` (`n` of them), each truncated to its decoded length. -/
def defragCollect (page : List Nat) (spec : PageSpec)
    (cell_len_fn : List Nat → Except TablePageError Nat) :
    Nat → Nat → Except TablePageError (List (List Nat))
  | 0, _ => .ok []
  | n + 1, i =>
    match cell_bytes_at_slot_on_valid_page page spec i with
    | .error e => .error e
    | .ok cell =>
      match cell_len_fn cell with
      | .error _ => .error (.CorruptCell i)
      | .ok len =>
        match defragCollect page spec cell_len_fn n (i + 1) with
        | .error e => .error e
        | .ok rest => .ok (cell.take len :: rest)

/-- The re-append loop of defragmentation: append each saved cell and
install its slot, in slot order. -/
def defragAppend (spec : PageSpec) :
    List (List Nat) → Nat → List Nat → Except TablePageError (List Nat)
  | [], _, page => .ok page
  | cell :: rest, slot, page =>
    match try_append_cell_for_insert page spec cell with
    | .error e => .error e
    | .ok (.space _ _) => .error (.CorruptPage "cell content underflow")
    | .ok (.appended off p2) =>
      match insert_slot p2 spec slot off with
      | .error e => .error e
      | .ok p3 => defragAppend spec rest (slot + 1) p3

/-- Modelled from the spec (§4.7 defragmentation) and mirroring the
in-source `defragment_interior_page`: collect live cells, re-`init` the
page, re-append in slot order. -/
def defragment (page : List Nat) (spec : PageSpec)
    (cell_len_fn : List Nat → Except TablePageError Nat) :
    Except TablePageError (List Nat) :=
  match validate page spec with
  | .error e => .error e
  | .ok _ =>
    match defragCollect page spec cell_len_fn (cell_count page) 0 with
    | .error e => .error e
    | .ok cells =>
      match init_empty page spec with
      | .error e => .error e
      | .ok p2 => defragAppend spec cells 0 p2

/-!
## Leaf pages (`table_page/leaf.rs`)

`TableLeafPageRef`/`TableLeafPageMut` wrap the same bytes; both are the
page itself here.  The missing writer-based appenders
(`try_append_cell_with_writer`, `try_append_cell_with_writer_for_insert`)
are modelled from the spec as the checked appenders applied to the bytes
the writer closure produces (`payloadLen(u16) || rowId(u64) || payload`,
§4.8), which writes the identical region.
-/

def LEAF_SPEC : PageSpec := ⟨LEAF_PAGE_TYPE, LEAF_HEADER_SIZE⟩

def PAYLOAD_LEN_SIZE : Nat := 2

def ROW_ID_SIZE : Nat := 8

def LEAF_CELL_PREFIX_SIZE : Nat := PAYLOAD_LEN_SIZE + ROW_ID_SIZE

def leaf_cell_len (cell : List Nat) : Except TablePageError Nat :=
  if cell.length < LEAF_CELL_PREFIX_SIZE then
    .error (.CorruptPage "leaf cell too short")
  else
    if cell.length < LEAF_CELL_PREFIX_SIZE + read_u16 cell 0 then
      .error (.CorruptPage "leaf cell payload out of bounds")
    else .ok (LEAF_CELL_PREFIX_SIZE + read_u16 cell 0)

def leaf_row_id_from_cell (cell : List Nat) : Except TablePageError Nat :=
  if cell.length < LEAF_CELL_PREFIX_SIZE then
    .error (.CorruptPage "leaf cell too short")
  else .ok (read_u64 cell PAYLOAD_LEN_SIZE)

def leaf_cell_encoded_len (payload : List Nat) : Except TablePageError Nat :=
  if 0xFFFF < payload.length then .error (.CellTooLarge payload.length)
  else .ok (LEAF_CELL_PREFIX_SIZE + payload.length)

/-- The bytes the leaf writer closures produce:
`payload_len (u16 LE) || row_id (u64 LE) || payload`. -/
def leafCellBytes (row_id : Nat) (payload : List Nat) : List Nat :=
  u16ToLeBytes payload.length ++ u64ToLeBytes row_id ++ payload

def try_append_leaf_cell (page : List Nat) (row_id : Nat)
    (payload : List Nat) : Except TablePageError AppendResult :=
  match leaf_cell_encoded_len payload with
  | .error e => .error e
  | .ok _ => try_append_cell page LEAF_SPEC (leafCellBytes row_id payload)

def try_append_leaf_cell_for_insert (page : List Nat) (row_id : Nat)
    (payload : List Nat) : Except TablePageError AppendResult :=
  match leaf_cell_encoded_len payload with
  | .error e => .error e
  | .ok _ =>
    try_append_cell_for_insert page LEAF_SPEC (leafCellBytes row_id payload)

def write_leaf_cell_for_insert_with_retry (page : List Nat) (row_id : Nat)
    (payload : List Nat) : Except TablePageError (Nat × List Nat) :=
  match try_append_leaf_cell_for_insert page row_id payload with
  | .error e => .error e
  | .ok (.appended off p2) => .ok (off, p2)
  | .ok (.space _ _) =>
    match defragment page LEAF_SPEC leaf_cell_len with
    | .error e => .error e
    | .ok p2 =>
      match try_append_leaf_cell_for_insert p2 row_id payload with
      | .error e => .error e
      | .ok (.appended off p3) => .ok (off, p3)
      | .ok (.space needed available) => .error (.PageFull needed available)

def write_leaf_cell_for_update_with_retry (page : List Nat) (row_id : Nat)
    (payload : List Nat) : Except TablePageError (Nat × List Nat) :=
  match try_append_leaf_cell page row_id payload with
  | .error e => .error e
  | .ok (.appended off p2) => .ok (off, p2)
  | .ok (.space _ _) =>
    match defragment page LEAF_SPEC leaf_cell_len with
    | .error e => .error e
    | .ok p2 =>
      match try_append_leaf_cell p2 row_id payload with
      | .error e => .error e
      | .ok (.appended off p3) => .ok (off, p3)
      | .ok (.space needed available) => .error (.PageFull needed available)

/-- `decode_leaf_cell_at_slot`, returning `(row_id, payload)`. -/
def decode_leaf_cell_at_slot (page : List Nat) (slot_index : Nat) :
    Except TablePageError (Nat × List Nat) :=
  match cell_bytes_at_slot page LEAF_SPEC slot_index with
  | .error e => .error e
  | .ok cell =>
    match leaf_cell_len cell with
    | .error _ => .error (.CorruptCell slot_index)
    | .ok _ =>
      .ok (read_u64 cell PAYLOAD_LEN_SIZE,
        (cell.drop LEAF_CELL_PREFIX_SIZE).take (read_u16 cell 0))

/-- `TableLeafPageRef::search`. -/
def leaf_search (page : List Nat) (row_id : Nat) :
    Except TablePageError (Option (Nat × List Nat)) :=
  match find_row_id page LEAF_SPEC row_id leaf_row_id_from_cell with
  | .error e => .error e
  | .ok (.Found slot_index) =>
    match decode_leaf_cell_at_slot page slot_index with
    | .error e => .error e
    | .ok c => .ok (some c)
  | .ok (.NotFound _) => .ok none

/-- `TableLeafPageMut::insert`. -/
def leaf_insert (page : List Nat) (row_id : Nat) (payload : List Nat) :
    Except TablePageError (List Nat) :=
  match find_row_id page LEAF_SPEC row_id leaf_row_id_from_cell with
  | .error e => .error e
  | .ok (.Found _) => .error (.DuplicateRowId row_id)
  | .ok (.NotFound insertion_index) =>
    match write_leaf_cell_for_insert_with_retry page row_id payload with
    | .error e => .error e
    | .ok (off, p2) => insert_slot p2 LEAF_SPEC insertion_index off

/-- `TableLeafPageMut::update`. -/
def leaf_update (page : List Nat) (row_id : Nat) (payload : List Nat) :
    Except TablePageError (List Nat) :=
  match find_row_id page LEAF_SPEC row_id leaf_row_id_from_cell with
  | .error e => .error e
  | .ok (.NotFound _) => .error (.RowIdNotFound row_id)
  | .ok (.Found slot_index) =>
    match cell_bytes_at_slot page LEAF_SPEC slot_index with
    | .error e => .error e
    | .ok existing_cell =>
      match leaf_cell_len existing_cell with
      | .error _ => .error (.CorruptCell slot_index)
      | .ok existing_len =>
        match leaf_cell_encoded_len payload with
        | .error e => .error e
        | .ok new_len =>
          if existing_len = new_len then
            match slot_offset page LEAF_SPEC slot_index with
            | .error e => .error e
            | .ok cell_offset =>
              .ok (writeBytesAt page cell_offset
                (leafCellBytes row_id payload))
          else
            match write_leaf_cell_for_update_with_retry page row_id payload with
            | .error e => .error e
            | .ok (off, p2) => set_slot_offset p2 LEAF_SPEC slot_index off

/-- `TableLeafPageMut::delete`. -/
def leaf_delete (page : List Nat) (row_id : Nat) :
    Except TablePageError (List Nat) :=
  match find_row_id page LEAF_SPEC row_id leaf_row_id_from_cell with
  | .error e => .error e
  | .ok (.Found slot_index) => remove_slot page LEAF_SPEC slot_index
  | .ok (.NotFound _) => .error (.RowIdNotFound row_id)

/-- `TableLeafPageMut::defragment`. -/
def leaf_defragment (page : List Nat) : Except TablePageError (List Nat) :=
  defragment page LEAF_SPEC leaf_cell_len

/-- `TableLeafPageMut::init_empty`. -/
def leaf_init_empty (page : List Nat) : Except TablePageError (List Nat) :=
  init_empty page LEAF_SPEC

/-!
## Interior pages (`table_page/interior.rs`)
-/

def INTERIOR_SPEC : PageSpec := ⟨INTERIOR_PAGE_TYPE, INTERIOR_HEADER_SIZE⟩

def LEFT_CHILD_SIZE : Nat := 8

def INTERIOR_CELL_SIZE : Nat := LEFT_CHILD_SIZE + ROW_ID_SIZE

def interior_cell_len (cell : List Nat) : Except TablePageError Nat :=
  if cell.length < INTERIOR_CELL_SIZE then
    .error (.CorruptPage "interior cell too short")
  else .ok INTERIOR_CELL_SIZE

def interior_row_id_from_cell (cell : List Nat) : Except TablePageError Nat :=
  if cell.length < INTERIOR_CELL_SIZE then
    .error (.CorruptPage "interior cell too short")
  else .ok (read_u64 cell LEFT_CHILD_SIZE)

/-- `encode_interior_cell`: `left_child (u64 LE) || row_id (u64 LE)`. -/
def encode_interior_cell (left_child row_id : Nat) : List Nat :=
  u64ToLeBytes left_child ++ u64ToLeBytes row_id

/-- `find_interior_row_id`: its in-source body is exactly
`find_row_id` at the interior spec and key extractor. -/
def find_interior_row_id (page : List Nat) (row_id : Nat) :
    Except TablePageError SearchResult :=
  find_row_id page INTERIOR_SPEC row_id interior_row_id_from_cell

/-- `decode_interior_cell_at_slot`, returning `(left_child, row_id)`. -/
def decode_interior_cell_at_slot (page : List Nat) (slot_index : Nat) :
    Except TablePageError (Nat × Nat) :=
  match cell_bytes_at_slot page INTERIOR_SPEC slot_index with
  | .error e => .error e
  | .ok cell =>
    match interior_cell_len cell with
    | .error _ => .error (.CorruptCell slot_index)
    | .ok _ => .ok (read_u64 cell 0, read_u64 cell LEFT_CHILD_SIZE)

/-- `TableInteriorPageRef::rightmost_child`. -/
def rightmost_child (page : List Nat) : Nat :=
  read_u64 page INTERIOR_RIGHTMOST_CHILD_OFFSET

/-- `TableInteriorPageRef::child_for_row_id`. -/
def child_for_row_id (page : List Nat) (row_id : Nat) :
    Except TablePageError Nat :=
  match find_interior_row_id page row_id with
  | .error e => .error e
  | .ok r =>
    match
      (match r with
       | .Found slot_index => some slot_index
       | .NotFound insertion_index =>
         if insertion_index < cell_count page then some insertion_index
         else none) with
    | some slot_index =>
      match decode_interior_cell_at_slot page slot_index with
      | .error e => .error e
      | .ok cell => .ok cell.1
    | none => .ok (rightmost_child page)

/-- `TableInteriorPageRef::search`. -/
def interior_search (page : List Nat) (row_id : Nat) :
    Except TablePageError (Option (Nat × Nat)) :=
  match find_interior_row_id page row_id with
  | .error e => .error e
  | .ok (.Found slot_index) =>
    match decode_interior_cell_at_slot page slot_index with
    | .error e => .error e
    | .ok c => .ok (some c)
  | .ok (.NotFound _) => .ok none

/-- `defragment_interior_page`: like the generic defragment but
preserving the rightmost-child header field. -/
def defragment_interior_page (page : List Nat) :
    Except TablePageError (List Nat) :=
  match validate page INTERIOR_SPEC with
  | .error e => .error e
  | .ok _ =>
    match defragCollect page INTERIOR_SPEC interior_cell_len
        (cell_count page) 0 with
    | .error e => .error e
    | .ok cells =>
      match init_empty page INTERIOR_SPEC with
      | .error e => .error e
      | .ok p2 =>
        defragAppend INTERIOR_SPEC cells 0
          (write_u64_at p2 INTERIOR_RIGHTMOST_CHILD_OFFSET
            (read_u64 page INTERIOR_RIGHTMOST_CHILD_OFFSET))

/-- `insert_interior_cell`: append with one defragment retry. -/
def insert_interior_cell (page : List Nat) (cell : List Nat) :
    Except TablePageError (Nat × List Nat) :=
  match try_append_cell_for_insert page INTERIOR_SPEC cell with
  | .error e => .error e
  | .ok (.appended off p2) => .ok (off, p2)
  | .ok (.space _ _) =>
    match defragment_interior_page page with
    | .error e => .error e
    | .ok p2 =>
      match try_append_cell_for_insert p2 INTERIOR_SPEC cell with
      | .error e => .error e
      | .ok (.appended off p3) => .ok (off, p3)
      | .ok (.space needed available) => .error (.PageFull needed available)

/-- `TableInteriorPageMut::insert`. -/
def interior_insert (page : List Nat) (row_id left_child : Nat) :
    Except TablePageError (List Nat) :=
  match find_interior_row_id page row_id with
  | .error e => .error e
  | .ok (.Found _) => .error (.DuplicateRowId row_id)
  | .ok (.NotFound insertion_index) =>
    match insert_interior_cell page (encode_interior_cell left_child row_id) with
    | .error e => .error e
    | .ok (off, p2) => insert_slot p2 INTERIOR_SPEC insertion_index off

/-- `TableInteriorPageMut::update`: overwrite the fixed-size cell in
place. -/
def interior_update (page : List Nat) (row_id left_child : Nat) :
    Except TablePageError (List Nat) :=
  match find_interior_row_id page row_id with
  | .error e => .error e
  | .ok (.NotFound _) => .error (.RowIdNotFound row_id)
  | .ok (.Found slot_index) =>
    match cell_bytes_at_slot page INTERIOR_SPEC slot_index with
    | .error e => .error e
    | .ok existing_cell =>
      match interior_cell_len existing_cell with
      | .error _ => .error (.CorruptCell slot_index)
      | .ok _ =>
        match slot_offset page INTERIOR_SPEC slot_index with
        | .error e => .error e
        | .ok cell_offset =>
          .ok (writeBytesAt page cell_offset
            (encode_interior_cell left_child row_id))

/-- `TableInteriorPageMut::delete`. -/
def interior_delete (page : List Nat) (row_id : Nat) :
    Except TablePageError (List Nat) :=
  match find_interior_row_id page row_id with
  | .error e => .error e
  | .ok (.Found slot_index) => remove_slot page INTERIOR_SPEC slot_index
  | .ok (.NotFound _) => .error (.RowIdNotFound row_id)

/-- `TableInteriorPageMut::init_empty`: init plus seeding the rightmost
child pointer. -/
def interior_init_empty (page : List Nat) (rightmost : Nat) :
    Except TablePageError (List Nat) :=
  match init_empty page INTERIOR_SPEC with
  | .error e => .error e
  | .ok p =>
    .ok (write_u64_at p INTERIOR_RIGHTMOST_CHILD_OFFSET rightmost)

/-- `TableInteriorPageMut::set_rightmost_child`. -/
def set_rightmost_child (page : List Nat) (page_id : Nat) :
    Except TablePageError (List Nat) :=
  match validate page INTERIOR_SPEC with
  | .error e => .error e
  | .ok _ =>
    .ok (write_u64_at page INTERIOR_RIGHTMOST_CHILD_OFFSET page_id)

/-!
## Abstraction: well-formed pages over their decoded cells
-/

/-- All entries are bytes (the page models a Rust `[u8; PAGE_SIZE]`). -/
def isBytes (l : List Nat) : Prop := ∀ b ∈ l, b < 256

/-- The raw slot-directory entry of slot `i` (what a successful
`slot_offset` returns). -/
def slotOff (page : List Nat) (spec : PageSpec) (i : Nat) : Nat :=
  read_u16 page (spec.header_size + i * SLOT_WIDTH)

/-- Well-formedness of a slotted page against the list of the encoded
byte strings of its live cells, in slot order: consistent header
fields, every slot referencing an in-bounds copy of its cell inside the
content region, pairwise-disjoint live cells, and total live-cell size
fitting under the content start (so defragmentation always succeeds). -/
structure PageWF (spec : PageSpec) (page : List Nat)
    (cells : List (List Nat)) : Prop where
  len : page.length = PAGE_SIZE
  bytes : isBytes page
  ptype : page_type page = spec.page_type
  hmin : CONTENT_START_OFFSET + 2 ≤ spec.header_size
  count : cell_count page = cells.length
  dir_le : spec.header_size + cells.length * SLOT_WIDTH ≤ content_start page
  cs_le : content_start page ≤ PAGE_SIZE
  cellsOk : ∀ i, i < cells.length →
    0 < (cells.getD i []).length ∧
    content_start page ≤ slotOff page spec i ∧
    slotOff page spec i + (cells.getD i []).length ≤ PAGE_SIZE ∧
    (page.drop (slotOff page spec i)).take (cells.getD i []).length =
      cells.getD i []
  disj : ∀ i j, i < j → j < cells.length →
    slotOff page spec i + (cells.getD i []).length ≤ slotOff page spec j ∨
    slotOff page spec j + (cells.getD j []).length ≤ slotOff page spec i
  space : (cells.map List.length).sum + content_start page ≤ PAGE_SIZE

/-- Well-formed leaf page carrying `(row_id, payload)` cells in slot
order: the byte layout is well formed over the encoded cells, keys are
`u64`s, payloads are short byte strings, and keys strictly increase in
slot order. -/
def LeafWF (page : List Nat) (cells : List (Nat × List Nat)) : Prop :=
  PageWF LEAF_SPEC page (cells.map (fun c => leafCellBytes c.1 c.2)) ∧
  (∀ c ∈ cells, c.1 < U64_MOD ∧ c.2.length ≤ 0xFFFF ∧ isBytes c.2) ∧
  List.Pairwise (fun a b => a.1 < b.1) cells

/-- Well-formed interior page carrying `(left_child, row_id)` cells in
slot order with strictly increasing separator keys. -/
def InteriorWF (page : List Nat) (cells : List (Nat × Nat)) : Prop :=
  PageWF INTERIOR_SPEC page
    (cells.map (fun c => encode_interior_cell c.1 c.2)) ∧
  (∀ c ∈ cells, c.1 < U64_MOD ∧ c.2 < U64_MOD) ∧
  List.Pairwise (fun a b => a.2 < b.2) cells

/-- The row-id keys of leaf cells, in slot order. -/
def leafKeys (cells : List (Nat × List Nat)) : List Nat := cells.map Prod.fst

/-- The separator keys of interior cells, in slot order. -/
def interiorKeys (cells : List (Nat × Nat)) : List Nat := cells.map Prod.snd

/-- Leaf-page states reachable from `init_empty` by successful leaf
operations (the `u64`/`u8` bounds mirror the Rust argument types). -/
inductive LeafReach : List Nat → Prop where
  | init (page p : List Nat) : leaf_init_empty page = .ok p → LeafReach p
  | insert (p : List Nat) (row_id : Nat) (payload : List Nat)
      (p2 : List Nat) : LeafReach p → row_id < U64_MOD → isBytes payload →
      leaf_insert p row_id payload = .ok p2 → LeafReach p2
  | update (p : List Nat) (row_id : Nat) (payload : List Nat)
      (p2 : List Nat) : LeafReach p → isBytes payload →
      leaf_update p row_id payload = .ok p2 → LeafReach p2
  | delete (p : List Nat) (row_id : Nat) (p2 : List Nat) : LeafReach p →
      leaf_delete p row_id = .ok p2 → LeafReach p2
  | defrag (p p2 : List Nat) : LeafReach p →
      leaf_defragment p = .ok p2 → LeafReach p2

/-- Interior-page states reachable from `init_empty` by successful
interior operations. -/
inductive InteriorReach : List Nat → Prop where
  | init (page : List Nat) (rightmost : Nat) (p : List Nat) :
      rightmost < U64_MOD →
      interior_init_empty page rightmost = .ok p → InteriorReach p
  | insert (p : List Nat) (row_id left_child : Nat) (p2 : List Nat) :
      InteriorReach p → row_id < U64_MOD → left_child < U64_MOD →
      interior_insert p row_id left_child = .ok p2 → InteriorReach p2
  | update (p : List Nat) (row_id left_child : Nat) (p2 : List Nat) :
      InteriorReach p → left_child < U64_MOD →
      interior_update p row_id left_child = .ok p2 → InteriorReach p2
  | delete (p : List Nat) (row_id : Nat) (p2 : List Nat) :
      InteriorReach p → interior_delete p row_id = .ok p2 → InteriorReach p2
  | defrag (p p2 : List Nat) : InteriorReach p →
      defragment_interior_page p = .ok p2 → InteriorReach p2
  | setRightmost (p : List Nat) (page_id : Nat) (p2 : List Nat) :
      InteriorReach p → page_id < U64_MOD →
      set_rightmost_child p page_id = .ok p2 →
      InteriorReach p2

/-!
## Lemmas about the varint codec
-/

theorem varintEncodeLoop_eq (value : Nat) :
    varintEncodeLoop value =
      if value = 0 then []
      else
        (if value >>> 7 ≠ 0 then (value &&& 0x7F) ||| 0x80 else value &&& 0x7F) ::
          varintEncodeLoop (value >>> 7) := by
  by_cases h : value = 0
  · rw [varintEncodeLoop]
    simp [h]
  · rw [varintEncodeLoop]
    simp [h]

theorem varintSizeLoop_eq (value : Nat) :
    varintSizeLoop value =
      if value = 0 then 0 else 1 + varintSizeLoop (value >>> 7) := by
  by_cases h : value = 0
  · rw [varintSizeLoop]
    simp [h]
  · rw [varintSizeLoop]
    simp [h]

theorem testBit_128 (i : Nat) : (128 : Nat).testBit i = decide (7 = i) := by
  have h : (128 : Nat) = 2 ^ 7 := by norm_num
  rw [h, Nat.testBit_two_pow]

theorem testBit_127 (i : Nat) : (127 : Nat).testBit i = decide (i < 7) := by
  have h : (127 : Nat) = 2 ^ 7 - 1 := by norm_num
  rw [h, Nat.testBit_two_pow_sub_one]

theorem varintEncodeLoop_length (value : Nat) :
    (varintEncodeLoop value).length = varintSizeLoop value := by
  induction value using Nat.strong_induction_on with
  | _ v ih =>
    rw [varintEncodeLoop_eq, varintSizeLoop_eq]
    by_cases h : v = 0
    · simp [h]
    · have hlt : v >>> 7 < v := by
        simp only [Nat.shiftRight_eq_div_pow]
        exact Nat.div_lt_self (Nat.pos_of_ne_zero h) (by norm_num)
      simp [h, ih _ hlt, Nat.add_comm]

theorem varintSizeLoop_le (k : Nat) :
    ∀ v, v < 2 ^ (7 * k) → varintSizeLoop v ≤ k := by
  induction k with
  | zero =>
    intro v hv
    interval_cases v
    simp [varintSizeLoop_eq]
  | succ k ih =>
    intro v hv
    rw [varintSizeLoop_eq]
    by_cases h : v = 0
    · simp [h]
    · simp only [h, if_false]
      have hv' : v < 2 ^ 7 * 2 ^ (7 * k) := by
        calc v < 2 ^ (7 * (k + 1)) := hv
        _ = 2 ^ 7 * 2 ^ (7 * k) := by ring
      have : v >>> 7 < 2 ^ (7 * k) := by
        simp only [Nat.shiftRight_eq_div_pow]
        exact Nat.div_lt_of_lt_mul hv'
      have := ih _ this
      omega

theorem varintEncodeLoop_eq_fuel :
    ∀ fuel v, varintSizeLoop v ≤ fuel → varintEncodeLoop v = varintEncodeFuel fuel v := by
  intro fuel
  induction fuel with
  | zero =>
    intro v hv
    rw [varintSizeLoop_eq] at hv
    by_cases h : v = 0
    · subst h
      rw [varintEncodeLoop_eq]
      rfl
    · simp [h] at hv
  | succ fuel ih =>
    intro v hv
    rw [varintEncodeLoop_eq]
    show _ = varintEncodeFuel (fuel + 1) v
    unfold varintEncodeFuel
    by_cases h : v = 0
    · simp [h]
    · simp only [h, if_false]
      rw [varintSizeLoop_eq] at hv
      simp only [h, if_false] at hv
      rw [ih (v >>> 7) (by omega)]

/-- Bit recomposition: the low 7-bit group shifted to `shift` or-ed with the
remaining groups shifted 7 further equals the whole value shifted to
`shift`. -/
theorem varint_or_recompose (v shift : Nat) :
    ((v &&& 127) <<< shift) ||| ((v >>> 7) <<< (shift + 7)) = v <<< shift := by
  apply Nat.eq_of_testBit_eq
  intro i
  simp only [Nat.testBit_or, Nat.testBit_shiftLeft, Nat.testBit_and,
    Nat.testBit_shiftRight, testBit_127]
  by_cases h1 : shift ≤ i
  · by_cases h2 : shift + 7 ≤ i
    · have e1 : ¬ (i - shift < 7) := by omega
      have e2 : 7 + (i - (shift + 7)) = i - shift := by omega
      simp [h1, h2, e1, e2]
    · have e1 : i - shift < 7 := by omega
      simp [h1, h2, e1]
  · have h2 : ¬ (shift + 7 ≤ i) := by omega
    simp [h1, h2]

theorem and_127_lt (v : Nat) : v &&& 127 < 128 := by
  have h : v &&& 127 ≤ 127 := Nat.and_le_right
  omega

theorem and_127_eq_self {v : Nat} (h : v < 128) : v &&& 127 = v := by
  have h7 : (127 : Nat) = 2 ^ 7 - 1 := by norm_num
  rw [h7, Nat.and_pow_two_sub_one_eq_mod]
  exact Nat.mod_eq_of_lt (Nat.lt_of_lt_of_le h (by norm_num))

theorem shiftRight7_eq_zero_iff (v : Nat) : v >>> 7 = 0 ↔ v < 128 := by
  rw [Nat.shiftRight_eq_div_pow, Nat.div_eq_zero_iff (by norm_num : 0 < 2 ^ 7)]
  norm_num

theorem and_128_eq_zero {v : Nat} (h : v < 128) : v &&& 128 = 0 := by
  apply Nat.eq_of_testBit_eq
  intro i
  simp only [Nat.testBit_and, Nat.zero_testBit, testBit_128]
  by_cases hi : 7 = i
  · subst hi
    have hv : v.testBit 7 = false :=
      Nat.testBit_lt_two_pow (Nat.lt_of_lt_of_le h (by norm_num))
    simp [hv]
  · simp [hi]

theorem or_128_and_127 (v : Nat) : (v ||| 128) &&& 127 = v &&& 127 := by
  apply Nat.eq_of_testBit_eq
  intro i
  simp only [Nat.testBit_and, Nat.testBit_or, testBit_127, testBit_128]
  by_cases hi : i < 7
  · simp [hi, show 7 ≠ i by omega]
  · simp [hi]

theorem or_128_and_128 (v : Nat) : (v ||| 128) &&& 128 = 128 := by
  apply Nat.eq_of_testBit_eq
  intro i
  simp only [Nat.testBit_and, Nat.testBit_or, testBit_128]
  by_cases hi : 7 = i
  · simp [hi]
  · simp [hi]

/-- Main decode/encode agreement for the multi-byte loop. -/
theorem varintDecodeLoop_encodeLoop :
    ∀ fuel v shift acc rest, v ≠ 0 →
      varintSizeLoop v ≤ fuel →
      v * 2 ^ shift < U64_MOD →
      acc < 2 ^ shift →
      varintDecodeLoop fuel acc shift (varintEncodeLoop v ++ rest) =
        .ok (acc ||| v <<< shift, rest) := by
  intro fuel
  induction fuel with
  | zero =>
    intro v shift acc rest hv hsz _ _
    rw [varintSizeLoop_eq] at hsz
    simp [hv] at hsz
  | succ fuel ih =>
    intro v shift acc rest hv hsz hbound hacc
    rw [varintEncodeLoop_eq]
    simp only [hv, if_false]
    by_cases hrest : v >>> 7 = 0
    · have hv128 : v < 128 := (shiftRight7_eq_zero_iff v).mp hrest
      simp only [hrest, ne_eq, not_true_eq_false, if_false, List.cons_append]
      rw [varintEncodeLoop_eq]
      simp only [hrest, if_true, List.nil_append]
      show varintDecodeLoop (fuel + 1) acc shift ((v &&& 127) :: rest) = _
      unfold varintDecodeLoop
      have h1 : v &&& 127 &&& 127 = v &&& 127 := by
        rw [and_127_eq_self (and_127_lt v)]
      have h2 : v &&& 127 = v := and_127_eq_self hv128
      have h3 : (v <<< shift) % U64_MOD = v <<< shift := by
        apply Nat.mod_eq_of_lt
        rw [Nat.shiftLeft_eq]
        exact hbound
      simp only [h1, h2, and_128_eq_zero hv128, h3]
      simp
    · simp only [hrest, ne_eq, not_false_eq_true, if_true, List.cons_append]
      show varintDecodeLoop (fuel + 1) acc shift ((v &&& 127 ||| 128) :: _) = _
      unfold varintDecodeLoop
      rw [or_128_and_127, or_128_and_128]
      simp only [show (128 : Nat) ≠ 0 by norm_num, if_false]
      have hlow : v &&& 127 &&& 127 = v &&& 127 := by
        rw [and_127_eq_self (and_127_lt v)]
      rw [hlow]
      have hmod : ((v &&& 127) <<< shift) % U64_MOD = (v &&& 127) <<< shift := by
        apply Nat.mod_eq_of_lt
        rw [Nat.shiftLeft_eq]
        calc (v &&& 127) * 2 ^ shift ≤ v * 2 ^ shift :=
          Nat.mul_le_mul_right _ Nat.and_le_left
        _ < U64_MOD := hbound
      rw [hmod]
      have hsz' : varintSizeLoop (v >>> 7) ≤ fuel := by
        rw [varintSizeLoop_eq] at hsz
        simp only [hv, if_false] at hsz
        omega
      have hbound' : (v >>> 7) * 2 ^ (shift + 7) < U64_MOD := by
        calc (v >>> 7) * 2 ^ (shift + 7) = (v >>> 7) * 2 ^ 7 * 2 ^ shift := by ring
        _ ≤ v * 2 ^ shift := by
            apply Nat.mul_le_mul_right
            simp only [Nat.shiftRight_eq_div_pow]
            exact Nat.div_mul_le_self v (2 ^ 7)
        _ < U64_MOD := hbound
      have hacc' : acc ||| (v &&& 127) <<< shift < 2 ^ (shift + 7) := by
        apply Nat.or_lt_two_pow
        · exact lt_of_lt_of_le hacc (Nat.pow_le_pow_right (by norm_num) (by omega))
        · rw [Nat.shiftLeft_eq]
          calc (v &&& 127) * 2 ^ shift < 128 * 2 ^ shift :=
            (Nat.mul_lt_mul_right (Nat.two_pow_pos shift)).mpr (and_127_lt v)
          _ = 2 ^ (shift + 7) := by ring
      rw [ih (v >>> 7) (shift + 7) (acc ||| (v &&& 127) <<< shift) rest hrest hsz' hbound' hacc']
      congr 1
      congr 1
      rw [Nat.or_assoc, varint_or_recompose]

/-- One step of the decode loop, for unfolding at literals. -/
theorem varintDecodeLoop_succ (fuel result shift byte : Nat) (rest : List Nat) :
    varintDecodeLoop (fuel + 1) result shift (byte :: rest) =
      (if byte &&& 0x80 = 0 then
        .ok (result ||| ((byte &&& 0x7F) <<< shift) % U64_MOD, rest)
      else
        varintDecodeLoop fuel (result ||| ((byte &&& 0x7F) <<< shift) % U64_MOD)
          (shift + 7) rest) := rfl

theorem varint_encode_length (x : Nat) :
    (varint_encode x).length = varint_size x := by
  unfold varint_encode varint_size
  by_cases h : x ≤ 127
  · simp [h]
  · simp [h, varintEncodeLoop_length]

/-- Unsigned varint round-trip with an arbitrary trailing stream. -/
theorem varint_decode_encode (x : Nat) (hx : x < U64_MOD) (rest : List Nat) :
    varint_decode (varint_encode x ++ rest) = .ok (x, rest) := by
  unfold varint_decode varint_encode
  by_cases h : x ≤ 127
  · have hx128 : x < 128 := by omega
    simp only [h, if_true, List.cons_append, List.nil_append]
    rw [show (10 : Nat) = 9 + 1 from rfl, varintDecodeLoop_succ]
    rw [and_127_eq_self (and_127_lt x), and_127_eq_self hx128, and_128_eq_zero hx128]
    simp only [if_pos rfl, Nat.shiftLeft_zero, Nat.zero_or]
    rw [Nat.mod_eq_of_lt hx]
    simp
  · have hx0 : x ≠ 0 := by omega
    have hsz : varintSizeLoop x ≤ 10 := by
      apply varintSizeLoop_le
      calc x < U64_MOD := hx
      _ ≤ 2 ^ (7 * 10) := by norm_num [U64_MOD]
    have hb : x * 2 ^ 0 < U64_MOD := by simpa using hx
    have := varintDecodeLoop_encodeLoop 10 x 0 0 rest hx0 hsz hb (by norm_num)
    simp only [h, if_false]
    rw [this]
    simp

theorem zigzagEncodeBits_lt (n : Nat) : zigzagEncodeBits n < U64_MOD := by
  unfold zigzagEncodeBits
  apply Nat.xor_lt_two_pow (n := 64)
  · exact Nat.mod_lt _ (by norm_num [U64_MOD])
  · split
    · show U64_MOD - 1 < 2 ^ 64
      norm_num [U64_MOD]
    · norm_num

theorem i64ToBits_lt (x : Int) : i64ToBits x < U64_MOD := by
  unfold i64ToBits
  have h1 : (0 : Int) < (U64_MOD : Int) := by norm_num [U64_MOD]
  have h2 : x % (U64_MOD : Int) < (U64_MOD : Int) := Int.emod_lt_of_pos x h1
  omega

theorem mod_two_eq_if_testBit (x : Nat) : x % 2 = if x.testBit 0 then 1 else 0 := by
  rw [Nat.testBit_to_div_mod]
  simp only [Nat.pow_zero, Nat.div_one]
  rcases Nat.mod_two_eq_zero_or_one x with h | h <;> simp [h]

theorem testBit_63_of_lt {n : Nat} (hn : n < U64_MOD) :
    n.testBit 63 = decide (I64_SIGN ≤ n) := by
  rw [Nat.testBit_to_div_mod]
  have hpow : (2 : Nat) ^ 63 = 9223372036854775808 := by norm_num
  have hun : U64_MOD = 18446744073709551616 := by norm_num [U64_MOD]
  have hsn : I64_SIGN = 9223372036854775808 := by norm_num [I64_SIGN]
  rw [hpow, hsn]
  rw [hun] at hn
  rcases Nat.lt_or_ge n 9223372036854775808 with h | h
  · simp [Nat.div_eq_of_lt h, show ¬ (9223372036854775808 ≤ n) by omega]
  · have hdiv : n / 9223372036854775808 = 1 := by omega
    simp [hdiv, h]

theorem testBit_high_of_lt {n i : Nat} (hn : n < U64_MOD) (hi : 64 ≤ i) :
    n.testBit i = false := by
  apply Nat.testBit_lt_two_pow
  calc n < U64_MOD := hn
  _ ≤ 2 ^ i := Nat.pow_le_pow_right (by norm_num) hi

/-- The zig-zag bit-pattern round-trip on `u64` bit patterns. -/
theorem zigzagDecodeBits_encodeBits (n : Nat) (hn : n < U64_MOD) :
    zigzagDecodeBits (zigzagEncodeBits n) = n := by
  unfold zigzagDecodeBits zigzagEncodeBits
  set s : Nat := if I64_SIGN ≤ n then U64_MOD - 1 else 0 with hs
  set m : Nat := (n <<< 1) % U64_MOD with hm
  have hsbit : ∀ j, s.testBit j = (decide (I64_SIGN ≤ n) && decide (j < 64)) := by
    intro j
    rw [hs]
    split
    · rename_i h
      rw [show U64_MOD - 1 = 2 ^ 64 - 1 by norm_num [U64_MOD],
        Nat.testBit_two_pow_sub_one]
      simp [h]
    · rename_i h
      simp [h]
  have hmbit : ∀ j, m.testBit j =
      (decide (j < 64) && (decide (1 ≤ j) && n.testBit (j - 1))) := by
    intro j
    rw [hm]
    show ((n <<< 1) % 2 ^ 64).testBit j = _
    rw [Nat.testBit_mod_two_pow, Nat.testBit_shiftLeft]
  have hbit0 : (m ^^^ s) &&& 1 = (if I64_SIGN ≤ n then 1 else 0) := by
    rw [Nat.and_one_is_mod, mod_two_eq_if_testBit, Nat.testBit_xor, hmbit 0, hsbit 0]
    simp
  rw [hbit0]
  have hcond : ((if I64_SIGN ≤ n then (1 : Nat) else 0) = 1) ↔ I64_SIGN ≤ n := by
    split <;> simp_all
  apply Nat.eq_of_testBit_eq
  intro i
  rw [Nat.testBit_xor, Nat.testBit_shiftRight, Nat.testBit_xor, hmbit (1 + i)]
  have hmask : (if (if I64_SIGN ≤ n then (1 : Nat) else 0) = 1 then U64_MOD - 1
      else 0).testBit i = (decide (I64_SIGN ≤ n) && decide (i < 64)) := by
    by_cases hsign : I64_SIGN ≤ n
    · rw [if_pos (hcond.mpr hsign),
        show U64_MOD - 1 = 2 ^ 64 - 1 by norm_num [U64_MOD],
        Nat.testBit_two_pow_sub_one]
      simp [hsign]
    · rw [if_neg (fun h => hsign (hcond.mp h))]
      simp [hsign]
  rw [hmask, hsbit (1 + i)]
  rcases Nat.lt_or_ge i 63 with hi | hi
  · have e2 : 1 + i - 1 = i := by omega
    have d1 : decide (1 + i < 64) = true := decide_eq_true (by omega)
    have d2 : decide (1 ≤ 1 + i) = true := decide_eq_true (by omega)
    have d3 : decide (i < 64) = true := decide_eq_true (by omega)
    rw [e2, d1, d2, d3]
    simp only [Bool.true_and, Bool.and_true]
    generalize n.testBit i = b
    generalize decide (I64_SIGN ≤ n) = A
    cases b <;> cases A <;> rfl
  · have d1 : decide (1 + i < 64) = false := decide_eq_false (by omega)
    rw [d1]
    simp only [Bool.false_and, Bool.and_false, Bool.false_xor]
    rcases Nat.eq_or_lt_of_le hi with hi63 | hi64
    · have d3 : decide (i < 64) = true := decide_eq_true (by omega)
      rw [d3]
      simp only [Bool.and_true]
      rw [← hi63, testBit_63_of_lt hn]
    · have d3 : decide (i < 64) = false := decide_eq_false (by omega)
      rw [d3]
      simp only [Bool.and_false]
      rw [testBit_high_of_lt hn (by omega)]

theorem i64OfBits_i64ToBits (x : Int) (h1 : -(I64_SIGN : Int) ≤ x)
    (h2 : x < (I64_SIGN : Int)) : i64OfBits (i64ToBits x) = x := by
  unfold i64OfBits i64ToBits
  have hs : (I64_SIGN : Int) = 9223372036854775808 := by norm_num [I64_SIGN]
  have hu : (U64_MOD : Int) = 18446744073709551616 := by norm_num [U64_MOD]
  have hun : (U64_MOD : Nat) = 18446744073709551616 := by norm_num [U64_MOD]
  have hsn : (I64_SIGN : Nat) = 9223372036854775808 := by norm_num [I64_SIGN]
  rw [hs] at h1 h2
  rw [hu]
  split
  · rename_i h
    rw [hsn] at h
    omega
  · rename_i h
    rw [hsn] at h
    omega

/-- Signed varint round-trip with an arbitrary trailing stream. -/
theorem varint_decode_signed_encode (x : Int) (h1 : -(I64_SIGN : Int) ≤ x)
    (h2 : x < (I64_SIGN : Int)) (rest : List Nat) :
    varint_decode_signed (varint_encode_signed x ++ rest) = .ok (x, rest) := by
  unfold varint_decode_signed varint_encode_signed
  rw [varint_decode_encode _ (zigzagEncodeBits_lt _) rest]
  show Except.ok (i64OfBits (zigzagDecodeBits (zigzagEncodeBits (i64ToBits x))), rest) = _
  rw [zigzagDecodeBits_encodeBits _ (i64ToBits_lt x), i64OfBits_i64ToBits x h1 h2]

/-- C6: for every `u64` value `x`, decoding the bytes produced by
`varint_encode x` yields `x` again, and the number of bytes written equals
`varint_size x`; the same holds for every `i64` value under the zig-zag
signed encode/decode/size functions. -/
theorem varint_roundtrip_spec :
    (∀ x : Nat, x < U64_MOD →
      varint_decode (varint_encode x) = .ok (x, []) ∧
      (varint_encode x).length = varint_size x) ∧
    (∀ x : Int, -(I64_SIGN : Int) ≤ x → x < (I64_SIGN : Int) →
      varint_decode_signed (varint_encode_signed x) = .ok (x, []) ∧
      (varint_encode_signed x).length = varint_size_signed x) := by
  constructor
  · intro x hx
    refine ⟨?_, varint_encode_length x⟩
    simpa using varint_decode_encode x hx []
  · intro x h1 h2
    constructor
    · simpa using varint_decode_signed_encode x h1 h2 []
    · unfold varint_encode_signed varint_size_signed
      exact varint_encode_length _

/-- Witness for `varint_roundtrip_spec` at `x = 300` and `x = -300`. -/
theorem varint_roundtrip_spec_witness :
    (varint_decode (varint_encode 300) = .ok (300, []) ∧
      (varint_encode 300).length = varint_size 300) ∧
    (varint_decode_signed (varint_encode_signed (-300)) = .ok (-300, []) ∧
      (varint_encode_signed (-300)).length = varint_size_signed (-300)) :=
  ⟨varint_roundtrip_spec.1 300 (by norm_num [U64_MOD]),
   varint_roundtrip_spec.2 (-300) (by norm_num [I64_SIGN]) (by norm_num [I64_SIGN])⟩

/-- C10: `varint_decode` accepts non-canonical encodings: `[0x80, 0x00]` is
not produced by `varint_encode` yet decodes to `0`, and the all-ones
10-byte sequence ending in `0x7F` decodes (bits above position 63 silently
discarded) to `u64::MAX`, whose re-encoding differs from the input. -/
theorem varint_decode_noncanonical :
    varint_decode [0x80, 0x00] = .ok (0, []) ∧
    varint_encode 0 ≠ [0x80, 0x00] ∧
    varint_decode [0xFF, 0xFF, 0xFF, 0xFF, 0xFF, 0xFF, 0xFF, 0xFF, 0xFF, 0x7F] =
      .ok (U64_MOD - 1, []) ∧
    varint_encode (U64_MOD - 1) ≠
      [0xFF, 0xFF, 0xFF, 0xFF, 0xFF, 0xFF, 0xFF, 0xFF, 0xFF, 0x7F] := by
  refine ⟨by rfl, by decide, by rfl, ?_⟩
  have hsz : varintSizeLoop (U64_MOD - 1) ≤ 10 := by
    apply varintSizeLoop_le
    norm_num [U64_MOD]
  have henc : varint_encode (U64_MOD - 1) = varintEncodeFuel 10 (U64_MOD - 1) := by
    rw [varint_encode, if_neg (by norm_num [U64_MOD]), varintEncodeLoop_eq_fuel 10 _ hsz]
  rw [henc]
  decide

/-!
## Lemmas about the record codec
-/

theorem u64FromLeBytes_toLeBytes (n : Nat) (hn : n < U64_MOD) :
    u64FromLeBytes (u64ToLeBytes n) = n := by
  show u64FromLeBytes [n &&& 0xFF, (n >>> 8) &&& 0xFF, (n >>> 16) &&& 0xFF,
    (n >>> 24) &&& 0xFF, (n >>> 32) &&& 0xFF, (n >>> 40) &&& 0xFF,
    (n >>> 48) &&& 0xFF, (n >>> 56) &&& 0xFF] = n
  unfold u64FromLeBytes
  simp only [Nat.shiftRight_eq_div_pow, show (0xFF : Nat) = 2 ^ 8 - 1 by norm_num,
    Nat.and_pow_two_sub_one_eq_mod]
  have hu : U64_MOD = 18446744073709551616 := by norm_num [U64_MOD]
  rw [hu] at hn
  norm_num
  omega

theorem readExact_append (bytes rest : List Nat) :
    readExact bytes.length (bytes ++ rest) = .ok (bytes, rest) := by
  unfold readExact
  rw [if_pos (by simp), List.take_left, List.drop_left]

/-- `Value::deserialize` inverts `Value::serialize` at the front of any byte
stream, and the bytes written count `serialized_size`. -/
theorem Value.deserialize_serialize (v : Value) (bytes : List Nat) (hwf : v.WF)
    (hser : v.serialize = .ok bytes) (rest : List Nat) :
    Value.deserialize (bytes ++ rest) = .ok (v, rest) ∧
      bytes.length = v.serialized_size := by
  cases v with
  | unsignedInteger i =>
    simp only [Value.serialize, Except.ok.injEq] at hser
    subst hser
    constructor
    · simp only [List.cons_append, Value.deserialize, if_pos rfl]
      rw [varint_decode_encode i hwf rest]
      rfl
    · simp [Value.serialized_size, varint_encode_length, Nat.add_comm]
  | integer i =>
    simp only [Value.serialize, Except.ok.injEq] at hser
    subst hser
    obtain ⟨h1, h2⟩ := hwf
    constructor
    · simp only [List.cons_append, Value.deserialize]
      norm_num
      rw [varint_decode_signed_encode i h1 h2 rest]
      rfl
    · simp [Value.serialized_size, varint_encode_signed, varint_size_signed,
        varint_encode_length, Nat.add_comm]
  | float bits =>
    simp only [Value.serialize, Except.ok.injEq] at hser
    subst hser
    constructor
    · simp only [List.cons_append, Value.deserialize]
      norm_num
      have h8 : (8 : Nat) = (u64ToLeBytes bits).length := by
        simp [u64ToLeBytes]
      rw [h8, readExact_append]
      show Except.ok (Value.float (u64FromLeBytes (u64ToLeBytes bits)), rest) = _
      rw [u64FromLeBytes_toLeBytes bits hwf]
    · simp [Value.serialized_size, u64ToLeBytes]
  | string s =>
    simp only [Value.serialize] at hser
    by_cases hlen : s.val.length ≤ U32_MAX
    · rw [if_pos hlen] at hser
      simp only [Except.ok.injEq] at hser
      subst hser
      have hlt : s.val.length < U64_MOD := by
        have : U32_MAX < U64_MOD := by norm_num [U32_MAX, U64_MOD]
        omega
      constructor
      · simp only [List.cons_append, List.append_assoc, Value.deserialize]
        norm_num
        rw [varint_decode_encode _ hlt (s.val ++ rest)]
        show (do
          let d ← readExact s.val.length (s.val ++ rest)
          let t ← stringFromUtf8 d.1
          Except.ok (Value.string t, d.2)) = _
        rw [readExact_append]
        show (do
          let t ← stringFromUtf8 s.val
          Except.ok (Value.string t, rest)) = _
        unfold stringFromUtf8
        rw [dif_pos s.property]
        rfl
      · simp [Value.serialized_size, varint_encode_length]
    · rw [if_neg hlen] at hser
      cases hser
  | boolean b =>
    simp only [Value.serialize, Except.ok.injEq] at hser
    subst hser
    constructor
    · cases b <;>
        · simp only [List.cons_append, List.singleton_append, Value.deserialize]
          norm_num [readExact]
          rfl
    · simp [Value.serialized_size]
  | null =>
    simp only [Value.serialize, Except.ok.injEq] at hser
    subst hser
    constructor
    · simp only [List.cons_append, List.nil_append, Value.deserialize]
      norm_num
    · simp [Value.serialized_size]

theorem Value.size_pos (v : Value) : 1 ≤ v.serialized_size := by
  cases v <;> simp [Value.serialized_size]

theorem recordDeserializeLoop_eq (remaining : Nat) (input : List Nat) :
    recordDeserializeLoop remaining input =
      if 0 < remaining then
        match Value.deserialize input with
        | .error e => .error e
        | .ok (v, r) =>
          match recordDeserializeLoop (remaining - v.serialized_size) r with
          | .error e => .error e
          | .ok (vs, r2) => .ok (v :: vs, r2)
      else .ok ([], input) := by
  by_cases h : 0 < remaining
  · rw [recordDeserializeLoop]
    simp [h]
  · rw [recordDeserializeLoop]
    simp [h]

/-- The record body loop inverts value-by-value serialization. -/
theorem recordDeserializeLoop_serializeValues :
    ∀ (vs : List Value) (body : List Nat), (∀ v ∈ vs, v.WF) →
      serializeValues vs = .ok body → ∀ rest,
      recordDeserializeLoop ((vs.map Value.serialized_size).sum) (body ++ rest) =
        .ok (vs, rest) ∧ body.length = (vs.map Value.serialized_size).sum := by
  intro vs
  induction vs with
  | nil =>
    intro body hwf h rest
    simp only [serializeValues, Except.ok.injEq] at h
    subst h
    constructor
    · rw [recordDeserializeLoop_eq]
      simp
    · simp
  | cons v tl ih =>
    intro body hwf h rest
    simp only [serializeValues] at h
    cases hsv : v.serialize with
    | error e =>
      rw [hsv] at h
      cases h
    | ok bytes =>
      cases hst : serializeValues tl with
      | error e =>
        rw [hsv, hst] at h
        cases h
      | ok more =>
        rw [hsv, hst] at h
        have hbody : body = bytes ++ more := by
          injection h with h2
          exact h2.symm
        subst hbody
        have hv := Value.deserialize_serialize v bytes (hwf v (by simp)) hsv (more ++ rest)
        have ihh := ih more (fun w hw => hwf w (List.mem_cons_of_mem _ hw)) hst rest
        have hpos : 0 < v.serialized_size + (tl.map Value.serialized_size).sum := by
          have := Value.size_pos v
          omega
        constructor
        · rw [List.map_cons, List.sum_cons, recordDeserializeLoop_eq, if_pos hpos,
            List.append_assoc, hv.1]
          have hsub : v.serialized_size + (tl.map Value.serialized_size).sum -
              v.serialized_size = (tl.map Value.serialized_size).sum := by omega
          show (match recordDeserializeLoop (v.serialized_size +
              (tl.map Value.serialized_size).sum - v.serialized_size) (more ++ rest) with
            | Except.error e => Except.error e
            | Except.ok (vs, r2) => Except.ok (v :: vs, r2)) = _
          rw [hsub, ihh.1]
        · simp [hv.2, ihh.2]

/-- C5: for every value of any variant whose serialization succeeds,
deserializing the serialized bytes yields the value again — float payloads
are embedded as their 64-bit patterns, so the equality is bit-for-bit
(covering `-0`, NaN payloads and subnormals) — and the same round-trip holds
for records of values. -/
theorem record_value_roundtrip_spec :
    (∀ (v : Value) (bytes : List Nat), v.WF → v.serialize = .ok bytes →
      Value.deserialize bytes = .ok (v, [])) ∧
    (∀ (r : Record) (bytes : List Nat), r.WF → r.serialize = .ok bytes →
      Record.deserialize bytes = .ok (r, [])) := by
  constructor
  · intro v bytes hwf hser
    simpa using (Value.deserialize_serialize v bytes hwf hser []).1
  · intro r bytes hwf hser
    unfold Record.serialize at hser
    cases hsv : serializeValues r.values with
    | error e =>
      rw [hsv] at hser
      cases hser
    | ok body =>
      rw [hsv] at hser
      have hbytes : bytes = varint_encode r.serialized_size ++ body := by
        injection hser with h2
        exact h2.symm
      subst hbytes
      unfold Record.deserialize
      rw [varint_decode_encode _ hwf.2 body]
      have hloop := recordDeserializeLoop_serializeValues r.values body hwf.1 hsv []
      rw [List.append_nil] at hloop
      show (do
        let d ← recordDeserializeLoop r.serialized_size body
        Except.ok ((⟨d.1⟩ : Record), d.2)) = _
      rw [show r.serialized_size = (r.values.map Value.serialized_size).sum from rfl,
        hloop.1]
      rfl

/-!
## Lemmas about the page checksum and disk manager
-/

theorem u32FromLeBytes_toLeBytes (n : Nat) (hn : n < 2 ^ 32) :
    u32FromLeBytes (u32ToLeBytes n) = n := by
  show u32FromLeBytes [n &&& 0xFF, (n >>> 8) &&& 0xFF, (n >>> 16) &&& 0xFF,
    (n >>> 24) &&& 0xFF] = n
  unfold u32FromLeBytes
  simp only [Nat.shiftRight_eq_div_pow, show (0xFF : Nat) = 2 ^ 8 - 1 by norm_num,
    Nat.and_pow_two_sub_one_eq_mod]
  norm_num at hn ⊢
  omega

theorem crc32Bit_lt {c : Nat} (h : c < 2 ^ 32) : crc32Bit c < 2 ^ 32 := by
  unfold crc32Bit
  have hs : c >>> 1 < 2 ^ 32 := by
    rw [Nat.shiftRight_eq_div_pow]
    have := Nat.div_le_self c (2 ^ 1)
    omega
  split
  · exact Nat.xor_lt_two_pow hs (by norm_num [CRC32_POLY])
  · exact hs

theorem crc32Bit_iter_lt (k : Nat) : ∀ {c : Nat}, c < 2 ^ 32 → crc32Bit^[k] c < 2 ^ 32 := by
  induction k with
  | zero => intro c h; simpa using h
  | succ k ih =>
    intro c h
    rw [Function.iterate_succ_apply]
    exact ih (crc32Bit_lt h)

theorem crc32Byte_lt {c : Nat} (h : c < 2 ^ 32) (b : Nat) : crc32Byte c b < 2 ^ 32 := by
  unfold crc32Byte
  apply crc32Bit_iter_lt
  apply Nat.xor_lt_two_pow h
  have : b &&& 0xFF ≤ 0xFF := Nat.and_le_right
  omega

theorem crc32_foldl_lt (l : List Nat) : ∀ {c : Nat}, c < 2 ^ 32 →
    List.foldl crc32Byte c l < 2 ^ 32 := by
  induction l with
  | nil => intro c h; simpa using h
  | cons b rest ih =>
    intro c h
    rw [List.foldl_cons]
    exact ih (crc32Byte_lt h b)

theorem crc32_lt {crc : Nat} (h : crc < 2 ^ 32) (data : List Nat) :
    crc32 crc data < 2 ^ 32 := by
  unfold crc32
  apply Nat.xor_lt_two_pow _ (by norm_num)
  exact crc32_foldl_lt data (Nat.xor_lt_two_pow h (by norm_num))

theorem write_page_checksum_length {X : List Nat} (hX : X.length = PAGE_SIZE) :
    (write_page_checksum X).length = PAGE_SIZE := by
  unfold write_page_checksum u32ToLeBytes
  simp only [List.length_append, List.length_take, hX]
  norm_num [PAGE_DATA_END, PAGE_SIZE, PAGE_CHECKSUM_SIZE]

theorem checksum_matches_write_page_checksum {X : List Nat} (hX : X.length = PAGE_SIZE) :
    checksum_matches (write_page_checksum X) = true := by
  have hplen : (X.take PAGE_DATA_END).length = PAGE_DATA_END := by
    simp only [List.length_take, hX]
    norm_num [PAGE_DATA_END, PAGE_SIZE, PAGE_CHECKSUM_SIZE]
  have hstored : stored_page_checksum (write_page_checksum X) =
      compute_page_checksum X := by
    unfold stored_page_checksum write_page_checksum
    rw [List.drop_left' hplen]
    rw [List.take_of_length_le (by simp [u32ToLeBytes, PAGE_CHECKSUM_SIZE])]
    exact u32FromLeBytes_toLeBytes _ (crc32_lt (by norm_num) _)
  have hcomputed : compute_page_checksum (write_page_checksum X) =
      compute_page_checksum X := by
    show crc32 0 ((write_page_checksum X).take PAGE_DATA_END) = _
    unfold write_page_checksum
    rw [List.take_left' hplen]
    rfl
  unfold checksum_matches
  rw [hstored, hcomputed]
  simp

/-- C1: for every page id below the disk manager's page count and every
`PAGE_SIZE`-byte buffer `X`, `write_page id X` then `read_page id` succeeds
and returns bytes whose first `PAGE_SIZE - 4` bytes are `X`'s first
`PAGE_SIZE - 4` bytes and whose last 4 bytes are the CRC-32 recomputed over
that prefix, regardless of `X`'s own last 4 bytes. -/
theorem disk_write_read_roundtrip (dm : DiskManager) (id : Nat) (X : List Nat)
    (hinv : dm.file.length = dm.page_count * PAGE_SIZE)
    (hid : id < dm.page_count) (hX : X.length = PAGE_SIZE) :
    ∃ dm', dm.write_page id X = .ok dm' ∧
      dm'.read_page id =
        .ok (X.take (PAGE_SIZE - PAGE_CHECKSUM_SIZE) ++
          u32ToLeBytes (crc32 0 (X.take (PAGE_SIZE - PAGE_CHECKSUM_SIZE)))) := by
  have hoff : id * PAGE_SIZE + PAGE_SIZE ≤ dm.file.length := by
    rw [hinv]
    have h1 : id + 1 ≤ dm.page_count := hid
    calc id * PAGE_SIZE + PAGE_SIZE = (id + 1) * PAGE_SIZE := by ring
    _ ≤ dm.page_count * PAGE_SIZE := Nat.mul_le_mul_right _ h1
  have hclen : (write_page_checksum X).length = PAGE_SIZE := write_page_checksum_length hX
  have htk : (dm.file.take (id * PAGE_SIZE)).length = id * PAGE_SIZE := by
    simp only [List.length_take]
    omega
  refine ⟨DiskManager.mk (writeBytesAt dm.file (DiskManager.page_offset id)
      (write_page_checksum X)) dm.page_count, ?_, ?_⟩
  · rw [DiskManager.write_page, if_neg (by omega)]
  · rw [DiskManager.read_page, if_neg (show ¬ id ≥ dm.page_count by omega)]
    show (if ((writeBytesAt dm.file (DiskManager.page_offset id)
        (write_page_checksum X)).drop (DiskManager.page_offset id) |>.take
          PAGE_SIZE).length = PAGE_SIZE then _ else _) = _
    have hdrop : (writeBytesAt dm.file (DiskManager.page_offset id)
        (write_page_checksum X)).drop (DiskManager.page_offset id) =
        write_page_checksum X ++
          dm.file.drop (id * PAGE_SIZE + (write_page_checksum X).length) := by
      unfold writeBytesAt DiskManager.page_offset
      rw [List.append_assoc, List.drop_left' htk]
    rw [hdrop, List.take_left' hclen]
    rw [if_pos hclen, if_pos (checksum_matches_write_page_checksum hX)]
    rfl

/-!
## Lemmas about the page cache
-/

theorem getD_set_self {l : List Frame} {i : Nat} (f : Frame) (h : i < l.length) :
    (l.set i f).getD i Frame.empty = f := by
  simp [List.getD_eq_getElem?_getD, List.getElem?_set_self h]

theorem getD_set_ne {l : List Frame} {i j : Nat} (f : Frame) (h : i ≠ j) :
    (l.set i f).getD j Frame.empty = l.getD j Frame.empty := by
  simp [List.getD_eq_getElem?_getD, List.getElem?_set_ne h]

theorem getD_of_length_le {l : List Frame} {i : Nat} (h : l.length ≤ i) :
    l.getD i Frame.empty = Frame.empty := by
  simp [List.getD_eq_getElem?_getD, List.getElem?_eq_none h]

/-- A frame index whose frame carries a set flag or positive pin count is
in range (out-of-range lookups produce the all-clear `Frame.empty`). -/
theorem lt_length_of_pin {l : List Frame} {i : Nat}
    (h : 0 < (l.getD i Frame.empty).pin_count) : i < l.length := by
  by_contra hc
  rw [getD_of_length_le (by omega)] at h
  simp [Frame.empty] at h

theorem lt_length_of_reference {l : List Frame} {i : Nat}
    (h : (l.getD i Frame.empty).reference = true) : i < l.length := by
  by_contra hc
  rw [getD_of_length_le (by omega)] at h
  simp [Frame.empty] at h

/-- The clock scan never changes a pin count. -/
theorem selectVictimLoop_pins :
    ∀ (fuel : Nat) (frames : List Frame) (hand i : Nat),
      ((selectVictimLoop frames hand fuel).2.1.getD i Frame.empty).pin_count =
        (frames.getD i Frame.empty).pin_count := by
  intro fuel
  induction fuel with
  | zero => intro frames hand i; rfl
  | succ fuel ih =>
    intro frames hand i
    show ((if (frames.getD hand Frame.empty).pin_count > 0 then _
      else if (frames.getD hand Frame.empty).reference then _
      else _ : Option Nat × List Frame × Nat).2.1.getD i Frame.empty).pin_count = _
    by_cases hp : (frames.getD hand Frame.empty).pin_count > 0
    · rw [if_pos hp]
      exact ih frames _ i
    · rw [if_neg hp]
      by_cases hr : (frames.getD hand Frame.empty).reference
      · rw [if_pos hr]
        have hlt : hand < frames.length := lt_length_of_reference hr
        rw [ih]
        by_cases hi : hand = i
        · subst hi
          rw [getD_set_self _ hlt]
        · rw [getD_set_ne _ (by omega)]
      · rw [if_neg hr]

/-- The clock scan never changes the frame-list length. -/
theorem selectVictimLoop_length :
    ∀ (fuel : Nat) (frames : List Frame) (hand : Nat),
      (selectVictimLoop frames hand fuel).2.1.length = frames.length := by
  intro fuel
  induction fuel with
  | zero => intro frames hand; rfl
  | succ fuel ih =>
    intro frames hand
    show ((if (frames.getD hand Frame.empty).pin_count > 0 then _
      else if (frames.getD hand Frame.empty).reference then _
      else _ : Option Nat × List Frame × Nat).2.1.length) = _
    by_cases hp : (frames.getD hand Frame.empty).pin_count > 0
    · rw [if_pos hp]
      exact ih frames _
    · rw [if_neg hp]
      by_cases hr : (frames.getD hand Frame.empty).reference
      · rw [if_pos hr, ih, List.length_set]
      · rw [if_neg hr]

/-- A successful clock scan returns an unpinned, unreferenced frame whose
index is in range. -/
theorem selectVictimLoop_some :
    ∀ (fuel : Nat) (frames : List Frame) (hand fid : Nat) (frames2 : List Frame)
      (hand2 : Nat),
      selectVictimLoop frames hand fuel = (some fid, frames2, hand2) →
      (frames2.getD fid Frame.empty).pin_count = 0 ∧
      (frames2.getD fid Frame.empty).reference = false ∧
      (0 < frames.length → hand < frames.length → fid < frames.length) := by
  intro fuel
  induction fuel with
  | zero =>
    intro frames hand fid frames2 hand2 h
    rw [show selectVictimLoop frames hand 0 = (none, frames, hand) from rfl] at h
    exact absurd (congrArg Prod.fst h) (by simp)
  | succ fuel ih =>
    intro frames hand fid frames2 hand2 h
    rw [show selectVictimLoop frames hand (fuel + 1) =
      (if (frames.getD hand Frame.empty).pin_count > 0 then
        selectVictimLoop frames ((hand + 1) % frames.length) fuel
      else if (frames.getD hand Frame.empty).reference then
        selectVictimLoop (frames.set hand
          { frames.getD hand Frame.empty with reference := false })
          ((hand + 1) % frames.length) fuel
      else (some hand, frames, (hand + 1) % frames.length)) from rfl] at h
    by_cases hp : (frames.getD hand Frame.empty).pin_count > 0
    · rw [if_pos hp] at h
      obtain ⟨h1, h2, h3⟩ := ih frames _ fid frames2 hand2 h
      exact ⟨h1, h2, fun hl _ => h3 hl (Nat.mod_lt _ hl)⟩
    · rw [if_neg hp] at h
      by_cases hr : (frames.getD hand Frame.empty).reference
      · rw [if_pos hr] at h
        have hlt : hand < frames.length := lt_length_of_reference hr
        obtain ⟨h1, h2, h3⟩ := ih _ _ fid frames2 hand2 h
        refine ⟨h1, h2, fun hl _ => ?_⟩
        have := h3 (by simpa using hl) (by simpa using Nat.mod_lt (hand + 1) hl)
        simpa using this
      · rw [if_neg hr] at h
        simp only [Prod.mk.injEq, Option.some.injEq] at h
        obtain ⟨hfid, hfr, _⟩ := h
        subst hfid
        subst hfr
        refine ⟨by omega, by simpa using hr, fun _ hl => hl⟩

/-- If every frame is pinned, the scan selects nothing. -/
theorem selectVictimLoop_all_pinned :
    ∀ (fuel : Nat) (frames : List Frame) (hand : Nat), 0 < frames.length →
      hand < frames.length →
      (∀ i, i < frames.length → 0 < (frames.getD i Frame.empty).pin_count) →
      (selectVictimLoop frames hand fuel).1 = none := by
  intro fuel
  induction fuel with
  | zero => intro frames hand _ _ _; rfl
  | succ fuel ih =>
    intro frames hand h0 hh hall
    show (if (frames.getD hand Frame.empty).pin_count > 0 then _
      else if (frames.getD hand Frame.empty).reference then _
      else _ : Option Nat × List Frame × Nat).1 = _
    rw [if_pos (hall hand hh)]
    exact ih frames _ h0 (Nat.mod_lt _ h0) hall

theorem flush_not_dirty (pc : PageCache) (fid : Nat)
    (h : (pc.frames.getD fid Frame.empty).dirty = false) :
    pc.flush_frame_if_dirty fid = .ok pc := by
  simp only [PageCache.flush_frame_if_dirty, h]
  simp

/-- `replace_frame` on a clean victim whose page read succeeds. -/
theorem replace_frame_clean (pc : PageCache) (fid pid : Nat) (data : List Nat)
    (hnd : (pc.frames.getD fid Frame.empty).dirty = false)
    (hread : pc.disk_manager.read_page pid = .ok data) :
    pc.replace_frame fid pid = .ok (PageCache.mk pc.disk_manager
      (pc.frames.set fid ⟨some pid, data, true, false, 1⟩)
      (ptInsert
        (match (pc.frames.getD fid Frame.empty).page_id with
         | some old_page_id => ptRemove pc.page_table old_page_id
         | none => pc.page_table) pid fid)
      pc.clock_hand) := by
  rw [PageCache.replace_frame, flush_not_dirty pc fid hnd]
  cases hpid : (pc.frames.getD fid Frame.empty).page_id with
  | none =>
    simp only [hpid]
    rw [hread]
  | some old =>
    simp only [hpid]
    rw [hread]

theorem fetch_page_miss (pc : PageCache) (pid fid : Nat) (pc2 pc3 : PageCache)
    (hget : ptGet pc.page_table pid = none)
    (hsel : pc.select_victim_frame = (some fid, pc2))
    (hrep : pc2.replace_frame fid pid = .ok pc3) :
    pc.fetch_page pid = .ok (fid, pc3) := by
  rw [PageCache.fetch_page, hget]
  simp only [hsel]
  rw [hrep]

theorem fetch_page_hit (pc : PageCache) (pid fid : Nat)
    (hget : ptGet pc.page_table pid = some fid) :
    pc.fetch_page pid = .ok (fid,
      PageCache.mk pc.disk_manager
        (pc.frames.set fid
          (Frame.mk (pc.frames.getD fid Frame.empty).page_id
            (pc.frames.getD fid Frame.empty).data true
            (pc.frames.getD fid Frame.empty).dirty
            ((pc.frames.getD fid Frame.empty).pin_count + 1)))
        pc.page_table pc.clock_hand) := by
  rw [PageCache.fetch_page, hget]

theorem fetchRelease_ok (pc : PageCache) (pid fid : Nat) (pc2 : PageCache)
    (h : pc.fetch_page pid = .ok (fid, pc2)) :
    fetchRelease pc pid = .ok (pc2.dropPinGuard fid) := by
  rw [fetchRelease, h]

theorem exceptSeq_ok (pc : PageCache)
    (f : PageCache → Except PageCacheError PageCache) :
    exceptSeq (.ok pc) f = f pc := rfl

theorem s5Page_length : s5Page.length = PAGE_SIZE :=
  write_page_checksum_length (by simp)

theorem s5_checksum : checksum_matches s5Page = true :=
  checksum_matches_write_page_checksum (by simp)

theorem s5_read0 : s5Disk.read_page 0 = .ok s5Page := by
  rw [DiskManager.read_page, if_neg (by norm_num [s5Disk])]
  have hbuf : ((s5Disk.file.drop (DiskManager.page_offset 0)).take PAGE_SIZE) = s5Page := by
    show ((s5Page ++ s5Page ++ s5Page).drop 0).take PAGE_SIZE = s5Page
    rw [List.drop_zero, List.append_assoc, List.take_left' s5Page_length]
  simp only [hbuf, s5Page_length, s5_checksum]
  simp

theorem s5_read1 : s5Disk.read_page 1 = .ok s5Page := by
  rw [DiskManager.read_page, if_neg (by norm_num [s5Disk])]
  have hbuf : ((s5Disk.file.drop (DiskManager.page_offset 1)).take PAGE_SIZE) = s5Page := by
    show ((s5Page ++ s5Page ++ s5Page).drop (DiskManager.page_offset 1)).take
      PAGE_SIZE = s5Page
    rw [List.append_assoc,
      List.drop_left' (show s5Page.length = DiskManager.page_offset 1 by
        rw [s5Page_length, DiskManager.page_offset, Nat.one_mul]),
      List.take_left' s5Page_length]
  simp only [hbuf, s5Page_length, s5_checksum]
  simp

theorem s5_read2 : s5Disk.read_page 2 = .ok s5Page := by
  rw [DiskManager.read_page, if_neg (by norm_num [s5Disk])]
  have hbuf : ((s5Disk.file.drop (DiskManager.page_offset 2)).take PAGE_SIZE) = s5Page := by
    show ((s5Page ++ s5Page ++ s5Page).drop (DiskManager.page_offset 2)).take
      PAGE_SIZE = s5Page
    rw [List.drop_left' (show (s5Page ++ s5Page).length =
        DiskManager.page_offset 2 by
      simp only [List.length_append, s5Page_length, DiskManager.page_offset]
      ring),
      List.take_of_length_le (Nat.le_of_eq s5Page_length)]
  simp only [hbuf, s5Page_length, s5_checksum]
  simp

/-- Wrapped clock-selection facts at the `select_victim_frame` level. -/
theorem select_victim_frame_spec (pc : PageCache) (fid : Nat) (pc2 : PageCache)
    (h0 : 0 < pc.frames.length) (hh : pc.clock_hand < pc.frames.length)
    (hsel : pc.select_victim_frame = (some fid, pc2)) :
    fid < pc.frames.length ∧
    (pc.frames.getD fid Frame.empty).pin_count = 0 ∧
    (pc2.frames.getD fid Frame.empty).pin_count = 0 ∧
    (pc2.frames.getD fid Frame.empty).reference = false ∧
    pc2.frames.length = pc.frames.length ∧
    pc2.disk_manager = pc.disk_manager ∧
    pc2.page_table = pc.page_table ∧
    (∀ i, (pc2.frames.getD i Frame.empty).pin_count =
      (pc.frames.getD i Frame.empty).pin_count) := by
  rcases hloop : selectVictimLoop pc.frames pc.clock_hand (pc.frames.length * 2) with
    ⟨o, f2, nh⟩
  rw [PageCache.select_victim_frame] at hsel
  rw [hloop] at hsel
  simp only [Prod.mk.injEq] at hsel
  obtain ⟨ho, hpc2⟩ := hsel
  subst ho
  subst hpc2
  obtain ⟨hpin2, href2, hlt⟩ :=
    selectVictimLoop_some (pc.frames.length * 2) pc.frames pc.clock_hand fid f2 nh hloop
  have hpins := fun i =>
    selectVictimLoop_pins (pc.frames.length * 2) pc.frames pc.clock_hand i
  rw [hloop] at hpins
  have hlen := selectVictimLoop_length (pc.frames.length * 2) pc.frames pc.clock_hand
  rw [hloop] at hlen
  exact ⟨hlt h0 hh, (hpins fid).symm.trans hpin2, hpin2, href2, hlen, rfl, rfl, hpins⟩

theorem dropPinGuard_pin (pc : PageCache) (i : Nat) :
    ((pc.dropPinGuard i).frames.getD i Frame.empty).pin_count =
      (pc.frames.getD i Frame.empty).pin_count - 1 := by
  unfold PageCache.dropPinGuard
  by_cases h : (pc.frames.getD i Frame.empty).pin_count > 0
  · rw [if_pos h]
    rw [show (PageCache.mk pc.disk_manager
      (pc.frames.set i { pc.frames.getD i Frame.empty with
        pin_count := (pc.frames.getD i Frame.empty).pin_count - 1 })
      pc.page_table pc.clock_hand).frames = pc.frames.set i
        { pc.frames.getD i Frame.empty with
          pin_count := (pc.frames.getD i Frame.empty).pin_count - 1 } from rfl]
    rw [getD_set_self _ (lt_length_of_pin h)]
  · rw [if_neg h]
    omega

theorem lt_length_of_dirty {l : List Frame} {i : Nat}
    (h : (l.getD i Frame.empty).dirty = true) : i < l.length := by
  by_contra hc
  rw [getD_of_length_le (by omega)] at h
  simp [Frame.empty] at h

/-- A successful flush preserves the frame count and every pin count. -/
theorem flush_frames_spec (pc : PageCache) (fid : Nat) (pc1 : PageCache)
    (h : pc.flush_frame_if_dirty fid = .ok pc1) :
    pc1.frames.length = pc.frames.length ∧
    (∀ i, (pc1.frames.getD i Frame.empty).pin_count =
      (pc.frames.getD i Frame.empty).pin_count) := by
  unfold PageCache.flush_frame_if_dirty at h
  by_cases hd : (pc.frames.getD fid Frame.empty).dirty
  · rw [if_pos hd] at h
    cases hpid : (pc.frames.getD fid Frame.empty).page_id with
    | none =>
      simp only [hpid] at h
      cases h
      exact ⟨rfl, fun i => rfl⟩
    | some page_id =>
      simp only [hpid] at h
      cases hw : pc.disk_manager.write_page page_id
          (pc.frames.getD fid Frame.empty).data with
      | error e =>
        simp only [hw] at h
        cases h
      | ok dm =>
        simp only [hw, Except.ok.injEq] at h
        subst h
        constructor
        · simp
        · intro i
          by_cases hi : fid = i
          · subst hi
            show ((pc.frames.set fid _).getD fid Frame.empty).pin_count = _
            rw [getD_set_self _ (lt_length_of_dirty hd)]
          · exact congrArg Frame.pin_count (getD_set_ne _ hi)
  · rw [if_neg hd] at h
    cases h
    exact ⟨rfl, fun i => rfl⟩

/-- A successful `replace_frame` pins the victim frame exactly once and
preserves the frame count. -/
theorem replace_frame_spec (pc : PageCache) (fid pid : Nat) (pc2 : PageCache)
    (hfid : fid < pc.frames.length)
    (h : pc.replace_frame fid pid = .ok pc2) :
    (pc2.frames.getD fid Frame.empty).pin_count = 1 ∧
    pc2.frames.length = pc.frames.length := by
  unfold PageCache.replace_frame at h
  cases hf : pc.flush_frame_if_dirty fid with
  | error e =>
    simp only [hf] at h
    cases h
  | ok pc1 =>
    simp only [hf] at h
    obtain ⟨hlen1, _⟩ := flush_frames_spec pc fid pc1 hf
    cases hpid : (pc1.frames.getD fid Frame.empty).page_id with
    | none =>
      simp only [hpid] at h
      cases hr : pc1.disk_manager.read_page pid with
      | error e =>
        simp only [hr] at h
        cases h
      | ok data =>
        simp only [hr, Except.ok.injEq] at h
        subst h
        constructor
        · exact congrArg Frame.pin_count (getD_set_self _ (by omega))
        · simp [hlen1]
    | some old =>
      simp only [hpid] at h
      cases hr : pc1.disk_manager.read_page pid with
      | error e =>
        simp only [hr] at h
        cases h
      | ok data =>
        simp only [hr, Except.ok.injEq] at h
        subst h
        constructor
        · exact congrArg Frame.pin_count (getD_set_self _ (by omega))
        · simp [hlen1]

theorem ptGet_lt {pt : List (Nat × Nat)} {k v len : Nat}
    (hwf : ∀ e ∈ pt, e.2 < len) (h : ptGet pt k = some v) : v < len := by
  unfold ptGet at h
  cases hf : pt.find? (fun e => e.1 == k) with
  | none =>
    rw [hf] at h
    cases h
  | some e =>
    rw [hf] at h
    simp at h
    subst h
    exact hwf e (List.mem_of_find?_eq_some hf)

set_option maxRecDepth 2000 in
/-- C4: the clock victim scan (budgeted at `2 * frameCount` probes,
advancing the hand modulo `frameCount`, skipping pinned frames and clearing
referenced bits — the loop structure of `selectVictimLoop`): a selected
victim is an in-range frame that is unpinned and unreferenced, pin counts
are never changed by the scan (so a pinned frame is never evicted), an
all-pinned cache selects nothing, and the S5 scenario (two frames,
fetch+release pages 0, 1, 2) ends with pages 1 and 2 resident and page 0
evicted. -/
theorem clock_replacement_spec :
    (∀ (pc : PageCache) (fid : Nat) (pc2 : PageCache),
      0 < pc.frames.length → pc.clock_hand < pc.frames.length →
      pc.select_victim_frame = (some fid, pc2) →
      fid < pc.frames.length ∧
      (pc.frames.getD fid Frame.empty).pin_count = 0 ∧
      (pc2.frames.getD fid Frame.empty).pin_count = 0 ∧
      (pc2.frames.getD fid Frame.empty).reference = false ∧
      (∀ i, (pc2.frames.getD i Frame.empty).pin_count =
        (pc.frames.getD i Frame.empty).pin_count)) ∧
    (∀ pc : PageCache, 0 < pc.frames.length → pc.clock_hand < pc.frames.length →
      (∀ i, i < pc.frames.length → 0 < (pc.frames.getD i Frame.empty).pin_count) →
      (pc.select_victim_frame).1 = none) ∧
    (∃ pc3, s5Run = .ok pc3 ∧ ptContains pc3.page_table 1 = true ∧
      ptContains pc3.page_table 2 = true ∧ ptContains pc3.page_table 0 = false) := by
  refine ⟨?_, ?_, ?_⟩
  · intro pc fid pc2 h0 hh hsel
    obtain ⟨a, b, c, d, _, _, _, e⟩ := select_victim_frame_spec pc fid pc2 h0 hh hsel
    exact ⟨a, b, c, d, e⟩
  · intro pc h0 hh hall
    show (selectVictimLoop pc.frames pc.clock_hand (pc.frames.length * 2)).1 = none
    exact selectVictimLoop_all_pinned _ _ _ h0 hh hall
  · have e1 : fetchRelease s5Cache 0 = .ok (PageCache.mk s5Disk
        [Frame.mk (some 0) s5Page true false 0, Frame.empty] [(0, 0)] 1) := by
      have h := fetchRelease_ok _ _ _ _ (fetch_page_miss s5Cache 0 0 _ _ rfl rfl
        (replace_frame_clean _ 0 0 s5Page rfl s5_read0))
      exact h.trans rfl
    have e2 : fetchRelease (PageCache.mk s5Disk
        [Frame.mk (some 0) s5Page true false 0, Frame.empty] [(0, 0)] 1) 1 =
        .ok (PageCache.mk s5Disk
          [Frame.mk (some 0) s5Page true false 0,
           Frame.mk (some 1) s5Page true false 0] [(0, 0), (1, 1)] 0) := by
      have h := fetchRelease_ok (PageCache.mk s5Disk
          [Frame.mk (some 0) s5Page true false 0, Frame.empty] [(0, 0)] 1) 1 1 _
        (fetch_page_miss (PageCache.mk s5Disk
            [Frame.mk (some 0) s5Page true false 0, Frame.empty] [(0, 0)] 1) 1 1 _ _
          rfl rfl (replace_frame_clean _ 1 1 s5Page rfl s5_read1))
      exact h.trans rfl
    have e3 : fetchRelease (PageCache.mk s5Disk
        [Frame.mk (some 0) s5Page true false 0,
         Frame.mk (some 1) s5Page true false 0] [(0, 0), (1, 1)] 0) 2 =
        .ok (PageCache.mk s5Disk
          [Frame.mk (some 2) s5Page true false 0,
           Frame.mk (some 1) s5Page false false 0] [(1, 1), (2, 0)] 1) := by
      have h := fetchRelease_ok (PageCache.mk s5Disk
          [Frame.mk (some 0) s5Page true false 0,
           Frame.mk (some 1) s5Page true false 0] [(0, 0), (1, 1)] 0) 2 0 _
        (fetch_page_miss (PageCache.mk s5Disk
            [Frame.mk (some 0) s5Page true false 0,
             Frame.mk (some 1) s5Page true false 0] [(0, 0), (1, 1)] 0) 2 0 _ _
          rfl rfl (replace_frame_clean _ 0 2 s5Page rfl s5_read2))
      exact h.trans rfl
    refine ⟨PageCache.mk s5Disk
      [Frame.mk (some 2) s5Page true false 0,
       Frame.mk (some 1) s5Page false false 0] [(1, 1), (2, 0)] 1, ?_, rfl, rfl, rfl⟩
    unfold s5Run
    rw [e1, exceptSeq_ok, e2, exceptSeq_ok, e3]

/-- C8: a `PinGuard` obtained from `fetch_page` or `new_page` pins a frame
with a positive pin count; releasing it decrements that frame's pin count
by exactly one, so a fetch followed by a release restores the pin count
that held before the fetch; and the release can never drive a pin count
below zero (the decrement is guarded). -/
theorem pin_guard_release_spec :
    (∀ (pc : PageCache) (pid fid : Nat) (pc2 : PageCache), pc.WF →
      pc.fetch_page pid = .ok (fid, pc2) →
      0 < (pc2.frames.getD fid Frame.empty).pin_count ∧
      ((pc2.dropPinGuard fid).frames.getD fid Frame.empty).pin_count =
        (pc2.frames.getD fid Frame.empty).pin_count - 1 ∧
      ((pc2.dropPinGuard fid).frames.getD fid Frame.empty).pin_count =
        (pc.frames.getD fid Frame.empty).pin_count) ∧
    (∀ (pc : PageCache) (pid fid : Nat) (pc3 : PageCache), pc.WF →
      pc.new_page = .ok (pid, fid, pc3) →
      0 < (pc3.frames.getD fid Frame.empty).pin_count ∧
      ((pc3.dropPinGuard fid).frames.getD fid Frame.empty).pin_count =
        (pc3.frames.getD fid Frame.empty).pin_count - 1 ∧
      ((pc3.dropPinGuard fid).frames.getD fid Frame.empty).pin_count =
        (pc.frames.getD fid Frame.empty).pin_count) ∧
    (∀ (pc : PageCache) (i : Nat),
      ((pc.dropPinGuard i).frames.getD i Frame.empty).pin_count =
        (pc.frames.getD i Frame.empty).pin_count - 1) := by
  refine ⟨?_, ?_, fun pc i => dropPinGuard_pin pc i⟩
  · intro pc pid fid pc2 hwf h
    obtain ⟨h0, hh, hpt⟩ := hwf
    cases hget : ptGet pc.page_table pid with
    | some f =>
      rw [fetch_page_hit pc pid f hget] at h
      simp only [Except.ok.injEq, Prod.mk.injEq] at h
      obtain ⟨hfid, hpc2⟩ := h
      subst hfid
      subst hpc2
      have hflt : f < pc.frames.length := ptGet_lt hpt hget
      have hpin2 : ((pc.frames.set f
          (Frame.mk (pc.frames.getD f Frame.empty).page_id
            (pc.frames.getD f Frame.empty).data true
            (pc.frames.getD f Frame.empty).dirty
            ((pc.frames.getD f Frame.empty).pin_count + 1))).getD f
          Frame.empty).pin_count =
          (pc.frames.getD f Frame.empty).pin_count + 1 :=
        congrArg Frame.pin_count (getD_set_self _ hflt)
      refine ⟨by rw [show (PageCache.mk pc.disk_manager _ pc.page_table
          pc.clock_hand).frames = _ from rfl, hpin2]; omega, dropPinGuard_pin _ _, ?_⟩
      rw [dropPinGuard_pin]
      rw [show (PageCache.mk pc.disk_manager _ pc.page_table
        pc.clock_hand).frames = _ from rfl, hpin2]
      omega
    | none =>
      rcases hsel : pc.select_victim_frame with ⟨o, pcv⟩
      cases o with
      | none =>
        simp only [PageCache.fetch_page, hget, hsel] at h
        cases h
      | some f =>
        simp only [PageCache.fetch_page, hget, hsel] at h
        cases hrep : pcv.replace_frame f pid with
        | error e =>
          simp only [hrep] at h
          cases h
        | ok pc3 =>
          simp only [hrep, Except.ok.injEq, Prod.mk.injEq] at h
          obtain ⟨hfid, hpc2⟩ := h
          subst hfid
          subst hpc2
          obtain ⟨hflt, hpin0, _, _, hlenv, _, _, hpins⟩ :=
            select_victim_frame_spec pc f pcv h0 hh hsel
          obtain ⟨hpin1, _⟩ := replace_frame_spec pcv f pid pc3 (by omega) hrep
          refine ⟨by omega, dropPinGuard_pin _ _, ?_⟩
          rw [dropPinGuard_pin, hpin1, hpin0]
  · intro pc pid fid pc3 hwf h
    obtain ⟨h0, hh, hpt⟩ := hwf
    rcases hsel : pc.select_victim_frame with ⟨o, pcv⟩
    cases o with
    | none =>
      simp only [PageCache.new_page, hsel] at h
      cases h
    | some f =>
      simp only [PageCache.new_page, hsel] at h
      cases hnp : pcv.disk_manager.new_page with
      | error e =>
        simp only [hnp] at h
        cases h
      | ok r =>
        rcases r with ⟨pid2, dm⟩
        simp only [hnp] at h
        cases hrep : (PageCache.mk dm pcv.frames pcv.page_table
            pcv.clock_hand).replace_frame f pid2 with
        | error e =>
          simp only [hrep] at h
          cases h
        | ok pc4 =>
          simp only [hrep, Except.ok.injEq, Prod.mk.injEq] at h
          obtain ⟨hpid2, hfid, hpc3⟩ := h
          subst hpid2
          subst hfid
          subst hpc3
          obtain ⟨hflt, hpin0, _, _, hlenv, _, _, hpins⟩ :=
            select_victim_frame_spec pc f pcv h0 hh hsel
          obtain ⟨hpin1, _⟩ := replace_frame_spec
            (PageCache.mk dm pcv.frames pcv.page_table pcv.clock_hand) f pid2 pc4
            (by show f < pcv.frames.length; omega) hrep
          refine ⟨by omega, dropPinGuard_pin _ _, ?_⟩
          rw [dropPinGuard_pin, hpin1, hpin0]

/-- Witness for `disk_write_read_roundtrip`: one-page file, all-ones page. -/
theorem disk_write_read_roundtrip_witness :
    ∃ dm', DiskManager.write_page ⟨List.replicate PAGE_SIZE 0, 1⟩ 0
        (List.replicate PAGE_SIZE 1) = .ok dm' ∧
      dm'.read_page 0 =
        .ok ((List.replicate PAGE_SIZE 1).take (PAGE_SIZE - PAGE_CHECKSUM_SIZE) ++
          u32ToLeBytes (crc32 0 ((List.replicate PAGE_SIZE 1).take
            (PAGE_SIZE - PAGE_CHECKSUM_SIZE)))) :=
  disk_write_read_roundtrip ⟨List.replicate PAGE_SIZE 0, 1⟩ 0
    (List.replicate PAGE_SIZE 1) (by simp) (by norm_num) (by simp)

/-- Witness for `record_value_roundtrip_spec`: the negative-zero float bit
pattern and a one-value record. -/
theorem record_value_roundtrip_spec_witness :
    Value.deserialize [3, 0, 0, 0, 0, 0, 0, 0, 128] = .ok (.float I64_SIGN, []) ∧
    Record.deserialize [1, 6] = .ok (⟨[.null]⟩, []) :=
  ⟨record_value_roundtrip_spec.1 (.float I64_SIGN) [3, 0, 0, 0, 0, 0, 0, 0, 128]
      (by norm_num [Value.WF, I64_SIGN, U64_MOD]) (by rfl),
   record_value_roundtrip_spec.2 ⟨[.null]⟩ [1, 6]
      ⟨by
        intro v hv
        simp only [List.mem_singleton] at hv
        subst hv
        trivial,
       by norm_num [Record.serialized_size, Value.serialized_size, U64_MOD]⟩
      (by rfl)⟩


/-- C9: the Pratt expression parser uses the binding powers of the source
table (AND/OR (1,2), comparisons (3,4), `+`/`-` (5,6), `*`/`/` (6,7),
prefix `-`/NOT with right power 7); multiplication binds tighter than
addition, addition tighter than comparison, comparison tighter than
AND, equal-precedence infix operators associate to the left; and the
infix loop halts, without error and without consuming it, exactly at a
comma, right parenthesis, semicolon, or the keywords FROM, WHERE, ORDER,
ASC, DESC, LIMIT, OFFSET. -/
theorem parser_binding_power_spec :
    (Op.prefix_binding_power .Sub = some ((), 7) ∧
     Op.prefix_binding_power .Not = some ((), 7) ∧
     (∀ op : Op, op ≠ .Sub → op ≠ .Not → op.prefix_binding_power = none)) ∧
    (Op.infix_binding_power .And = some (1, 2) ∧
     Op.infix_binding_power .Or = some (1, 2) ∧
     Op.infix_binding_power .LessThan = some (3, 4) ∧
     Op.infix_binding_power .LessThanOrEqual = some (3, 4) ∧
     Op.infix_binding_power .GreaterThan = some (3, 4) ∧
     Op.infix_binding_power .GreaterThanOrEqual = some (3, 4) ∧
     Op.infix_binding_power .EqualsEquals = some (3, 4) ∧
     Op.infix_binding_power .NotEquals = some (3, 4) ∧
     Op.infix_binding_power .Add = some (5, 6) ∧
     Op.infix_binding_power .Sub = some (5, 6) ∧
     Op.infix_binding_power .Mul = some (6, 7) ∧
     Op.infix_binding_power .Div = some (6, 7) ∧
     Op.infix_binding_power .Not = none) ∧
    (parse_expression [numTok 12, .Plus, numTok 34, .Asterisk, numTok 56] =
      .ok (.BinaryOp (numExpr 12) .Add
        (.BinaryOp (numExpr 34) .Mul (numExpr 56)), []) ∧
     parse_expression [numTok 1, .Minus, numTok 2, .Minus, numTok 3] =
      .ok (.BinaryOp (.BinaryOp (numExpr 1) .Sub (numExpr 2)) .Sub
        (numExpr 3), []) ∧
     parse_expression [numTok 2, .Asterisk, numTok 3, .Plus, numTok 4] =
      .ok (.BinaryOp (.BinaryOp (numExpr 2) .Mul (numExpr 3)) .Add
        (numExpr 4), []) ∧
     parse_expression [numTok 1, .Plus, numTok 2, .LessThan, numTok 3] =
      .ok (.BinaryOp (.BinaryOp (numExpr 1) .Add (numExpr 2)) .LessThan
        (numExpr 3), []) ∧
     parse_expression [.Identifier "a", .LessThan, .Identifier "b",
        .Keyword .And, .Identifier "c", .LessThan, .Identifier "d"] =
      .ok (.BinaryOp
        (.BinaryOp (.Identifier "a") .LessThan (.Identifier "b")) .And
        (.BinaryOp (.Identifier "c") .LessThan (.Identifier "d")), []) ∧
     parse_expression [.Minus, numTok 1, .Plus, numTok 2] =
      .ok (.BinaryOp (.UnaryOp .Sub (numExpr 1)) .Add (numExpr 2), []) ∧
     parse_expression [.Keyword .Not, .Identifier "a", .Keyword .And,
        .Identifier "b"] =
      .ok (.BinaryOp (.UnaryOp .Not (.Identifier "a")) .And
        (.Identifier "b"), [])) ∧
    ((∀ t : TokenKind, isExprStopper t = true ↔
       (t = .Comma ∨ t = .RightParen ∨ t = .Semicolon ∨
        t = .Keyword .From ∨ t = .Keyword .Where ∨ t = .Keyword .Order ∨
        t = .Keyword .Desc ∨ t = .Keyword .Asc ∨ t = .Keyword .Limit ∨
        t = .Keyword .Offset)) ∧
     (∀ (fuel min_bp : Nat) (lhs : Expression) (t : TokenKind)
        (rest : List TokenKind), isExprStopper t = true →
       expr_loop (fuel + 1) min_bp lhs (t :: rest) = .ok (lhs, t :: rest))) := by
  refine ⟨⟨rfl, rfl, ?_⟩, ⟨rfl, rfl, rfl, rfl, rfl, rfl, rfl, rfl, rfl, rfl,
    rfl, rfl, rfl⟩, ⟨rfl, rfl, rfl, rfl, rfl, rfl, rfl⟩, ?_, ?_⟩
  · intro op h1 h2
    cases op <;> first | rfl | exact absurd rfl h2 | exact absurd rfl h1
  · intro t
    cases t with
    | Keyword k => cases k <;> simp [isExprStopper]
    | _ => simp [isExprStopper]
  · intro fuel min_bp lhs t rest hstop
    rw [expr_loop]
    simp [hstop]

/-!
## Byte-splice toolkit for slotted pages
-/

theorem length_writeBytesAt (p bs : List Nat) (off : Nat)
    (h : off + bs.length ≤ p.length) :
    (writeBytesAt p off bs).length = p.length := by
  simp [writeBytesAt]
  omega

theorem getD_writeBytesAt (p bs : List Nat) (off i : Nat)
    (h : off + bs.length ≤ p.length) :
    (writeBytesAt p off bs).getD i 0 =
      if i < off then p.getD i 0
      else if i < off + bs.length then bs.getD (i - off) 0
      else p.getD i 0 := by
  have htake : (p.take off).length = off := by
    simp
    omega
  rw [writeBytesAt, List.append_assoc, List.getD_eq_getElem?_getD,
    List.getElem?_append]
  simp only [htake]
  by_cases h1 : i < off
  · rw [if_pos h1, if_pos h1, List.getElem?_take_of_lt h1,
      List.getD_eq_getElem?_getD]
  · rw [if_neg h1, if_neg h1, List.getElem?_append]
    by_cases h2 : i < off + bs.length
    · rw [if_pos (show i - off < bs.length by omega), if_pos h2,
        List.getD_eq_getElem?_getD]
    · rw [if_neg (show ¬ i - off < bs.length by omega), if_neg h2,
        List.getElem?_drop, List.getD_eq_getElem?_getD]
      congr 2
      omega

theorem getD_eq_getElem (l : List Nat) (i : Nat) (h : i < l.length) :
    l.getD i 0 = l[i] := by
  rw [List.getD_eq_getElem?_getD, List.getElem?_eq_getElem h]
  rfl

theorem drop_take_eq_of_getD (x bs : List Nat) (a n : Nat)
    (hx : a + n ≤ x.length) (hbs : bs.length = n)
    (h : ∀ k, k < n → x.getD (a + k) 0 = bs.getD k 0) :
    (x.drop a).take n = bs := by
  apply List.ext_getElem
  · simp
    omega
  · intro i h1 h2
    have hi : i < n := by
      simp at h1
      omega
    have := h i hi
    rw [getD_eq_getElem x (a + i) (by omega), getD_eq_getElem bs i (by omega)] at this
    rw [List.getElem_take, List.getElem_drop]
    exact this

theorem drop_take_congr (p q : List Nat) (a n : Nat)
    (hp : a + n ≤ p.length) (hq : a + n ≤ q.length)
    (h : ∀ k, k < n → p.getD (a + k) 0 = q.getD (a + k) 0) :
    (p.drop a).take n = (q.drop a).take n := by
  apply drop_take_eq_of_getD _ _ _ _ hp (by simp; omega)
  intro k hk
  rw [h k hk]
  rw [getD_eq_getElem q (a + k) (by omega)]
  rw [List.getD_eq_getElem?_getD, List.getElem?_take]
  rw [if_pos hk, List.getElem?_drop, List.getElem?_eq_getElem (by omega)]
  rfl


theorem isBytes_getD {p : List Nat} (h : isBytes p) (i : Nat) :
    p.getD i 0 < 256 := by
  rw [List.getD_eq_getElem?_getD]
  cases hx : p[i]? with
  | none => simp
  | some v =>
    have hv := h v (List.getElem?_mem hx)
    simpa using hv

theorem isBytes_append {a b : List Nat} (ha : isBytes a) (hb : isBytes b) :
    isBytes (a ++ b) := by
  intro x hx
  rcases List.mem_append.mp hx with h | h
  · exact ha x h
  · exact hb x h

theorem isBytes_take {p : List Nat} (h : isBytes p) (n : Nat) :
    isBytes (p.take n) := fun x hx => h x (List.take_subset n p hx)

theorem isBytes_drop {p : List Nat} (h : isBytes p) (n : Nat) :
    isBytes (p.drop n) := fun x hx => h x (List.drop_subset n p hx)

theorem isBytes_writeBytesAt {p bs : List Nat} (hp : isBytes p)
    (hbs : isBytes bs) (off : Nat) : isBytes (writeBytesAt p off bs) :=
  isBytes_append (isBytes_append (isBytes_take hp off) hbs)
    (isBytes_drop hp (off + bs.length))

theorem isBytes_replicate (n v : Nat) (h : v < 256) :
    isBytes (List.replicate n v) := by
  intro x hx
  rw [List.eq_of_mem_replicate hx]
  exact h

theorem isBytes_u16ToLeBytes (n : Nat) : isBytes (u16ToLeBytes n) := by
  intro x hx
  rw [u16ToLeBytes] at hx
  have h1 : n &&& 255 ≤ 255 := Nat.and_le_right
  have h2 : (n >>> 8) &&& 255 ≤ 255 := Nat.and_le_right
  rcases List.mem_cons.mp hx with h | h
  · omega
  · rcases List.mem_cons.mp h with h | h
    · omega
    · simp at h

theorem isBytes_u64ToLeBytes (n : Nat) : isBytes (u64ToLeBytes n) := by
  intro x hx
  rw [u64ToLeBytes] at hx
  have h1 : ∀ m : Nat, m &&& 255 ≤ 255 := fun _ => Nat.and_le_right
  simp only [List.mem_cons, List.not_mem_nil, or_false] at hx
  rcases hx with h | h | h | h | h | h | h | h <;>
    (rw [h]; have := h1 (n >>> 0); have := h1 (n >>> 8); have := h1 (n >>> 16);
     have := h1 (n >>> 24); have := h1 (n >>> 32); have := h1 (n >>> 40);
     have := h1 (n >>> 48); have := h1 (n >>> 56); have := h1 n; omega)

theorem read_u16_lt {p : List Nat} (h : isBytes p) (off : Nat) :
    read_u16 p off < 65536 := by
  have h1 := isBytes_getD h off
  have h2 := isBytes_getD h (off + 1)
  rw [read_u16]
  omega

/-- Reading back a `u16` just written. -/
theorem read_u16_write_u16_self (p : List Nat) (off v : Nat)
    (hoff : off + 2 ≤ p.length) (hv : v < 65536) :
    read_u16 (write_u16 p off v) off = v := by
  rw [read_u16, write_u16, u16ToLeBytes]
  rw [getD_writeBytesAt _ _ _ _ (by simpa using hoff)]
  rw [getD_writeBytesAt _ _ _ _ (by simpa using hoff)]
  simp only [List.length_cons, List.length_nil]
  rw [if_neg (by omega), if_pos (by omega), if_neg (by omega),
    if_pos (by omega)]
  have hs : off + 1 - off = 1 := by omega
  rw [Nat.sub_self, hs]
  simp only [List.getD_cons_zero, List.getD_cons_succ]
  rw [Nat.shiftRight_eq_div_pow, show (255 : Nat) = 2 ^ 8 - 1 by norm_num,
    Nat.and_pow_two_sub_one_eq_mod, Nat.and_pow_two_sub_one_eq_mod]
  norm_num
  omega

/-- A `u16` read from a region a `writeBytesAt` did not touch. -/
theorem read_u16_writeBytesAt_outside (p bs : List Nat) (off off2 : Nat)
    (h : off + bs.length ≤ p.length)
    (hout : off2 + 2 ≤ off ∨ off + bs.length ≤ off2) :
    read_u16 (writeBytesAt p off bs) off2 = read_u16 p off2 := by
  rw [read_u16, read_u16]
  rw [getD_writeBytesAt _ _ _ _ h, getD_writeBytesAt _ _ _ _ h]
  rcases hout with h1 | h1
  · rw [if_pos (by omega), if_pos (by omega)]
  · rw [if_neg (by omega), if_neg (by omega), if_neg (by omega),
      if_neg (by omega)]

/-- A region read from a `writeBytesAt` that did not touch it. -/
theorem drop_take_writeBytesAt_outside (p bs : List Nat) (off a n : Nat)
    (h : off + bs.length ≤ p.length) (ha : a + n ≤ p.length)
    (hout : a + n ≤ off ∨ off + bs.length ≤ a) :
    ((writeBytesAt p off bs).drop a).take n = (p.drop a).take n := by
  apply drop_take_congr _ _ _ _ (by rw [length_writeBytesAt _ _ _ h]; exact ha) ha
  intro k hk
  rw [getD_writeBytesAt _ _ _ _ h]
  rcases hout with h1 | h1
  · rw [if_pos (by omega)]
  · rw [if_neg (by omega), if_neg (by omega)]

/-- Reading back the bytes just written. -/
theorem drop_take_writeBytesAt_self (p bs : List Nat) (off : Nat)
    (h : off + bs.length ≤ p.length) :
    ((writeBytesAt p off bs).drop off).take bs.length = bs := by
  apply drop_take_eq_of_getD _ _ _ _
    (by rw [length_writeBytesAt _ _ _ h]; exact h) rfl
  intro k hk
  rw [getD_writeBytesAt _ _ _ _ h]
  rw [if_neg (by omega), if_pos (by omega)]
  congr 1
  omega

/-- Reading a sub-region of bytes just written. -/
theorem drop_take_writeBytesAt_inside (p bs : List Nat) (off a n : Nat)
    (h : off + bs.length ≤ p.length) (ha : off ≤ a)
    (hn : a + n ≤ off + bs.length) :
    ((writeBytesAt p off bs).drop a).take n = (bs.drop (a - off)).take n := by
  apply drop_take_eq_of_getD _ _ _ _
    (by rw [length_writeBytesAt _ _ _ h]; omega) (by simp; omega)
  intro k hk
  rw [getD_writeBytesAt _ _ _ _ h]
  rw [if_neg (by omega), if_pos (by omega)]
  rw [getD_eq_getElem _ _ (by omega : a + k - off < bs.length)]
  rw [List.getD_eq_getElem?_getD, List.getElem?_take, if_pos hk,
    List.getElem?_drop, List.getElem?_eq_getElem (by omega)]
  simp only [Option.getD_some]
  congr 1
  omega


/-!
## Layout operations on well-formed pages
-/

theorem PageWF.hs_le {spec page cells} (hW : PageWF spec page cells) :
    spec.header_size + cells.length * SLOT_WIDTH ≤ PAGE_SIZE :=
  le_trans hW.dir_le hW.cs_le

theorem validate_spec_ok {spec page cells} (hW : PageWF spec page cells) :
    validate_spec spec = .ok () := by
  have h1 := hW.hmin
  have h2 := hW.hs_le
  have h3 : CONTENT_START_OFFSET = 4 := rfl
  have h4 : SLOT_WIDTH = 2 := rfl
  have h5 : PAGE_SIZE = 4096 := rfl
  rw [validate_spec, if_neg (by omega)]

theorem validate_ok {spec page cells} (hW : PageWF spec page cells) :
    validate page spec = .ok () := by
  have h1 := hW.dir_le
  have h2 := hW.cs_le
  rw [validate, validate_spec_ok hW]
  simp only [hW.ptype, hW.count, slot_dir_end_for_count, ne_eq,
    not_true_eq_false, if_false]
  rw [if_neg (show ¬ PAGE_SIZE < spec.header_size + cells.length * SLOT_WIDTH
    by omega)]
  simp only []
  rw [if_neg (by omega)]

theorem slot_position_ok (spec : PageSpec) (i : Nat)
    (h : spec.header_size + i * SLOT_WIDTH + SLOT_WIDTH ≤ PAGE_SIZE) :
    slot_position spec i = .ok (spec.header_size + i * SLOT_WIDTH) := by
  rw [slot_position, if_neg (by omega)]

theorem slot_position_le {spec page cells} (hW : PageWF spec page cells)
    {i : Nat} (hi : i < cells.length) :
    spec.header_size + i * SLOT_WIDTH + SLOT_WIDTH ≤ PAGE_SIZE := by
  have h2 := hW.hs_le
  have h5 : i * SLOT_WIDTH + SLOT_WIDTH ≤ cells.length * SLOT_WIDTH := by
    have : i + 1 ≤ cells.length := hi
    calc i * SLOT_WIDTH + SLOT_WIDTH = (i + 1) * SLOT_WIDTH := by ring
    _ ≤ cells.length * SLOT_WIDTH := Nat.mul_le_mul_right _ this
  omega

theorem slot_offset_ok {spec page cells} (hW : PageWF spec page cells)
    {i : Nat} (hi : i < cells.length) :
    slot_offset page spec i = .ok (slotOff page spec i) := by
  rw [slot_offset, if_neg (by rw [hW.count]; omega)]
  rw [slot_position_ok spec i (slot_position_le hW hi)]
  rfl

theorem cell_bytes_on_valid_ok {spec page cells} (hW : PageWF spec page cells)
    {i : Nat} (hi : i < cells.length) :
    cell_bytes_at_slot_on_valid_page page spec i =
      .ok (page.drop (slotOff page spec i)) := by
  obtain ⟨hpos, hcs, hfit, _⟩ := hW.cellsOk i hi
  rw [cell_bytes_at_slot_on_valid_page, cell_bytes_at_slot_impl,
    slot_offset_ok hW hi]
  simp only []
  rw [if_neg (by omega)]

theorem cell_bytes_at_slot_ok {spec page cells} (hW : PageWF spec page cells)
    {i : Nat} (hi : i < cells.length) :
    cell_bytes_at_slot page spec i =
      .ok (page.drop (slotOff page spec i)) := by
  rw [cell_bytes_at_slot, validate_ok hW]
  exact cell_bytes_on_valid_ok hW hi

/-- The suffix at a live slot has the cell bytes as prefix, element by
element. -/
theorem getD_cell_suffix {spec page cells} (hW : PageWF spec page cells)
    {i : Nat} (hi : i < cells.length) {k : Nat}
    (hk : k < (cells.getD i []).length) :
    (page.drop (slotOff page spec i)).getD k 0 = (cells.getD i []).getD k 0 := by
  obtain ⟨hpos, hcs, hfit, hdec⟩ := hW.cellsOk i hi
  rw [← hdec]
  rw [List.getD_eq_getElem?_getD, List.getD_eq_getElem?_getD,
    List.getElem?_take, if_pos hk]

theorem cell_suffix_length {spec page cells} (hW : PageWF spec page cells)
    {i : Nat} (hi : i < cells.length) :
    (page.drop (slotOff page spec i)).length =
      PAGE_SIZE - slotOff page spec i := by
  rw [List.length_drop, hW.len]


/-!
## Binary-search correctness on a well-formed page
-/

/-- The binary-search loop on a page whose live keys (as read back by
`extract`) are `keys`, strictly sorted: it finds the slot of `target`
when present, and otherwise its sorted insertion point. -/
theorem findRowIdLoop_spec {spec page cells}
    (hW : PageWF spec page cells)
    (extract : List Nat → Except TablePageError Nat) (keys : List Nat)
    (hklen : keys.length = cells.length)
    (hext : ∀ i, i < cells.length →
      extract (page.drop (slotOff page spec i)) = .ok (keys.getD i 0))
    (hsorted : ∀ i j, i < j → j < keys.length →
      keys.getD i 0 < keys.getD j 0)
    (target : Nat) :
    ∀ (fuel left right : Nat), left ≤ right → right ≤ keys.length →
    right - left ≤ fuel →
    (∀ j, j < left → keys.getD j 0 < target) →
    (∀ j, right ≤ j → j < keys.length → target < keys.getD j 0) →
    (∃ i, findRowIdLoop page spec extract target fuel left right =
        .ok (.Found i) ∧ i < keys.length ∧ keys.getD i 0 = target) ∨
    (∃ l, findRowIdLoop page spec extract target fuel left right =
        .ok (.NotFound l) ∧ l ≤ keys.length ∧
      (∀ j, j < l → keys.getD j 0 < target) ∧
      (∀ j, l ≤ j → j < keys.length → target < keys.getD j 0)) := by
  intro fuel
  induction fuel with
  | zero =>
    intro left right h1 h2 h3 h4 h5
    right
    refine ⟨left, rfl, by omega, h4, ?_⟩
    intro j hj1 hj2
    exact h5 j (by omega) hj2
  | succ fuel ih =>
    intro left right h1 h2 h3 h4 h5
    rw [findRowIdLoop]
    by_cases hlr : left < right
    · rw [if_pos hlr]
      have hmidk : left + (right - left) / 2 < keys.length := by omega
      have hmid : left + (right - left) / 2 < cells.length := by omega
      rw [cell_bytes_on_valid_ok hW hmid]
      simp only []
      rw [hext _ hmid]
      simp only []
      by_cases hc1 : keys.getD (left + (right - left) / 2) 0 < target
      · rw [if_pos hc1]
        apply ih (left + (right - left) / 2 + 1) right (by omega) h2 (by omega)
        · intro j hj
          rcases Nat.lt_or_ge j (left + (right - left) / 2) with hj2 | hj2
          · exact lt_trans (hsorted j _ hj2 hmidk) hc1
          · have : j = left + (right - left) / 2 := by omega
            rw [this]
            exact hc1
        · exact h5
      · rw [if_neg hc1]
        by_cases hc2 : target < keys.getD (left + (right - left) / 2) 0
        · rw [if_pos hc2]
          apply ih left (left + (right - left) / 2) (by omega) (by omega)
            (by omega) h4
          intro j hj1 hj2
          rcases Nat.lt_or_ge (left + (right - left) / 2) j with hj3 | hj3
          · exact lt_trans hc2 (hsorted _ j hj3 hj2)
          · have : j = left + (right - left) / 2 := by omega
            rw [this]
            exact hc2
        · rw [if_neg hc2]
          left
          exact ⟨left + (right - left) / 2, rfl, hmidk, by omega⟩
    · rw [if_neg hlr]
      right
      refine ⟨left, rfl, by omega, h4, ?_⟩
      intro j hj1 hj2
      exact h5 j (by omega) hj2

/-- `find_row_id` on a well-formed page: `Found` exactly at the slot of
`target` when some live key equals it, `NotFound` at the sorted
insertion point otherwise. -/
theorem find_row_id_spec {spec page cells}
    (hW : PageWF spec page cells)
    (extract : List Nat → Except TablePageError Nat) (keys : List Nat)
    (hklen : keys.length = cells.length)
    (hext : ∀ i, i < cells.length →
      extract (page.drop (slotOff page spec i)) = .ok (keys.getD i 0))
    (hsorted : ∀ i j, i < j → j < keys.length →
      keys.getD i 0 < keys.getD j 0)
    (target : Nat) :
    (∃ i, find_row_id page spec target extract = .ok (.Found i) ∧
       i < keys.length ∧ keys.getD i 0 = target) ∨
    (∃ l, find_row_id page spec target extract = .ok (.NotFound l) ∧
       l ≤ keys.length ∧ (∀ j, j < l → keys.getD j 0 < target) ∧
       (∀ j, l ≤ j → j < keys.length → target < keys.getD j 0)) := by
  rw [find_row_id, validate_ok hW]
  simp only []
  rw [hW.count, ← hklen]
  exact findRowIdLoop_spec hW extract keys hklen hext hsorted target
    keys.length 0 keys.length (by omega) (by omega) (by omega)
    (by omega) (by intro j hj1 hj2; omega)


/-!
## Decoding leaf and interior cells on well-formed pages
-/

theorem getD_map {α β : Type} (f : α → β) (cells : List α) (d : α)
    (d' : β) {i : Nat} (h : i < cells.length) :
    (cells.map f).getD i d' = f (cells.getD i d) := by
  rw [List.getD_eq_getElem?_getD, List.getD_eq_getElem?_getD,
    List.getElem?_map, List.getElem?_eq_getElem h]
  rfl

theorem u16ToLeBytes_length (n : Nat) : (u16ToLeBytes n).length = 2 := by
  rw [u16ToLeBytes]
  rfl

theorem u64ToLeBytes_length (n : Nat) : (u64ToLeBytes n).length = 8 := by
  rw [u64ToLeBytes]
  rfl

theorem leafCellBytes_length (r : Nat) (p : List Nat) :
    (leafCellBytes r p).length = LEAF_CELL_PREFIX_SIZE + p.length := by
  rw [leafCellBytes]
  simp [u16ToLeBytes_length, u64ToLeBytes_length]
  have h : LEAF_CELL_PREFIX_SIZE = 10 := rfl
  omega

theorem encode_interior_cell_length (lc r : Nat) :
    (encode_interior_cell lc r).length = INTERIOR_CELL_SIZE := by
  rw [encode_interior_cell]
  simp [u64ToLeBytes_length]
  rfl

theorem isBytes_leafCellBytes (r : Nat) (p : List Nat) (hp : isBytes p) :
    isBytes (leafCellBytes r p) :=
  isBytes_append (isBytes_append (isBytes_u16ToLeBytes _)
    (isBytes_u64ToLeBytes _)) hp

theorem isBytes_encode_interior_cell (lc r : Nat) :
    isBytes (encode_interior_cell lc r) :=
  isBytes_append (isBytes_u64ToLeBytes _) (isBytes_u64ToLeBytes _)

theorem read_u16_leafCellBytes (r : Nat) (p : List Nat)
    (hp : p.length ≤ 0xFFFF) : read_u16 (leafCellBytes r p) 0 = p.length := by
  rw [leafCellBytes, u16ToLeBytes, read_u16]
  simp only [List.cons_append, List.nil_append, List.getD_cons_zero,
    List.getD_cons_succ, Nat.zero_add]
  rw [Nat.shiftRight_eq_div_pow, show (255 : Nat) = 2 ^ 8 - 1 by norm_num,
    Nat.and_pow_two_sub_one_eq_mod, Nat.and_pow_two_sub_one_eq_mod]
  norm_num
  omega

theorem read_u64_leafCellBytes (r : Nat) (p : List Nat) (hr : r < U64_MOD) :
    read_u64 (leafCellBytes r p) PAYLOAD_LEN_SIZE = r := by
  rw [read_u64, leafCellBytes, List.append_assoc]
  rw [List.drop_left' (by rw [u16ToLeBytes_length]; rfl)]
  rw [List.take_left' (u64ToLeBytes_length r)]
  exact u64FromLeBytes_toLeBytes r hr

theorem payload_leafCellBytes (r : Nat) (p : List Nat) :
    ((leafCellBytes r p).drop LEAF_CELL_PREFIX_SIZE).take p.length = p := by
  rw [leafCellBytes]
  rw [List.drop_left' (by simp [u16ToLeBytes_length, u64ToLeBytes_length]; rfl)]
  exact List.take_length p

theorem read_u64_encode_interior_0 (lc r : Nat) (h : lc < U64_MOD) :
    read_u64 (encode_interior_cell lc r) 0 = lc := by
  rw [read_u64, encode_interior_cell, List.drop_zero]
  rw [List.take_left' (u64ToLeBytes_length lc)]
  exact u64FromLeBytes_toLeBytes lc h

theorem read_u64_encode_interior_8 (lc r : Nat) (h : r < U64_MOD) :
    read_u64 (encode_interior_cell lc r) LEFT_CHILD_SIZE = r := by
  rw [read_u64, encode_interior_cell, show LEFT_CHILD_SIZE = 8 from rfl]
  rw [List.drop_left' (u64ToLeBytes_length lc)]
  rw [show (8 : Nat) = (u64ToLeBytes r).length from (u64ToLeBytes_length r).symm,
    List.take_length]
  exact u64FromLeBytes_toLeBytes r h

/-- A sub-region of a live cell's suffix equals the same sub-region of
the cell bytes. -/
theorem suffix_region {spec page bcells} (hW : PageWF spec page bcells)
    {i : Nat} (hi : i < bcells.length) (a n : Nat)
    (h : a + n ≤ (bcells.getD i []).length) :
    ((page.drop (slotOff page spec i)).drop a).take n =
      ((bcells.getD i []).drop a).take n := by
  obtain ⟨hpos, hcs, hfit, hdec⟩ := hW.cellsOk i hi
  apply drop_take_congr
  · rw [cell_suffix_length hW hi]
    omega
  · exact h
  · intro k hk
    exact getD_cell_suffix hW hi (by omega)

theorem suffix_getD {spec page bcells} (hW : PageWF spec page bcells)
    {i : Nat} (hi : i < bcells.length) {k : Nat}
    (hk : k < (bcells.getD i []).length) :
    (page.drop (slotOff page spec i)).getD k 0 = (bcells.getD i []).getD k 0 :=
  getD_cell_suffix hW hi hk


theorem getD_mem_of_lt {α : Type} (l : List α) (d : α) {i : Nat}
    (h : i < l.length) : l.getD i d ∈ l := by
  rw [List.getD_eq_getElem?_getD, List.getElem?_eq_getElem h]
  exact List.getElem_mem h

/-- All byte-level reads of the live leaf cell at slot `i`. -/
theorem leaf_cell_reads {page : List Nat} {cells : List (Nat × List Nat)}
    (hL : LeafWF page cells) {i : Nat} (hi : i < cells.length) :
    read_u16 (page.drop (slotOff page LEAF_SPEC i)) 0 =
      (cells.getD i (0, [])).2.length ∧
    read_u64 (page.drop (slotOff page LEAF_SPEC i)) PAYLOAD_LEN_SIZE =
      (cells.getD i (0, [])).1 ∧
    ((page.drop (slotOff page LEAF_SPEC i)).drop
        LEAF_CELL_PREFIX_SIZE).take (cells.getD i (0, [])).2.length =
      (cells.getD i (0, [])).2 ∧
    leaf_cell_len (page.drop (slotOff page LEAF_SPEC i)) =
      .ok (LEAF_CELL_PREFIX_SIZE + (cells.getD i (0, [])).2.length) ∧
    leaf_row_id_from_cell (page.drop (slotOff page LEAF_SPEC i)) =
      .ok (cells.getD i (0, [])).1 := by
  obtain ⟨hW, hb, hsort⟩ := hL
  have hi' : i < (cells.map (fun c => leafCellBytes c.1 c.2)).length := by
    rw [List.length_map]
    exact hi
  have henc : (cells.map (fun c => leafCellBytes c.1 c.2)).getD i [] =
      leafCellBytes (cells.getD i (0, [])).1 (cells.getD i (0, [])).2 :=
    getD_map _ cells (0, []) [] hi
  have hcb := hb (cells.getD i (0, [])) (getD_mem_of_lt cells (0, []) hi)
  have hlen10 : ((cells.map (fun c => leafCellBytes c.1 c.2)).getD i
      []).length = LEAF_CELL_PREFIX_SIZE + (cells.getD i (0, [])).2.length := by
    rw [henc, leafCellBytes_length]
  have hfit := (hW.cellsOk i hi').2.2.1
  have hsuffl : (page.drop (slotOff page LEAF_SPEC i)).length =
      PAGE_SIZE - slotOff page LEAF_SPEC i := cell_suffix_length hW hi'
  have hpfx : LEAF_CELL_PREFIX_SIZE = 10 := rfl
  have hr16 : read_u16 (page.drop (slotOff page LEAF_SPEC i)) 0 =
      (cells.getD i (0, [])).2.length := by
    rw [read_u16, suffix_getD hW hi' (by omega), suffix_getD hW hi' (by omega)]
    rw [← read_u16, henc]
    exact read_u16_leafCellBytes _ _ hcb.2.1
  have hr64 : read_u64 (page.drop (slotOff page LEAF_SPEC i))
      PAYLOAD_LEN_SIZE = (cells.getD i (0, [])).1 := by
    rw [read_u64, show PAYLOAD_LEN_SIZE = 2 from rfl]
    rw [suffix_region hW hi' 2 8 (by omega), henc]
    exact read_u64_leafCellBytes _ _ hcb.1
  have hpay : ((page.drop (slotOff page LEAF_SPEC i)).drop
      LEAF_CELL_PREFIX_SIZE).take (cells.getD i (0, [])).2.length =
      (cells.getD i (0, [])).2 := by
    rw [suffix_region hW hi' LEAF_CELL_PREFIX_SIZE _ (by omega)]
    rw [henc]
    exact payload_leafCellBytes _ _
  refine ⟨hr16, hr64, hpay, ?_, ?_⟩
  · rw [leaf_cell_len, if_neg (by omega), hr16, if_neg (by omega)]
  · rw [leaf_row_id_from_cell, if_neg (by omega), hr64]

/-- All byte-level reads of the live interior cell at slot `i`. -/
theorem interior_cell_reads {page : List Nat} {cells : List (Nat × Nat)}
    (hI : InteriorWF page cells) {i : Nat} (hi : i < cells.length) :
    read_u64 (page.drop (slotOff page INTERIOR_SPEC i)) 0 =
      (cells.getD i (0, 0)).1 ∧
    read_u64 (page.drop (slotOff page INTERIOR_SPEC i)) LEFT_CHILD_SIZE =
      (cells.getD i (0, 0)).2 ∧
    interior_cell_len (page.drop (slotOff page INTERIOR_SPEC i)) =
      .ok INTERIOR_CELL_SIZE ∧
    interior_row_id_from_cell (page.drop (slotOff page INTERIOR_SPEC i)) =
      .ok (cells.getD i (0, 0)).2 := by
  obtain ⟨hW, hb, hsort⟩ := hI
  have hi' : i < (cells.map (fun c => encode_interior_cell c.1 c.2)).length := by
    rw [List.length_map]
    exact hi
  have henc : (cells.map (fun c => encode_interior_cell c.1 c.2)).getD i [] =
      encode_interior_cell (cells.getD i (0, 0)).1 (cells.getD i (0, 0)).2 :=
    getD_map _ cells (0, 0) [] hi
  have hcb := hb (cells.getD i (0, 0)) (getD_mem_of_lt cells (0, 0) hi)
  have hlen16 : ((cells.map (fun c => encode_interior_cell c.1 c.2)).getD i
      []).length = INTERIOR_CELL_SIZE := by
    rw [henc, encode_interior_cell_length]
  have hfit := (hW.cellsOk i hi').2.2.1
  have hsuffl : (page.drop (slotOff page INTERIOR_SPEC i)).length =
      PAGE_SIZE - slotOff page INTERIOR_SPEC i := cell_suffix_length hW hi'
  have hsz : INTERIOR_CELL_SIZE = 16 := rfl
  have hr0 : read_u64 (page.drop (slotOff page INTERIOR_SPEC i)) 0 =
      (cells.getD i (0, 0)).1 := by
    rw [read_u64, suffix_region hW hi' 0 8 (by omega), henc]
    exact read_u64_encode_interior_0 _ _ hcb.1
  have hr8 : read_u64 (page.drop (slotOff page INTERIOR_SPEC i))
      LEFT_CHILD_SIZE = (cells.getD i (0, 0)).2 := by
    rw [read_u64, show LEFT_CHILD_SIZE = 8 from rfl]
    rw [suffix_region hW hi' 8 8 (by omega), henc]
    exact read_u64_encode_interior_8 _ _ hcb.2
  refine ⟨hr0, hr8, ?_, ?_⟩
  · rw [interior_cell_len, if_neg (by omega)]
  · rw [interior_row_id_from_cell, if_neg (by omega), hr8]

theorem leafKeys_length (cells : List (Nat × List Nat)) :
    (leafKeys cells).length = cells.length := by
  rw [leafKeys, List.length_map]

theorem interiorKeys_length (cells : List (Nat × Nat)) :
    (interiorKeys cells).length = cells.length := by
  rw [interiorKeys, List.length_map]

theorem leafKeys_getD (cells : List (Nat × List Nat)) {i : Nat}
    (h : i < cells.length) :
    (leafKeys cells).getD i 0 = (cells.getD i (0, [])).1 :=
  getD_map Prod.fst cells (0, []) 0 h

theorem interiorKeys_getD (cells : List (Nat × Nat)) {i : Nat}
    (h : i < cells.length) :
    (interiorKeys cells).getD i 0 = (cells.getD i (0, 0)).2 :=
  getD_map Prod.snd cells (0, 0) 0 h

theorem leafKeys_sorted {page : List Nat} {cells : List (Nat × List Nat)}
    (hL : LeafWF page cells) : ∀ i j, i < j → j < (leafKeys cells).length →
    (leafKeys cells).getD i 0 < (leafKeys cells).getD j 0 := by
  intro i j hij hj
  rw [leafKeys_length] at hj
  rw [leafKeys_getD cells (by omega), leafKeys_getD cells hj]
  have hp := List.pairwise_iff_getElem.mp hL.2.2 i j (by omega) hj hij
  have e1 : cells.getD i (0, []) = cells[i] := by
    rw [List.getD_eq_getElem?_getD, List.getElem?_eq_getElem (by omega)]
    rfl
  have e2 : cells.getD j (0, []) = cells[j] := by
    rw [List.getD_eq_getElem?_getD, List.getElem?_eq_getElem hj]
    rfl
  rw [e1, e2]
  exact hp

theorem interiorKeys_sorted {page : List Nat} {cells : List (Nat × Nat)}
    (hI : InteriorWF page cells) :
    ∀ i j, i < j → j < (interiorKeys cells).length →
    (interiorKeys cells).getD i 0 < (interiorKeys cells).getD j 0 := by
  intro i j hij hj
  rw [interiorKeys_length] at hj
  rw [interiorKeys_getD cells (by omega), interiorKeys_getD cells hj]
  have hp := List.pairwise_iff_getElem.mp hI.2.2 i j (by omega) hj hij
  have e1 : cells.getD i (0, 0) = cells[i] := by
    rw [List.getD_eq_getElem?_getD, List.getElem?_eq_getElem (by omega)]
    rfl
  have e2 : cells.getD j (0, 0) = cells[j] := by
    rw [List.getD_eq_getElem?_getD, List.getElem?_eq_getElem hj]
    rfl
  rw [e1, e2]
  exact hp

/-- `find_row_id` with the leaf key extractor on a well-formed leaf. -/
theorem leaf_find_spec {page : List Nat} {cells : List (Nat × List Nat)}
    (hL : LeafWF page cells) (target : Nat) :
    (∃ i, find_row_id page LEAF_SPEC target leaf_row_id_from_cell =
        .ok (.Found i) ∧ i < (leafKeys cells).length ∧
        (leafKeys cells).getD i 0 = target) ∨
    (∃ l, find_row_id page LEAF_SPEC target leaf_row_id_from_cell =
        .ok (.NotFound l) ∧ l ≤ (leafKeys cells).length ∧
      (∀ j, j < l → (leafKeys cells).getD j 0 < target) ∧
      (∀ j, l ≤ j → j < (leafKeys cells).length →
        target < (leafKeys cells).getD j 0)) := by
  apply find_row_id_spec hL.1 leaf_row_id_from_cell (leafKeys cells)
  · rw [leafKeys_length, List.length_map]
  · intro i hi
    rw [List.length_map] at hi
    rw [leafKeys_getD cells hi]
    exact (leaf_cell_reads hL hi).2.2.2.2
  · exact leafKeys_sorted hL

/-- `find_interior_row_id` on a well-formed interior page. -/
theorem interior_find_spec {page : List Nat} {cells : List (Nat × Nat)}
    (hI : InteriorWF page cells) (target : Nat) :
    (∃ i, find_interior_row_id page target = .ok (.Found i) ∧
        i < (interiorKeys cells).length ∧
        (interiorKeys cells).getD i 0 = target) ∨
    (∃ l, find_interior_row_id page target = .ok (.NotFound l) ∧
        l ≤ (interiorKeys cells).length ∧
      (∀ j, j < l → (interiorKeys cells).getD j 0 < target) ∧
      (∀ j, l ≤ j → j < (interiorKeys cells).length →
        target < (interiorKeys cells).getD j 0)) := by
  rw [find_interior_row_id]
  apply find_row_id_spec hI.1 interior_row_id_from_cell (interiorKeys cells)
  · rw [interiorKeys_length, List.length_map]
  · intro i hi
    rw [List.length_map] at hi
    rw [interiorKeys_getD cells hi]
    exact (interior_cell_reads hI hi).2.2.2
  · exact interiorKeys_sorted hI


/-!
## List surgery helpers
-/

theorem insert_list_length {α : Type} (cells : List α) (nc : α) (idx : Nat)
    (hidx : idx ≤ cells.length) :
    (cells.take idx ++ nc :: cells.drop idx).length = cells.length + 1 := by
  simp
  omega

theorem getD_insert_list {α : Type} (cells : List α) (nc : α) (idx : Nat)
    (d : α) (hidx : idx ≤ cells.length) (j : Nat) :
    (cells.take idx ++ nc :: cells.drop idx).getD j d =
      if j < idx then cells.getD j d
      else if j = idx then nc
      else cells.getD (j - 1) d := by
  have htl : (cells.take idx).length = idx := by
    simp
    omega
  rw [List.getD_eq_getElem?_getD, List.getElem?_append]
  rw [htl]
  by_cases h1 : j < idx
  · rw [if_pos h1, if_pos h1, List.getElem?_take, if_pos h1,
      List.getD_eq_getElem?_getD]
  · rw [if_neg h1, if_neg h1]
    by_cases h2 : j = idx
    · rw [if_pos h2, h2, Nat.sub_self]
      simp
    · rw [if_neg h2]
      have h3 : j - idx = (j - idx - 1) + 1 := by omega
      rw [h3]
      simp only [List.getElem?_cons_succ]
      rw [List.getElem?_drop, List.getD_eq_getElem?_getD,
        show idx + (j - idx - 1) = j - 1 from by omega]

theorem sum_insert_list (cells : List (List Nat)) (nc : List Nat) (idx : Nat)
    (hidx : idx ≤ cells.length) :
    ((cells.take idx ++ nc :: cells.drop idx).map List.length).sum =
      (cells.map List.length).sum + nc.length := by
  rw [List.map_append, List.sum_append, List.map_cons, List.sum_cons]
  conv_rhs => rw [← List.take_append_drop idx cells]
  rw [List.map_append, List.sum_append]
  omega

theorem remove_list_length {α : Type} (cells : List α) (idx : Nat)
    (hidx : idx < cells.length) :
    (cells.take idx ++ cells.drop (idx + 1)).length = cells.length - 1 := by
  simp
  omega

theorem getD_remove_list {α : Type} (cells : List α) (idx : Nat) (d : α)
    (hidx : idx < cells.length) (j : Nat) :
    (cells.take idx ++ cells.drop (idx + 1)).getD j d =
      if j < idx then cells.getD j d else cells.getD (j + 1) d := by
  have htl : (cells.take idx).length = idx := by
    simp
    omega
  rw [List.getD_eq_getElem?_getD, List.getElem?_append, htl]
  by_cases h1 : j < idx
  · rw [if_pos h1, if_pos h1, List.getElem?_take, if_pos h1,
      List.getD_eq_getElem?_getD]
  · rw [if_neg h1, if_neg h1, List.getElem?_drop,
      List.getD_eq_getElem?_getD,
      show idx + 1 + (j - idx) = j + 1 from by omega]

theorem sum_remove_list (cells : List (List Nat)) (idx : Nat)
    (hidx : idx < cells.length) :
    ((cells.take idx ++ cells.drop (idx + 1)).map List.length).sum +
      (cells.getD idx []).length = (cells.map List.length).sum := by
  conv_rhs => rw [← List.take_append_drop idx cells]
  have hdrop : cells.drop idx = cells.getD idx [] :: cells.drop (idx + 1) := by
    rw [List.drop_eq_getElem_cons hidx]
    congr 1
    rw [List.getD_eq_getElem?_getD, List.getElem?_eq_getElem hidx]
    rfl
  rw [List.map_append, List.sum_append, List.map_append, List.sum_append,
    hdrop, List.map_cons, List.sum_cons]
  omega

theorem sum_update_list (cells : List (List Nat)) (nc : List Nat) (idx : Nat)
    (hidx : idx < cells.length) :
    ((cells.take idx ++ nc :: cells.drop (idx + 1)).map List.length).sum +
      (cells.getD idx []).length =
      (cells.map List.length).sum + nc.length := by
  have hdrop : cells.drop idx = cells.getD idx [] :: cells.drop (idx + 1) := by
    rw [List.drop_eq_getElem_cons hidx]
    congr 1
    rw [List.getD_eq_getElem?_getD, List.getElem?_eq_getElem hidx]
    rfl
  conv_rhs => rw [← List.take_append_drop idx cells]
  rw [List.map_append, List.sum_append, List.map_append, List.sum_append,
    hdrop, List.map_cons, List.sum_cons, List.map_cons, List.sum_cons]
  omega

theorem getD_update_list {α : Type} (cells : List α) (nc : α) (idx : Nat)
    (d : α) (hidx : idx < cells.length) (j : Nat) :
    (cells.take idx ++ nc :: cells.drop (idx + 1)).getD j d =
      if j = idx then nc else cells.getD j d := by
  have htl : (cells.take idx).length = idx := by
    simp
    omega
  rw [List.getD_eq_getElem?_getD, List.getElem?_append, htl]
  by_cases h1 : j < idx
  · rw [if_pos h1, if_neg (by omega), List.getElem?_take, if_pos h1,
      List.getD_eq_getElem?_getD]
  · rw [if_neg h1]
    by_cases h2 : j = idx
    · rw [if_pos h2, h2, Nat.sub_self]
      simp
    · rw [if_neg h2]
      have h3 : j - idx = (j - idx - 1) + 1 := by omega
      rw [h3]
      simp only [List.getElem?_cons_succ]
      rw [List.getElem?_drop, List.getD_eq_getElem?_getD,
        show idx + 1 + (j - idx - 1) = j from by omega]

theorem update_list_length {α : Type} (cells : List α) (nc : α) (idx : Nat)
    (hidx : idx < cells.length) :
    (cells.take idx ++ nc :: cells.drop (idx + 1)).length = cells.length := by
  simp
  omega


/-!
## Write wrappers and the slot-shift loops
-/

theorem length_write_u16 (p : List Nat) (off v : Nat)
    (h : off + 2 ≤ p.length) : (write_u16 p off v).length = p.length := by
  rw [write_u16]
  exact length_writeBytesAt _ _ _ (by rw [u16ToLeBytes_length]; exact h)

theorem isBytes_write_u16 {p : List Nat} (hp : isBytes p) (off v : Nat) :
    isBytes (write_u16 p off v) :=
  isBytes_writeBytesAt hp (isBytes_u16ToLeBytes v) off

theorem getD_write_u16_outside (p : List Nat) (off v i : Nat)
    (h : off + 2 ≤ p.length) (hout : i < off ∨ off + 2 ≤ i) :
    (write_u16 p off v).getD i 0 = p.getD i 0 := by
  rw [write_u16, getD_writeBytesAt _ _ _ _ (by rw [u16ToLeBytes_length]; exact h)]
  rw [u16ToLeBytes_length]
  rcases hout with h1 | h1
  · rw [if_pos h1]
  · rw [if_neg (by omega), if_neg (by omega)]

theorem read_u16_write_u16_outside (p : List Nat) (off off2 v : Nat)
    (h : off + 2 ≤ p.length) (hout : off2 + 2 ≤ off ∨ off + 2 ≤ off2) :
    read_u16 (write_u16 p off v) off2 = read_u16 p off2 := by
  rw [read_u16, read_u16,
    getD_write_u16_outside p off v off2 h (by omega),
    getD_write_u16_outside p off v (off2 + 1) h (by omega)]

theorem drop_take_write_u16_outside (p : List Nat) (off v a n : Nat)
    (h : off + 2 ≤ p.length) (ha : a + n ≤ p.length)
    (hout : a + n ≤ off ∨ off + 2 ≤ a) :
    ((write_u16 p off v).drop a).take n = (p.drop a).take n := by
  rw [write_u16]
  exact drop_take_writeBytesAt_outside p _ off a n
    (by rw [u16ToLeBytes_length]; exact h) ha
    (by rw [u16ToLeBytes_length]; exact hout)

theorem read_u16_congr (x y : List Nat) (off : Nat)
    (h0 : x.getD off 0 = y.getD off 0)
    (h1 : x.getD (off + 1) 0 = y.getD (off + 1) 0) :
    read_u16 x off = read_u16 y off := by
  rw [read_u16, read_u16, h0, h1]

theorem slot_position_ok' (spec : PageSpec) (i count : Nat) (hi : i ≤ count)
    (h : spec.header_size + (count + 1) * SLOT_WIDTH ≤ PAGE_SIZE) :
    slot_position spec i = .ok (spec.header_size + i * SLOT_WIDTH) := by
  have e1 : (count + 1) * SLOT_WIDTH = (count + 1) * 2 := rfl
  have e2 : i * SLOT_WIDTH = i * 2 := rfl
  have e3 : SLOT_WIDTH = 2 := rfl
  rw [slot_position, if_neg (by omega)]

/-- Effect of the upward slot shift: slots `(a, a+n]` take the previous
slot's offset, bytes below slot `a+1` and at or above slot `a+n+1` are
untouched. -/
theorem shiftSlotsUp_spec (spec : PageSpec) (a : Nat) (n : Nat) :
    ∀ (page : List Nat) (count : Nat), page.length = PAGE_SIZE →
    isBytes page → cell_count page = count → a + n ≤ count →
    CONTENT_START_OFFSET + 2 ≤ spec.header_size →
    spec.header_size + (count + 1) * SLOT_WIDTH ≤ PAGE_SIZE →
    ∃ p2, shiftSlotsUp spec a n page = .ok p2 ∧
      p2.length = PAGE_SIZE ∧ isBytes p2 ∧ cell_count p2 = count ∧
      (∀ k, k < spec.header_size + (a + 1) * SLOT_WIDTH →
        p2.getD k 0 = page.getD k 0) ∧
      (∀ k, spec.header_size + (a + n + 1) * SLOT_WIDTH ≤ k →
        p2.getD k 0 = page.getD k 0) ∧
      (∀ j, a < j → j ≤ a + n → slotOff p2 spec j = slotOff page spec (j - 1)) := by
  induction n with
  | zero =>
    intro page count h1 h2 h3 h4 h5 h6
    exact ⟨page, rfl, h1, h2, h3, fun _ _ => rfl, fun _ _ => rfl,
      fun j hj1 hj2 => absurd hj2 (by omega)⟩
  | succ n ih =>
    intro page count h1 h2 h3 h4 h5 h6
    have e1 : (count + 1) * SLOT_WIDTH = (count + 1) * 2 := rfl
    have e2 : (a + n) * SLOT_WIDTH = (a + n) * 2 := rfl
    have e3 : (a + n + 1) * SLOT_WIDTH = (a + n + 1) * 2 := rfl
    have e4 : (a + (n + 1) + 1) * SLOT_WIDTH = (a + (n + 1) + 1) * 2 := rfl
    have e5 : (a + 1) * SLOT_WIDTH = (a + 1) * 2 := rfl
    have e6 : SLOT_WIDTH = 2 := rfl
    have hco : CONTENT_START_OFFSET = 4 := rfl
    have hps : PAGE_SIZE = 4096 := rfl
    rw [shiftSlotsUp]
    rw [slot_offset, if_neg (by omega),
      slot_position_ok' spec (a + n) count (by omega) h6]
    simp only []
    rw [write_slot_offset_raw,
      slot_position_ok' spec (a + n + 1) count (by omega) h6]
    simp only []
    have hvlt : read_u16 page (spec.header_size + (a + n) * SLOT_WIDTH) <
        65536 := read_u16_lt h2 _
    have hplen : spec.header_size + (a + n + 1) * SLOT_WIDTH + 2 ≤
        page.length := by omega
    obtain ⟨p2, hrun, hl2, hb2, hc2, hlow, hhigh, hslots⟩ :=
      ih (write_u16 page (spec.header_size + (a + n + 1) * SLOT_WIDTH)
          (read_u16 page (spec.header_size + (a + n) * SLOT_WIDTH))) count
        (by rw [length_write_u16 _ _ _ hplen]; exact h1)
        (isBytes_write_u16 h2 _ _)
        (by
          simp only [cell_count] at h3 ⊢
          rw [← h3]
          exact read_u16_write_u16_outside _ _ _ _ hplen
            (by rw [show CELL_COUNT_OFFSET = 2 from rfl]; omega))
        (by omega) h5 h6
    refine ⟨p2, hrun, hl2, hb2, hc2, ?_, ?_, ?_⟩
    · intro k hk
      rw [hlow k hk]
      exact getD_write_u16_outside _ _ _ _ hplen (by omega)
    · intro k hk
      rw [hhigh k (by omega)]
      exact getD_write_u16_outside _ _ _ _ hplen (by omega)
    · intro j hj1 hj2
      have ej : (j - 1) * SLOT_WIDTH = (j - 1) * 2 := rfl
      have ejj : j * SLOT_WIDTH = j * 2 := rfl
      by_cases hje : j = a + n + 1
      · subst hje
        have heq1 : slotOff p2 spec (a + n + 1) =
            slotOff (write_u16 page
              (spec.header_size + (a + n + 1) * SLOT_WIDTH)
              (read_u16 page (spec.header_size + (a + n) * SLOT_WIDTH)))
              spec (a + n + 1) := by
          rw [slotOff, slotOff]
          apply read_u16_congr
          · exact hhigh _ (by omega)
          · exact hhigh _ (by omega)
        rw [heq1, slotOff]
        rw [read_u16_write_u16_self _ _ _ hplen hvlt]
        rw [show a + n + 1 - 1 = a + n from by omega, slotOff]
      · have hj3 : j ≤ a + n := by omega
        rw [hslots j hj1 hj3]
        rw [slotOff, slotOff]
        apply read_u16_congr
        · exact getD_write_u16_outside _ _ _ _ hplen (by omega)
        · exact getD_write_u16_outside _ _ _ _ hplen (by omega)


/-- Effect of the downward slot shift: slots `[a, a+n)` take the next
slot's offset, bytes below slot `a` and at or above slot `a+n` are
untouched. -/
theorem shiftSlotsDown_spec (spec : PageSpec) (n : Nat) :
    ∀ (a : Nat) (page : List Nat) (count : Nat), page.length = PAGE_SIZE →
    isBytes page → cell_count page = count → a + n < count →
    CONTENT_START_OFFSET + 2 ≤ spec.header_size →
    spec.header_size + count * SLOT_WIDTH ≤ PAGE_SIZE →
    ∃ p2, shiftSlotsDown spec n a page = .ok p2 ∧
      p2.length = PAGE_SIZE ∧ isBytes p2 ∧ cell_count p2 = count ∧
      (∀ k, k < spec.header_size + a * SLOT_WIDTH →
        p2.getD k 0 = page.getD k 0) ∧
      (∀ k, spec.header_size + (a + n) * SLOT_WIDTH ≤ k →
        p2.getD k 0 = page.getD k 0) ∧
      (∀ j, a ≤ j → j < a + n → slotOff p2 spec j = slotOff page spec (j + 1)) := by
  induction n with
  | zero =>
    intro a page count h1 h2 h3 h4 h5 h6
    exact ⟨page, rfl, h1, h2, h3, fun _ _ => rfl, fun _ _ => rfl,
      fun j hj1 hj2 => absurd hj2 (by omega)⟩
  | succ n ih =>
    intro a page count h1 h2 h3 h4 h5 h6
    have e1 : (count + 1) * SLOT_WIDTH = (count + 1) * 2 := rfl
    have e2 : a * SLOT_WIDTH = a * 2 := rfl
    have e3 : (a + 1) * SLOT_WIDTH = (a + 1) * 2 := rfl
    have e4 : (a + (n + 1)) * SLOT_WIDTH = (a + (n + 1)) * 2 := rfl
    have e5 : (a + 1 + n) * SLOT_WIDTH = (a + 1 + n) * 2 := rfl
    have e6 : SLOT_WIDTH = 2 := rfl
    have hco : CONTENT_START_OFFSET = 4 := rfl
    have hps : PAGE_SIZE = 4096 := rfl
    have e7 : (count - 1 + 1) * SLOT_WIDTH = (count - 1 + 1) * 2 := rfl
    have e8 : count * SLOT_WIDTH = count * 2 := rfl
    rw [shiftSlotsDown]
    rw [slot_offset, if_neg (by omega),
      slot_position_ok' spec (a + 1) (count - 1) (by omega) (by omega)]
    simp only []
    rw [write_slot_offset_raw,
      slot_position_ok' spec a (count - 1) (by omega) (by omega)]
    simp only []
    have hvlt : read_u16 page (spec.header_size + (a + 1) * SLOT_WIDTH) <
        65536 := read_u16_lt h2 _
    have hplen : spec.header_size + a * SLOT_WIDTH + 2 ≤ page.length := by
      omega
    obtain ⟨p2, hrun, hl2, hb2, hc2, hlow, hhigh, hslots⟩ :=
      ih (a + 1) (write_u16 page (spec.header_size + a * SLOT_WIDTH)
          (read_u16 page (spec.header_size + (a + 1) * SLOT_WIDTH))) count
        (by rw [length_write_u16 _ _ _ hplen]; exact h1)
        (isBytes_write_u16 h2 _ _)
        (by
          simp only [cell_count] at h3 ⊢
          rw [← h3]
          exact read_u16_write_u16_outside _ _ _ _ hplen
            (by rw [show CELL_COUNT_OFFSET = 2 from rfl]; omega))
        (by omega) h5 h6
    refine ⟨p2, hrun, hl2, hb2, hc2, ?_, ?_, ?_⟩
    · intro k hk
      rw [hlow k (by omega)]
      exact getD_write_u16_outside _ _ _ _ hplen (by omega)
    · intro k hk
      rw [hhigh k (by omega)]
      exact getD_write_u16_outside _ _ _ _ hplen (by omega)
    · intro j hj1 hj2
      have ej : j * SLOT_WIDTH = j * 2 := rfl
      have ejj : (j + 1) * SLOT_WIDTH = (j + 1) * 2 := rfl
      by_cases hje : j = a
      · subst hje
        have heq1 : slotOff p2 spec j =
            slotOff (write_u16 page (spec.header_size + j * SLOT_WIDTH)
              (read_u16 page (spec.header_size + (j + 1) * SLOT_WIDTH)))
              spec j := by
          rw [slotOff, slotOff]
          apply read_u16_congr
          · exact hlow _ (by omega)
          · exact hlow _ (by omega)
        rw [heq1, slotOff]
        rw [read_u16_write_u16_self _ _ _ (by omega) hvlt]
        rw [slotOff]
      · have hj3 : a + 1 ≤ j := by omega
        rw [hslots j hj3 (by omega)]
        rw [slotOff, slotOff]
        apply read_u16_congr
        · exact getD_write_u16_outside _ _ _ _ hplen (by omega)
        · exact getD_write_u16_outside _ _ _ _ hplen (by omega)


/-- Properties of the page after a checked append writes `cell` at
`content_start - cell.length` and lowers the content start. -/
theorem append_write_props {spec page cells} (hW : PageWF spec page cells)
    (cell : List Nat) (hc1 : 0 < cell.length) (hcb : isBytes cell)
    (hfit : spec.header_size + cells.length * SLOT_WIDTH + cell.length ≤
      content_start page) :
    ∀ p2, p2 = write_u16
        (writeBytesAt page (content_start page - cell.length) cell)
        CONTENT_START_OFFSET (content_start page - cell.length) →
      PageWF spec p2 cells ∧
      content_start p2 = content_start page - cell.length ∧
      (∀ j, spec.header_size + j * SLOT_WIDTH + SLOT_WIDTH ≤
          content_start page - cell.length →
        slotOff p2 spec j = slotOff page spec j) ∧
      (p2.drop (content_start page - cell.length)).take cell.length = cell ∧
      (∀ a n, content_start page ≤ a → a + n ≤ PAGE_SIZE →
        (p2.drop a).take n = (page.drop a).take n) := by
  intro p2 hp2
  have e1 : cells.length * SLOT_WIDTH = cells.length * 2 := rfl
  have hco : CONTENT_START_OFFSET = 4 := rfl
  have hpto : PAGE_TYPE_OFFSET = 0 := rfl
  have hps : PAGE_SIZE = 4096 := rfl
  have hmin := hW.hmin
  have hcsle := hW.cs_le
  have hlen := hW.len
  have hcs65 : content_start page < 65536 := by
    rw [content_start]
    exact read_u16_lt hW.bytes _
  have hq_in : (content_start page - cell.length) + cell.length ≤
      page.length := by omega
  have hqlen : (writeBytesAt page (content_start page - cell.length)
      cell).length = page.length := length_writeBytesAt _ _ _ hq_in
  have hqb : isBytes (writeBytesAt page (content_start page - cell.length)
      cell) := isBytes_writeBytesAt hW.bytes hcb _
  have hp2len : p2.length = page.length := by
    rw [hp2, length_write_u16 _ _ _ (by omega), hqlen]
  have hp2b : isBytes p2 := by
    rw [hp2]
    exact isBytes_write_u16 hqb _ _
  have hgetD : ∀ i, (i < CONTENT_START_OFFSET ∨ CONTENT_START_OFFSET + 2 ≤ i) →
      (i < content_start page - cell.length ∨ content_start page ≤ i) →
      p2.getD i 0 = page.getD i 0 := by
    intro i hi1 hi2
    rw [hp2, getD_write_u16_outside _ _ _ _ (by omega) (by omega)]
    rw [getD_writeBytesAt _ _ _ _ hq_in]
    rcases hi2 with h | h
    · rw [if_pos h]
    · rw [if_neg (by omega), if_neg (by omega)]
  have hpt : page_type p2 = page_type page := by
    rw [page_type, page_type, hpto]
    exact hgetD 0 (by omega) (by omega)
  have hcount : cell_count p2 = cell_count page := by
    have h2 : CELL_COUNT_OFFSET = 2 := rfl
    rw [cell_count, cell_count, read_u16, read_u16, h2]
    rw [hgetD 2 (by omega) (by omega), hgetD (2 + 1) (by omega) (by omega)]
  have hcs2 : content_start p2 = content_start page - cell.length := by
    rw [hp2, content_start, hco, write_u16]
    rw [show writeBytesAt (writeBytesAt page
      (content_start page - cell.length) cell) 4
      (u16ToLeBytes (content_start page - cell.length)) =
      write_u16 (writeBytesAt page (content_start page - cell.length) cell) 4
      (content_start page - cell.length) from rfl]
    exact read_u16_write_u16_self _ _ _ (by omega) (by omega)
  have hslot : ∀ j, spec.header_size + j * SLOT_WIDTH + SLOT_WIDTH ≤
      content_start page - cell.length →
      slotOff p2 spec j = slotOff page spec j := by
    intro j hj
    have ej : j * SLOT_WIDTH = j * 2 := rfl
    have esw : SLOT_WIDTH = 2 := rfl
    rw [slotOff, slotOff, hp2]
    rw [read_u16_write_u16_outside _ _ _ _ (by omega) (by omega)]
    exact read_u16_writeBytesAt_outside _ _ _ _ hq_in (by omega)
  have hregion : ∀ a n, content_start page ≤ a → a + n ≤ PAGE_SIZE →
      (p2.drop a).take n = (page.drop a).take n := by
    intro a n ha hn
    rw [hp2]
    rw [drop_take_write_u16_outside _ _ _ _ _ (by omega)
      (by rw [hqlen]; omega) (by omega)]
    exact drop_take_writeBytesAt_outside _ _ _ _ _ hq_in (by omega) (by omega)
  have hnew : (p2.drop (content_start page - cell.length)).take cell.length =
      cell := by
    rw [hp2]
    rw [drop_take_write_u16_outside _ _ _ _ _ (by omega)
      (by rw [hqlen]; omega) (by omega)]
    exact drop_take_writeBytesAt_self _ _ _ hq_in
  refine ⟨⟨by rw [hp2len]; exact hlen, hp2b, hpt.trans hW.ptype, hW.hmin,
    hcount.trans hW.count, ?_, ?_, ?_, ?_, ?_⟩, hcs2, hslot, hnew, hregion⟩
  · rw [hcs2]
    have := hW.dir_le
    omega
  · rw [hcs2]
    omega
  · intro i hi
    obtain ⟨hl, hcsi, hfiti, hdeci⟩ := hW.cellsOk i hi
    have ei : i * SLOT_WIDTH = i * 2 := rfl
    have esw : SLOT_WIDTH = 2 := rfl
    have hsl : slotOff p2 spec i = slotOff page spec i :=
      hslot i (by omega)
    refine ⟨hl, ?_, ?_, ?_⟩
    · rw [hsl, hcs2]
      omega
    · rw [hsl]
      exact hfiti
    · rw [hsl]
      rw [hregion _ _ (by omega) (by omega)]
      exact hdeci
  · intro i j hij hj
    have ei : i * SLOT_WIDTH = i * 2 := rfl
    have ej : j * SLOT_WIDTH = j * 2 := rfl
    have esw : SLOT_WIDTH = 2 := rfl
    rw [hslot i (by omega), hslot j (by omega)]
    exact hW.disj i j hij hj
  · rw [hcs2]
    have := hW.space
    omega


/-- Outcomes of `try_append_cell_for_insert` on a well-formed page. -/
theorem try_append_cell_for_insert_spec {spec page cells}
    (hW : PageWF spec page cells) (cell : List Nat) (hc1 : 0 < cell.length)
    (hc2 : cell.length ≤ 0xFFFF) (hcb : isBytes cell) :
    (PAGE_SIZE < spec.header_size + (cells.length + 1) * SLOT_WIDTH ∧
      try_append_cell_for_insert page spec cell =
        .error (.CorruptPage "slot directory exceeds page size")) ∨
    (spec.header_size + (cells.length + 1) * SLOT_WIDTH ≤ PAGE_SIZE ∧
      content_start page -
        (spec.header_size + (cells.length + 1) * SLOT_WIDTH) < cell.length ∧
      try_append_cell_for_insert page spec cell =
        .ok (.space cell.length (content_start page -
          (spec.header_size + (cells.length + 1) * SLOT_WIDTH)))) ∨
    (spec.header_size + (cells.length + 1) * SLOT_WIDTH + cell.length ≤
        content_start page ∧
      ∃ p2, try_append_cell_for_insert page spec cell =
          .ok (.appended (content_start page - cell.length) p2) ∧
        PageWF spec p2 cells ∧
        content_start p2 = content_start page - cell.length ∧
        (∀ j, spec.header_size + j * SLOT_WIDTH + SLOT_WIDTH ≤
            content_start page - cell.length →
          slotOff p2 spec j = slotOff page spec j) ∧
        (p2.drop (content_start page - cell.length)).take cell.length = cell ∧
        (∀ a n, content_start page ≤ a → a + n ≤ PAGE_SIZE →
          (p2.drop a).take n = (page.drop a).take n)) := by
  have e1 : (cells.length + 1) * SLOT_WIDTH = (cells.length + 1) * 2 := rfl
  have e2 : cells.length * SLOT_WIDTH = cells.length * 2 := rfl
  have hps : PAGE_SIZE = 4096 := rfl
  have hcs65 : content_start page < 65536 := by
    rw [content_start]
    exact read_u16_lt hW.bytes _
  rw [try_append_cell_for_insert, validate_ok hW]
  simp only []
  rw [if_neg (by omega), slot_dir_end_for_count, hW.count]
  by_cases hsde : PAGE_SIZE <
      spec.header_size + (cells.length + 1) * SLOT_WIDTH
  · rw [if_pos hsde]
    left
    exact ⟨hsde, rfl⟩
  · rw [if_neg hsde]
    simp only []
    by_cases hfit2 : content_start page -
        (spec.header_size + (cells.length + 1) * SLOT_WIDTH) < cell.length
    · rw [if_pos hfit2]
      right
      left
      exact ⟨by omega, hfit2, rfl⟩
    · rw [if_neg hfit2]
      rw [set_content_start, if_neg (by omega)]
      simp only []
      right
      right
      obtain ⟨hwf2, hcs2, hslot2, hnew2, hreg2⟩ :=
        append_write_props hW cell hc1 hcb (by omega) _ rfl
      exact ⟨by omega, _, rfl, hwf2, hcs2, hslot2, hnew2, hreg2⟩

/-- Outcomes of `try_append_cell` on a well-formed page (the slot
directory is unchanged, so its bound check cannot fail). -/
theorem try_append_cell_spec {spec page cells}
    (hW : PageWF spec page cells) (cell : List Nat) (hc1 : 0 < cell.length)
    (hc2 : cell.length ≤ 0xFFFF) (hcb : isBytes cell) :
    (content_start page -
        (spec.header_size + cells.length * SLOT_WIDTH) < cell.length ∧
      try_append_cell page spec cell =
        .ok (.space cell.length (content_start page -
          (spec.header_size + cells.length * SLOT_WIDTH)))) ∨
    (spec.header_size + cells.length * SLOT_WIDTH + cell.length ≤
        content_start page ∧
      ∃ p2, try_append_cell page spec cell =
          .ok (.appended (content_start page - cell.length) p2) ∧
        PageWF spec p2 cells ∧
        content_start p2 = content_start page - cell.length ∧
        (∀ j, spec.header_size + j * SLOT_WIDTH + SLOT_WIDTH ≤
            content_start page - cell.length →
          slotOff p2 spec j = slotOff page spec j) ∧
        (p2.drop (content_start page - cell.length)).take cell.length = cell ∧
        (∀ a n, content_start page ≤ a → a + n ≤ PAGE_SIZE →
          (p2.drop a).take n = (page.drop a).take n)) := by
  have e2 : cells.length * SLOT_WIDTH = cells.length * 2 := rfl
  have hps : PAGE_SIZE = 4096 := rfl
  have hdir := hW.dir_le
  have hcsle := hW.cs_le
  have hcs65 : content_start page < 65536 := by
    rw [content_start]
    exact read_u16_lt hW.bytes _
  rw [try_append_cell, validate_ok hW]
  simp only []
  rw [if_neg (by omega), slot_dir_end_for_count, hW.count]
  rw [if_neg (by omega)]
  simp only []
  by_cases hfit2 : content_start page -
      (spec.header_size + cells.length * SLOT_WIDTH) < cell.length
  · rw [if_pos hfit2]
    left
    exact ⟨hfit2, rfl⟩
  · rw [if_neg hfit2]
    rw [set_content_start, if_neg (by omega)]
    simp only []
    right
    obtain ⟨hwf2, hcs2, hslot2, hnew2, hreg2⟩ :=
      append_write_props hW cell hc1 hcb (by omega) _ rfl
    exact ⟨by omega, _, rfl, hwf2, hcs2, hslot2, hnew2, hreg2⟩


/-- `insert_slot` on a well-formed page with a freshly appended cell
`nc` readable at `off`: installs the slot at `idx`, shifting later
slots up, and yields well-formedness over the extended cell list. -/
theorem insert_slot_spec {spec page cells} (hW : PageWF spec page cells)
    (idx off : Nat) (nc : List Nat) (hidx : idx ≤ cells.length)
    (hsde : spec.header_size + (cells.length + 1) * SLOT_WIDTH ≤
      content_start page)
    (hoff_cs : content_start page ≤ off)
    (hoff_fit : off + nc.length ≤ PAGE_SIZE)
    (hnc_len : 0 < nc.length)
    (hnc_read : (page.drop off).take nc.length = nc)
    (hdisj : ∀ i, i < cells.length →
      off + nc.length ≤ slotOff page spec i ∨
      slotOff page spec i + (cells.getD i []).length ≤ off)
    (hsum : (cells.map List.length).sum + nc.length + content_start page ≤
      PAGE_SIZE)
    (hoffb : off < 65536) :
    ∃ p3, insert_slot page spec idx off = .ok p3 ∧
      PageWF spec p3 (cells.take idx ++ nc :: cells.drop idx) ∧
      content_start p3 = content_start page := by
  have e1 : (cells.length + 1) * SLOT_WIDTH = (cells.length + 1) * 2 := rfl
  have e2 : cells.length * SLOT_WIDTH = cells.length * 2 := rfl
  have eidx : idx * SLOT_WIDTH = idx * 2 := rfl
  have eidx1 : (idx + 1) * SLOT_WIDTH = (idx + 1) * 2 := rfl
  have esw : SLOT_WIDTH = 2 := rfl
  have hco : CONTENT_START_OFFSET = 4 := rfl
  have hc2 : CELL_COUNT_OFFSET = 2 := rfl
  have hpto : PAGE_TYPE_OFFSET = 0 := rfl
  have hps : PAGE_SIZE = 4096 := rfl
  have hmin := hW.hmin
  have hcsle := hW.cs_le
  have hcs65 : content_start page < 65536 := by
    rw [content_start]
    exact read_u16_lt hW.bytes _
  rw [insert_slot, validate_ok hW]
  simp only [hW.count]
  rw [if_neg (by omega), slot_dir_end_for_count]
  rw [if_neg (by omega)]
  simp only []
  rw [if_neg (by omega)]
  obtain ⟨p2, hrun, hl2, hb2, hcnt2, hlow, hhigh, hslots⟩ :=
    shiftSlotsUp_spec spec idx (cells.length - idx) page cells.length
      hW.len hW.bytes hW.count (by omega) hW.hmin (by omega)
  have hidxn : idx + (cells.length - idx) = cells.length := by omega
  rw [hrun]
  simp only []
  rw [write_slot_offset_raw, slot_position_ok' spec idx cells.length hidx
    (by omega)]
  simp only []
  refine ⟨_, rfl, ?_⟩
  have hq2 : ∀ k, (k < spec.header_size + idx * SLOT_WIDTH ∨
      spec.header_size + idx * SLOT_WIDTH + 2 ≤ k) →
      (write_u16 p2 (spec.header_size + idx * SLOT_WIDTH) off).getD k 0 =
        p2.getD k 0 := by
    intro k hk
    exact getD_write_u16_outside _ _ _ _ (by omega) hk
  have hq2len : (write_u16 p2 (spec.header_size + idx * SLOT_WIDTH)
      off).length = PAGE_SIZE := by
    rw [length_write_u16 _ _ _ (by omega)]
    exact hl2
  have hp3 : set_cell_count
      (write_u16 p2 (spec.header_size + idx * SLOT_WIDTH) off)
      (cells.length + 1) =
      write_u16 (write_u16 p2 (spec.header_size + idx * SLOT_WIDTH) off)
        CELL_COUNT_OFFSET (cells.length + 1) := rfl
  rw [hp3]
  have hp3len : (write_u16 (write_u16 p2
      (spec.header_size + idx * SLOT_WIDTH) off) CELL_COUNT_OFFSET
      (cells.length + 1)).length = PAGE_SIZE := by
    rw [length_write_u16 _ _ _ (by omega)]
    exact hq2len
  have hp3b : isBytes (write_u16 (write_u16 p2
      (spec.header_size + idx * SLOT_WIDTH) off) CELL_COUNT_OFFSET
      (cells.length + 1)) :=
    isBytes_write_u16 (isBytes_write_u16 hb2 _ _) _ _
  have hp3getD : ∀ k, (k < CELL_COUNT_OFFSET ∨ CELL_COUNT_OFFSET + 2 ≤ k) →
      (k < spec.header_size + idx * SLOT_WIDTH ∨
        spec.header_size + idx * SLOT_WIDTH + 2 ≤ k) →
      (write_u16 (write_u16 p2 (spec.header_size + idx * SLOT_WIDTH) off)
        CELL_COUNT_OFFSET (cells.length + 1)).getD k 0 = p2.getD k 0 := by
    intro k hk1 hk2
    rw [getD_write_u16_outside _ _ _ _ (by omega) (by omega)]
    exact hq2 k hk2
  have hp3cs : content_start (write_u16 (write_u16 p2
      (spec.header_size + idx * SLOT_WIDTH) off) CELL_COUNT_OFFSET
      (cells.length + 1)) = content_start page := by
    rw [content_start, content_start, read_u16, read_u16, hco]
    rw [hp3getD 4 (by omega) (by omega), hp3getD (4 + 1) (by omega) (by omega)]
    rw [hlow 4 (by omega), hlow (4 + 1) (by omega)]
  have hp3cnt : cell_count (write_u16 (write_u16 p2
      (spec.header_size + idx * SLOT_WIDTH) off) CELL_COUNT_OFFSET
      (cells.length + 1)) = cells.length + 1 := by
    rw [cell_count, hc2]
    rw [show (2 : Nat) = CELL_COUNT_OFFSET from rfl]
    exact read_u16_write_u16_self _ _ _ (by omega) (by omega)
  have hp3pt : page_type (write_u16 (write_u16 p2
      (spec.header_size + idx * SLOT_WIDTH) off) CELL_COUNT_OFFSET
      (cells.length + 1)) = spec.page_type := by
    rw [page_type, hpto]
    rw [hp3getD 0 (by omega) (by omega), hlow 0 (by omega)]
    rw [show page.getD 0 0 = page_type page from rfl]
    exact hW.ptype
  have hp3slot : ∀ j, j ≤ cells.length →
      slotOff (write_u16 (write_u16 p2
        (spec.header_size + idx * SLOT_WIDTH) off) CELL_COUNT_OFFSET
        (cells.length + 1)) spec j =
      (if j < idx then slotOff page spec j
       else if j = idx then off else slotOff page spec (j - 1)) := by
    intro j hj
    have ej : j * SLOT_WIDTH = j * 2 := rfl
    have ej1 : (j + 1) * SLOT_WIDTH = (j + 1) * 2 := rfl
    by_cases h1 : j < idx
    · rw [if_pos h1]
      rw [slotOff, read_u16, hp3getD _ (by omega) (by omega),
        hp3getD _ (by omega) (by omega)]
      rw [hlow _ (by omega), hlow _ (by omega)]
      rw [slotOff, read_u16]
    · rw [if_neg h1]
      by_cases h2 : j = idx
      · rw [if_pos h2, h2]
        rw [slotOff, read_u16]
        rw [getD_write_u16_outside
          (write_u16 p2 (spec.header_size + idx * SLOT_WIDTH) off)
          CELL_COUNT_OFFSET (cells.length + 1)
          (spec.header_size + idx * SLOT_WIDTH)
          (by rw [hq2len]; omega) (by omega)]
        rw [getD_write_u16_outside
          (write_u16 p2 (spec.header_size + idx * SLOT_WIDTH) off)
          CELL_COUNT_OFFSET (cells.length + 1)
          (spec.header_size + idx * SLOT_WIDTH + 1)
          (by rw [hq2len]; omega) (by omega)]
        have hrs := read_u16_write_u16_self p2
          (spec.header_size + idx * SLOT_WIDTH) off (by rw [hl2]; omega) hoffb
        rw [read_u16] at hrs
        exact hrs
      · rw [if_neg h2]
        rw [slotOff, read_u16, hp3getD _ (by omega) (by omega),
          hp3getD _ (by omega) (by omega)]
        have h5 := hslots j (by omega) (by omega)
        rw [slotOff, read_u16] at h5
        exact h5
  have hp3region : ∀ a n, content_start page ≤ a → a + n ≤ PAGE_SIZE →
      ((write_u16 (write_u16 p2 (spec.header_size + idx * SLOT_WIDTH) off)
        CELL_COUNT_OFFSET (cells.length + 1)).drop a).take n =
      (page.drop a).take n := by
    intro a n ha hn
    apply drop_take_congr _ _ _ _ (by rw [hp3len]; omega)
      (by rw [hW.len]; omega)
    intro k hk
    have e7 : (idx + (cells.length - idx) + 1) * SLOT_WIDTH =
        (idx + (cells.length - idx) + 1) * 2 := rfl
    rw [hp3getD _ (by omega) (by omega)]
    exact hhigh _ (by omega)
  refine ⟨?_, hp3cs⟩
  have hcl' : (cells.take idx ++ nc :: cells.drop idx).length =
      cells.length + 1 := insert_list_length cells nc idx hidx
  refine ⟨by rw [hp3len], hp3b, hp3pt, hW.hmin, by rw [hp3cnt, hcl'],
    ?_, ?_, ?_, ?_, ?_⟩
  · rw [hcl', hp3cs]
    have e3 : (cells.length + 1) * SLOT_WIDTH =
        (cells.take idx ++ nc :: cells.drop idx).length * SLOT_WIDTH := by
      rw [hcl']
    omega
  · rw [hp3cs]
    omega
  · intro i hi
    rw [hcl'] at hi
    rw [getD_insert_list cells nc idx [] hidx i]
    rw [hp3slot i (by omega), hp3cs]
    by_cases h1 : i < idx
    · rw [if_pos h1, if_pos h1]
      obtain ⟨hl, hcsi, hfiti, hdeci⟩ := hW.cellsOk i (by omega)
      exact ⟨hl, hcsi, hfiti, by rw [hp3region _ _ hcsi hfiti]; exact hdeci⟩
    · rw [if_neg h1, if_neg h1]
      by_cases h2 : i = idx
      · rw [if_pos h2, if_pos h2]
        exact ⟨hnc_len, hoff_cs, hoff_fit,
          by rw [hp3region _ _ hoff_cs hoff_fit]; exact hnc_read⟩
      · rw [if_neg h2, if_neg h2]
        obtain ⟨hl, hcsi, hfiti, hdeci⟩ := hW.cellsOk (i - 1) (by omega)
        exact ⟨hl, hcsi, hfiti, by rw [hp3region _ _ hcsi hfiti]; exact hdeci⟩
  · intro i j hij hj
    rw [hcl'] at hj
    rw [getD_insert_list cells nc idx [] hidx i,
      getD_insert_list cells nc idx [] hidx j,
      hp3slot i (by omega), hp3slot j (by omega)]
    by_cases hi1 : i < idx
    · simp only [if_pos hi1]
      by_cases hj1 : j < idx
      · simp only [if_pos hj1]
        exact hW.disj i j hij (by omega)
      · simp only [if_neg hj1]
        by_cases hj2 : j = idx
        · simp only [if_pos hj2]
          rcases hdisj i (by omega) with h | h
          · right
            exact h
          · left
            exact h
        · simp only [if_neg hj2]
          exact hW.disj i (j - 1) (by omega) (by omega)
    · simp only [if_neg hi1]
      by_cases hi2 : i = idx
      · simp only [if_pos hi2]
        have hj1 : ¬ j < idx := by omega
        have hj2 : j ≠ idx := by omega
        simp only [if_neg hj1, if_neg hj2]
        rcases hdisj (j - 1) (by omega) with h | h
        · left
          exact h
        · right
          exact h
      · simp only [if_neg hi2]
        have hj1 : ¬ j < idx := by omega
        have hj2 : j ≠ idx := by omega
        simp only [if_neg hj1, if_neg hj2]
        exact hW.disj (i - 1) (j - 1) (by omega) (by omega)
  · rw [hp3cs]
    have hsum2 := sum_insert_list (cells.map (fun c => c)) nc idx
      (by simpa using hidx)
    have hsum3 : ((cells.take idx ++ nc :: cells.drop idx).map
        List.length).sum = (cells.map List.length).sum + nc.length := by
      rw [List.map_append, List.sum_append, List.map_cons, List.sum_cons]
      conv_rhs => rw [← List.take_append_drop idx cells]
      rw [List.map_append, List.sum_append]
      omega
    rw [hsum3]
    omega


/-- `remove_slot` on a well-formed page: shifts later slots down, drops
the removed cell from the abstraction, and keeps well-formedness. -/
theorem remove_slot_spec {spec page cells} (hW : PageWF spec page cells)
    (idx : Nat) (hidx : idx < cells.length) :
    ∃ p3, remove_slot page spec idx = .ok p3 ∧
      PageWF spec p3 (cells.take idx ++ cells.drop (idx + 1)) ∧
      content_start p3 = content_start page := by
  have e1 : (cells.length + 1) * SLOT_WIDTH = (cells.length + 1) * 2 := rfl
  have e2 : cells.length * SLOT_WIDTH = cells.length * 2 := rfl
  have eidx : idx * SLOT_WIDTH = idx * 2 := rfl
  have ecm1 : (cells.length - 1) * SLOT_WIDTH = (cells.length - 1) * 2 := rfl
  have ecm1' : (cells.length - 1 + 1) * SLOT_WIDTH = (cells.length - 1 + 1) * 2 := rfl
  have esw : SLOT_WIDTH = 2 := rfl
  have hco : CONTENT_START_OFFSET = 4 := rfl
  have hc2 : CELL_COUNT_OFFSET = 2 := rfl
  have hpto : PAGE_TYPE_OFFSET = 0 := rfl
  have hps : PAGE_SIZE = 4096 := rfl
  have hmin := hW.hmin
  have hcsle := hW.cs_le
  have hdir := hW.dir_le
  have hcs65 : content_start page < 65536 := by
    rw [content_start]
    exact read_u16_lt hW.bytes _
  rw [remove_slot, validate_ok hW]
  simp only [hW.count]
  rw [if_neg (by omega)]
  obtain ⟨p2, hrun, hl2, hb2, hcnt2, hlow, hhigh, hslots⟩ :=
    shiftSlotsDown_spec spec (cells.length - 1 - idx) idx page cells.length
      hW.len hW.bytes hW.count (by omega) hW.hmin (by omega)
  have hidxn : idx + (cells.length - 1 - idx) = cells.length - 1 := by omega
  rw [hrun]
  simp only []
  rw [write_slot_offset_raw,
    slot_position_ok' spec (cells.length - 1) (cells.length - 1)
      (by omega) (by omega)]
  simp only []
  refine ⟨_, rfl, ?_⟩
  have hq2len : (write_u16 p2
      (spec.header_size + (cells.length - 1) * SLOT_WIDTH) 0).length =
      PAGE_SIZE := by
    rw [length_write_u16 _ _ _ (by omega)]
    exact hl2
  have hp3 : set_cell_count (write_u16 p2
      (spec.header_size + (cells.length - 1) * SLOT_WIDTH) 0)
      (cells.length - 1) =
      write_u16 (write_u16 p2
        (spec.header_size + (cells.length - 1) * SLOT_WIDTH) 0)
        CELL_COUNT_OFFSET (cells.length - 1) := rfl
  rw [hp3]
  have hp3len : (write_u16 (write_u16 p2
      (spec.header_size + (cells.length - 1) * SLOT_WIDTH) 0)
      CELL_COUNT_OFFSET (cells.length - 1)).length = PAGE_SIZE := by
    rw [length_write_u16 _ _ _ (by omega)]
    exact hq2len
  have hp3b : isBytes (write_u16 (write_u16 p2
      (spec.header_size + (cells.length - 1) * SLOT_WIDTH) 0)
      CELL_COUNT_OFFSET (cells.length - 1)) :=
    isBytes_write_u16 (isBytes_write_u16 hb2 _ _) _ _
  have hp3getD : ∀ k, (k < CELL_COUNT_OFFSET ∨ CELL_COUNT_OFFSET + 2 ≤ k) →
      (k < spec.header_size + (cells.length - 1) * SLOT_WIDTH ∨
        spec.header_size + (cells.length - 1) * SLOT_WIDTH + 2 ≤ k) →
      (write_u16 (write_u16 p2
        (spec.header_size + (cells.length - 1) * SLOT_WIDTH) 0)
        CELL_COUNT_OFFSET (cells.length - 1)).getD k 0 = p2.getD k 0 := by
    intro k hk1 hk2
    rw [getD_write_u16_outside _ _ _ _ (by rw [hq2len]; omega) (by omega)]
    exact getD_write_u16_outside _ _ _ _ (by rw [hl2]; omega) (by omega)
  have hp3cs : content_start (write_u16 (write_u16 p2
      (spec.header_size + (cells.length - 1) * SLOT_WIDTH) 0)
      CELL_COUNT_OFFSET (cells.length - 1)) = content_start page := by
    rw [content_start, content_start, read_u16, read_u16, hco]
    rw [hp3getD 4 (by omega) (by omega), hp3getD (4 + 1) (by omega) (by omega)]
    rw [hlow 4 (by omega), hlow (4 + 1) (by omega)]
  have hp3cnt : cell_count (write_u16 (write_u16 p2
      (spec.header_size + (cells.length - 1) * SLOT_WIDTH) 0)
      CELL_COUNT_OFFSET (cells.length - 1)) = cells.length - 1 := by
    rw [cell_count, hc2]
    rw [show (2 : Nat) = CELL_COUNT_OFFSET from rfl]
    exact read_u16_write_u16_self _ _ _ (by rw [hq2len]; omega) (by omega)
  have hp3pt : page_type (write_u16 (write_u16 p2
      (spec.header_size + (cells.length - 1) * SLOT_WIDTH) 0)
      CELL_COUNT_OFFSET (cells.length - 1)) = spec.page_type := by
    rw [page_type, hpto]
    rw [hp3getD 0 (by omega) (by omega), hlow 0 (by omega)]
    rw [show page.getD 0 0 = page_type page from rfl]
    exact hW.ptype
  have hp3slot : ∀ j, j < cells.length - 1 →
      slotOff (write_u16 (write_u16 p2
        (spec.header_size + (cells.length - 1) * SLOT_WIDTH) 0)
        CELL_COUNT_OFFSET (cells.length - 1)) spec j =
      (if j < idx then slotOff page spec j else slotOff page spec (j + 1)) := by
    intro j hj
    have ej : j * SLOT_WIDTH = j * 2 := rfl
    have ej1 : (j + 1) * SLOT_WIDTH = (j + 1) * 2 := rfl
    have hj5 : slotOff (write_u16 (write_u16 p2
        (spec.header_size + (cells.length - 1) * SLOT_WIDTH) 0)
        CELL_COUNT_OFFSET (cells.length - 1)) spec j = slotOff p2 spec j := by
      rw [slotOff, read_u16, hp3getD _ (by omega) (by omega),
        hp3getD _ (by omega) (by omega), slotOff, read_u16]
    rw [hj5]
    by_cases h1 : j < idx
    · rw [if_pos h1]
      rw [slotOff, read_u16, hlow _ (by omega), hlow _ (by omega),
        slotOff, read_u16]
    · rw [if_neg h1]
      exact hslots j (by omega) (by omega)
  have hp3region : ∀ a n, content_start page ≤ a → a + n ≤ PAGE_SIZE →
      ((write_u16 (write_u16 p2
        (spec.header_size + (cells.length - 1) * SLOT_WIDTH) 0)
        CELL_COUNT_OFFSET (cells.length - 1)).drop a).take n =
      (page.drop a).take n := by
    intro a n ha hn
    apply drop_take_congr _ _ _ _ (by rw [hp3len]; omega)
      (by rw [hW.len]; omega)
    intro k hk
    have e7 : (idx + (cells.length - 1 - idx)) * SLOT_WIDTH =
        (idx + (cells.length - 1 - idx)) * 2 := rfl
    rw [hp3getD _ (by omega) (by omega)]
    exact hhigh _ (by omega)
  refine ⟨?_, hp3cs⟩
  have hcl' : (cells.take idx ++ cells.drop (idx + 1)).length =
      cells.length - 1 := remove_list_length cells idx hidx
  refine ⟨by rw [hp3len], hp3b, hp3pt, hW.hmin, by rw [hp3cnt, hcl'],
    ?_, ?_, ?_, ?_, ?_⟩
  · rw [hcl', hp3cs]
    omega
  · rw [hp3cs]
    omega
  · intro i hi
    rw [hcl'] at hi
    rw [getD_remove_list cells idx [] hidx i]
    rw [hp3slot i (by omega), hp3cs]
    by_cases h1 : i < idx
    · simp only [if_pos h1]
      obtain ⟨hl, hcsi, hfiti, hdeci⟩ := hW.cellsOk i (by omega)
      exact ⟨hl, hcsi, hfiti, by rw [hp3region _ _ hcsi hfiti]; exact hdeci⟩
    · simp only [if_neg h1]
      obtain ⟨hl, hcsi, hfiti, hdeci⟩ := hW.cellsOk (i + 1) (by omega)
      exact ⟨hl, hcsi, hfiti, by rw [hp3region _ _ hcsi hfiti]; exact hdeci⟩
  · intro i j hij hj
    rw [hcl'] at hj
    rw [getD_remove_list cells idx [] hidx i, getD_remove_list cells idx [] hidx j,
      hp3slot i (by omega), hp3slot j (by omega)]
    by_cases hi1 : i < idx
    · simp only [if_pos hi1]
      by_cases hj1 : j < idx
      · simp only [if_pos hj1]
        exact hW.disj i j hij (by omega)
      · simp only [if_neg hj1]
        exact hW.disj i (j + 1) (by omega) (by omega)
    · simp only [if_neg hi1]
      have hj1 : ¬ j < idx := by omega
      simp only [if_neg hj1]
      exact hW.disj (i + 1) (j + 1) (by omega) (by omega)
  · rw [hp3cs]
    have hsum := sum_remove_list cells idx hidx
    have := hW.space
    omega


/-- `init_empty` builds a well-formed empty page whose content start is
the page end. -/
theorem init_empty_spec (page : List Nat) (spec : PageSpec)
    (hmin : CONTENT_START_OFFSET + 2 ≤ spec.header_size)
    (hmax : spec.header_size ≤ PAGE_SIZE)
    (hpt : spec.page_type < 256) :
    ∃ p, init_empty page spec = .ok p ∧ PageWF spec p [] ∧
      content_start p = PAGE_SIZE := by
  have hco : CONTENT_START_OFFSET = 4 := rfl
  have hc2 : CELL_COUNT_OFFSET = 2 := rfl
  have hpto : PAGE_TYPE_OFFSET = 0 := rfl
  have hps : PAGE_SIZE = 4096 := rfl
  rw [init_empty, validate_spec, if_neg (by omega)]
  simp only []
  rw [set_content_start, if_neg (by omega)]
  have hrep : (List.replicate PAGE_SIZE 0).length = PAGE_SIZE :=
    List.length_replicate _ _
  have hl0 : (writeBytesAt (List.replicate PAGE_SIZE 0) PAGE_TYPE_OFFSET
      [spec.page_type]).length = PAGE_SIZE := by
    rw [length_writeBytesAt _ _ _
      (by rw [hrep]; simp only [List.length_cons, List.length_nil]; omega)]
    exact hrep
  have hl1 : (set_cell_count (writeBytesAt (List.replicate PAGE_SIZE 0)
      PAGE_TYPE_OFFSET [spec.page_type]) 0).length = PAGE_SIZE := by
    rw [set_cell_count, length_write_u16 _ _ _ (by rw [hl0]; omega)]
    exact hl0
  have hl2 : (write_u16 (set_cell_count (writeBytesAt
      (List.replicate PAGE_SIZE 0) PAGE_TYPE_OFFSET [spec.page_type]) 0)
      CONTENT_START_OFFSET PAGE_SIZE).length = PAGE_SIZE := by
    rw [length_write_u16 _ _ _ (by rw [hl1]; omega)]
    exact hl1
  have hb2 : isBytes (write_u16 (set_cell_count (writeBytesAt
      (List.replicate PAGE_SIZE 0) PAGE_TYPE_OFFSET [spec.page_type]) 0)
      CONTENT_START_OFFSET PAGE_SIZE) := by
    apply isBytes_write_u16
    apply isBytes_write_u16
    apply isBytes_writeBytesAt (isBytes_replicate _ _ (by omega))
    intro b hb
    simp at hb
    omega
  have hcs : content_start (write_u16 (set_cell_count (writeBytesAt
      (List.replicate PAGE_SIZE 0) PAGE_TYPE_OFFSET [spec.page_type]) 0)
      CONTENT_START_OFFSET PAGE_SIZE) = PAGE_SIZE := by
    rw [content_start]
    exact read_u16_write_u16_self _ _ _ (by rw [hl1]; omega) (by omega)
  have hcnt : cell_count (write_u16 (set_cell_count (writeBytesAt
      (List.replicate PAGE_SIZE 0) PAGE_TYPE_OFFSET [spec.page_type]) 0)
      CONTENT_START_OFFSET PAGE_SIZE) = 0 := by
    rw [cell_count,
      read_u16_write_u16_outside _ _ _ _ (by rw [hl1]; omega) (by omega),
      set_cell_count]
    exact read_u16_write_u16_self _ _ _ (by rw [hl0]; omega) (by omega)
  have hpt2 : page_type (write_u16 (set_cell_count (writeBytesAt
      (List.replicate PAGE_SIZE 0) PAGE_TYPE_OFFSET [spec.page_type]) 0)
      CONTENT_START_OFFSET PAGE_SIZE) = spec.page_type := by
    rw [page_type,
      getD_write_u16_outside _ _ _ _ (by rw [hl1]; omega) (by omega),
      set_cell_count,
      getD_write_u16_outside _ _ _ _ (by rw [hl0]; omega) (by omega),
      getD_writeBytesAt _ _ _ _
        (by rw [hrep]; simp only [List.length_cons, List.length_nil]; omega)]
    simp only [List.length_cons, List.length_nil]
    rw [if_neg (by omega), if_pos (by omega), Nat.sub_self]
    simp
  refine ⟨_, rfl, ⟨hl2, hb2, hpt2, hmin, by simpa using hcnt,
    by rw [hcs]; simpa using hmax, by rw [hcs],
    fun i hi => absurd hi (by simp),
    fun i j hij hj => absurd hj (by simp), by rw [hcs]; simp⟩, hcs⟩

/-- Writing a `u64` header field strictly between the `content_start`
field and the header end preserves well-formedness and all layout
header fields (used for the interior rightmost-child pointer). -/
theorem pageWF_write_header_u64 {spec page cells}
    (hW : PageWF spec page cells) (off v : Nat)
    (hoff : CONTENT_START_OFFSET + 2 ≤ off)
    (hfit : off + 8 ≤ spec.header_size) (hv : v < U64_MOD) :
    PageWF spec (write_u64_at page off v) cells ∧
    content_start (write_u64_at page off v) = content_start page ∧
    cell_count (write_u64_at page off v) = cell_count page ∧
    read_u64 (write_u64_at page off v) off = v := by
  have hco : CONTENT_START_OFFSET = 4 := rfl
  have hc2 : CELL_COUNT_OFFSET = 2 := rfl
  have hpto : PAGE_TYPE_OFFSET = 0 := rfl
  have hps : PAGE_SIZE = 4096 := rfl
  have esw : SLOT_WIDTH = 2 := rfl
  have hhs := hW.hs_le
  have hdir := hW.dir_le
  have hcsle := hW.cs_le
  have hlen8 : off + (u64ToLeBytes v).length ≤ page.length := by
    rw [u64ToLeBytes_length, hW.len]
    omega
  have hl : (write_u64_at page off v).length = PAGE_SIZE := by
    rw [write_u64_at, length_writeBytesAt _ _ _ hlen8, hW.len]
  have hcs : content_start (write_u64_at page off v) = content_start page := by
    rw [content_start, content_start, write_u64_at,
      read_u16_writeBytesAt_outside _ _ _ _ hlen8
        (by rw [u64ToLeBytes_length]; omega)]
  have hcnt : cell_count (write_u64_at page off v) = cell_count page := by
    rw [cell_count, cell_count, write_u64_at,
      read_u16_writeBytesAt_outside _ _ _ _ hlen8
        (by rw [u64ToLeBytes_length]; omega)]
  have hslot : ∀ i, slotOff (write_u64_at page off v) spec i =
      slotOff page spec i := by
    intro i
    rw [slotOff, slotOff, write_u64_at,
      read_u16_writeBytesAt_outside _ _ _ _ hlen8
        (Or.inr (by rw [u64ToLeBytes_length]; omega))]
  have hregion : ∀ a n, content_start page ≤ a → a + n ≤ PAGE_SIZE →
      ((write_u64_at page off v).drop a).take n = (page.drop a).take n := by
    intro a n ha hn
    rw [write_u64_at]
    exact drop_take_writeBytesAt_outside _ _ _ _ _ hlen8
      (by rw [hW.len]; omega)
      (Or.inr (by rw [u64ToLeBytes_length]; omega))
  have hb : isBytes (write_u64_at page off v) := by
    rw [write_u64_at]
    exact isBytes_writeBytesAt hW.bytes (isBytes_u64ToLeBytes v) off
  refine ⟨⟨hl, hb,
    ?_, hW.hmin, by rw [hcnt]; exact hW.count, by rw [hcs]; exact hW.dir_le,
    by rw [hcs]; exact hW.cs_le, ?_, ?_, by rw [hcs]; exact hW.space⟩,
    hcs, hcnt, ?_⟩
  · rw [page_type, write_u64_at,
      getD_writeBytesAt _ _ _ _ hlen8, u64ToLeBytes_length]
    rw [if_pos (by omega)]
    exact hW.ptype
  · intro i hi
    obtain ⟨h1, h2, h3, h4⟩ := hW.cellsOk i hi
    rw [hslot, hcs]
    exact ⟨h1, h2, h3, by rw [hregion _ _ h2 h3]; exact h4⟩
  · intro i j hij hj
    rw [hslot, hslot]
    exact hW.disj i j hij hj
  · rw [read_u64, write_u64_at,
      show (8 : Nat) = (u64ToLeBytes v).length from (u64ToLeBytes_length v).symm,
      drop_take_writeBytesAt_self _ _ _ hlen8]
    exact u64FromLeBytes_toLeBytes v hv


/-- Each live cell of a well-formed page is a byte string. -/
theorem pageWF_cell_bytes {spec page cells} (hW : PageWF spec page cells)
    {i : Nat} (hi : i < cells.length) : isBytes (cells.getD i []) := by
  obtain ⟨h1, h2, h3, h4⟩ := hW.cellsOk i hi
  rw [← h4]
  exact isBytes_take (isBytes_drop hW.bytes _) _

/-- Each live cell of a well-formed page fits in a `u16` length. -/
theorem pageWF_cell_le {spec page cells} (hW : PageWF spec page cells)
    {i : Nat} (hi : i < cells.length) :
    (cells.getD i []).length ≤ 0xFFFF := by
  obtain ⟨h1, h2, h3, h4⟩ := hW.cellsOk i hi
  have hps : PAGE_SIZE = 4096 := rfl
  omega

/-- The collection loop of defragmentation returns the live cells of
slots `[i, i + n)` when the length function decodes each one. -/
theorem defragCollect_spec {spec page cells} (hW : PageWF spec page cells)
    (fn : List Nat → Except TablePageError Nat) (n : Nat) :
    ∀ i, i + n ≤ cells.length →
    (∀ j, i ≤ j → j < i + n → fn (page.drop (slotOff page spec j)) =
      .ok ((cells.getD j []).length)) →
    defragCollect page spec fn n i = .ok ((cells.drop i).take n) := by
  induction n with
  | zero =>
    intro i hn hfn
    simp [defragCollect]
  | succ n ih =>
    intro i hn hfn
    rw [defragCollect, cell_bytes_on_valid_ok hW (show i < cells.length by omega)]
    simp only []
    rw [hfn i (by omega) (by omega)]
    simp only []
    rw [ih (i + 1) (by omega) (fun j h1 h2 => hfn j (by omega) (by omega))]
    simp only []
    obtain ⟨h1, h2, h3, h4⟩ := hW.cellsOk i (by omega)
    rw [h4]
    have hdropi : cells.drop i = cells.getD i [] :: cells.drop (i + 1) := by
      rw [List.drop_eq_getElem_cons (show i < cells.length by omega)]
      rw [List.getD_eq_getElem?_getD,
        List.getElem?_eq_getElem (show i < cells.length by omega)]
      rfl
    rw [hdropi, List.take_succ_cons]

/-- The re-append loop of defragmentation: starting from a page holding
`done` with enough room below the content start for the remaining
cells and slots, it installs `rest` in slot order. -/
theorem defragAppend_spec (spec : PageSpec) (rest : List (List Nat)) :
    ∀ (done : List (List Nat)) (q : List Nat), PageWF spec q done →
    (∀ c ∈ rest, 0 < c.length ∧ c.length ≤ 0xFFFF ∧ isBytes c) →
    spec.header_size + (done.length + rest.length) * SLOT_WIDTH +
      (rest.map List.length).sum ≤ content_start q →
    ∃ p3, defragAppend spec rest done.length q = .ok p3 ∧
      PageWF spec p3 (done ++ rest) ∧
      content_start p3 = content_start q - (rest.map List.length).sum := by
  induction rest with
  | nil =>
    intro done q hW hrest hinv
    refine ⟨q, rfl, by simpa using hW, by simp⟩
  | cons cell rest ih =>
    intro done q hW hrest hinv
    have esw : SLOT_WIDTH = 2 := rfl
    have hps : PAGE_SIZE = 4096 := rfl
    have e1 : (done.length + 1) * SLOT_WIDTH = (done.length + 1) * 2 := rfl
    have e2 : (done.length + (cell :: rest).length) * SLOT_WIDTH =
        (done.length + (cell :: rest).length) * 2 := rfl
    have e3 : (cell :: rest).length = rest.length + 1 := by simp
    have e4 : ((cell :: rest).map List.length).sum =
        cell.length + (rest.map List.length).sum := by
      simp only [List.map_cons, List.sum_cons]
    have e5 : done.length * SLOT_WIDTH = done.length * 2 := rfl
    have hcsle := hW.cs_le
    have hdir := hW.dir_le
    have hcell := hrest cell (by simp)
    rcases try_append_cell_for_insert_spec hW cell hcell.1 hcell.2.1
        hcell.2.2 with ⟨hbad, _⟩ | ⟨_, hbad, _⟩ | ⟨hfit3, p2, happ, hwf2,
          hcs2, hslot2, hnew2, hreg2⟩
    · exact absurd hbad (by omega)
    · exact absurd hbad (by omega)
    · rw [defragAppend, happ]
      simp only []
      have hclecs : cell.length ≤ content_start q := by omega
      obtain ⟨p3, hins, hwf3, hcs3⟩ :=
        insert_slot_spec hwf2 done.length (content_start q - cell.length)
          cell (le_refl _)
          (by rw [hcs2]; omega)
          (by rw [hcs2])
          (by omega)
          hcell.1
          hnew2
          (by
            intro i hi
            left
            have ei : i * SLOT_WIDTH = i * 2 := rfl
            rw [hslot2 i (by omega)]
            have := (hW.cellsOk i hi).2.1
            omega)
          (by
            have := hW.space
            rw [hcs2]
            omega)
          (by omega)
      rw [hins]
      have hsplit : done.take done.length ++ cell :: done.drop done.length =
          done ++ [cell] := by
        rw [List.take_length, List.drop_length]
      rw [hsplit] at hwf3
      have hlen1 : (done ++ [cell]).length = done.length + 1 := by simp
      obtain ⟨p4, hrest4, hwf4, hcs4⟩ :=
        ih (done ++ [cell]) p3 hwf3
          (fun c hc => hrest c (by simp [hc]))
          (by
            have e6 : ((done ++ [cell]).length + rest.length) * SLOT_WIDTH =
                ((done ++ [cell]).length + rest.length) * 2 := rfl
            rw [hcs3, hcs2]
            rw [e6, hlen1]
            omega)
      rw [hlen1] at hrest4
      refine ⟨p4, hrest4, by simpa using hwf4, ?_⟩
      rw [hcs4, hcs3, hcs2, e4]
      omega

/-- Full defragmentation of a well-formed page: the same cells, packed
with the content start at `PAGE_SIZE` minus their total size. -/
theorem defragment_spec {spec page cells} (hW : PageWF spec page cells)
    (fn : List Nat → Except TablePageError Nat)
    (hfn : ∀ i, i < cells.length → fn (page.drop (slotOff page spec i)) =
      .ok ((cells.getD i []).length)) :
    ∃ p3, defragment page spec fn = .ok p3 ∧ PageWF spec p3 cells ∧
      content_start p3 = PAGE_SIZE - (cells.map List.length).sum := by
  have esw : SLOT_WIDTH = 2 := rfl
  have hps : PAGE_SIZE = 4096 := rfl
  have e2 : cells.length * SLOT_WIDTH = cells.length * 2 := rfl
  have hhs := hW.hs_le
  rw [defragment, validate_ok hW]
  simp only [hW.count]
  rw [defragCollect_spec hW fn cells.length 0 (by omega)
    (fun j h1 h2 => hfn j (by omega))]

  simp only [List.drop_zero, List.take_length]
  obtain ⟨p2, hinit, hwf0, hcs0⟩ := init_empty_spec page spec hW.hmin
    (by omega)
    (by rw [← hW.ptype]; exact isBytes_getD hW.bytes _)
  rw [hinit]
  simp only []
  obtain ⟨p3, hrun, hwf3, hcs3⟩ :=
    defragAppend_spec spec cells [] p2 hwf0
      (by
        intro c hc
        obtain ⟨i, hi, hget⟩ := List.mem_iff_getElem.mp hc
        have hc' : cells.getD i [] = c := by
          rw [List.getD_eq_getElem?_getD, List.getElem?_eq_getElem hi, hget]
          rfl
        rw [← hc']
        exact ⟨(hW.cellsOk i hi).1, pageWF_cell_le hW hi,
          pageWF_cell_bytes hW hi⟩)
      (by
        have e6 : ((List.length ([] : List (List Nat))) + cells.length) *
            SLOT_WIDTH = (0 + cells.length) * 2 := rfl
        rw [hcs0, e6]
        have := hW.space
        have := hW.dir_le
        have := hW.cs_le
        omega)
  have h0 : (List.length ([] : List (List Nat))) = 0 := rfl
  rw [h0] at hrun
  rw [hrun]
  refine ⟨p3, rfl, by simpa using hwf3, by rw [hcs3, hcs0]⟩


/-!
## Sortedness and cell-overwrite helpers
-/

theorem getD_eq_getElem_gen {α : Type} (l : List α) (d : α) {i : Nat}
    (h : i < l.length) : l.getD i d = l[i] := by
  rw [List.getD_eq_getElem?_getD, List.getElem?_eq_getElem h]
  rfl

theorem pairwise_getD {α : Type} (R : α → α → Prop) (l : List α) (d : α) :
    List.Pairwise R l ↔
      ∀ i j, i < j → j < l.length → R (l.getD i d) (l.getD j d) := by
  rw [List.pairwise_iff_getElem]
  constructor
  · intro h i j hij hj
    rw [getD_eq_getElem_gen l d (by omega), getD_eq_getElem_gen l d hj]
    exact h i j (by omega) hj hij
  · intro h i j hi hj hij
    have hh := h i j hij hj
    rwa [getD_eq_getElem_gen l d hi, getD_eq_getElem_gen l d hj] at hh

/-- Inserting an element at its lower-bound position keeps a pairwise
order. -/
theorem pairwise_insert_at {α : Type} (R : α → α → Prop) (cells : List α)
    (nc : α) (idx : Nat) (d : α) (hidx : idx ≤ cells.length)
    (hp : List.Pairwise R cells)
    (hbefore : ∀ j, j < idx → R (cells.getD j d) nc)
    (hafter : ∀ j, idx ≤ j → j < cells.length → R nc (cells.getD j d)) :
    List.Pairwise R (cells.take idx ++ nc :: cells.drop idx) := by
  rw [pairwise_getD R _ d]
  intro i j hij hj
  rw [insert_list_length cells nc idx hidx] at hj
  rw [getD_insert_list cells nc idx d hidx i,
    getD_insert_list cells nc idx d hidx j]
  have hpg := (pairwise_getD R cells d).mp hp
  by_cases hi1 : i < idx
  · rw [if_pos hi1]
    by_cases hj1 : j < idx
    · rw [if_pos hj1]
      exact hpg i j hij (by omega)
    · rw [if_neg hj1]
      by_cases hj2 : j = idx
      · rw [if_pos hj2]
        exact hbefore i hi1
      · rw [if_neg hj2]
        exact hpg i (j - 1) (by omega) (by omega)
  · rw [if_neg hi1]
    have hj1 : ¬ j < idx := by omega
    rw [if_neg hj1]
    by_cases hi2 : i = idx
    · rw [if_pos hi2, if_neg (by omega)]
      exact hafter (j - 1) (by omega) (by omega)
    · rw [if_neg hi2, if_neg (by omega)]
      exact hpg (i - 1) (j - 1) (by omega) (by omega)

/-- Removing an element keeps a pairwise order. -/
theorem pairwise_remove_at {α : Type} (R : α → α → Prop) (cells : List α)
    (idx : Nat) (d : α) (hidx : idx < cells.length)
    (hp : List.Pairwise R cells) :
    List.Pairwise R (cells.take idx ++ cells.drop (idx + 1)) := by
  rw [pairwise_getD R _ d]
  intro i j hij hj
  rw [remove_list_length cells idx hidx] at hj
  rw [getD_remove_list cells idx d hidx i, getD_remove_list cells idx d hidx j]
  have hpg := (pairwise_getD R cells d).mp hp
  by_cases hi1 : i < idx
  · rw [if_pos hi1]
    by_cases hj1 : j < idx
    · rw [if_pos hj1]
      exact hpg i j hij (by omega)
    · rw [if_neg hj1]
      exact hpg i (j + 1) (by omega) (by omega)
  · rw [if_neg hi1, if_neg (by omega)]
    exact hpg (i + 1) (j + 1) (by omega) (by omega)

/-- Replacing an element by one that compares the same way with the
others keeps a pairwise order. -/
theorem pairwise_update_at {α : Type} (R : α → α → Prop) (cells : List α)
    (nc : α) (idx : Nat) (d : α) (hidx : idx < cells.length)
    (hp : List.Pairwise R cells)
    (hbefore : ∀ j, j < idx → R (cells.getD j d) nc)
    (hafter : ∀ j, idx < j → j < cells.length → R nc (cells.getD j d)) :
    List.Pairwise R (cells.take idx ++ nc :: cells.drop (idx + 1)) := by
  rw [pairwise_getD R _ d]
  intro i j hij hj
  rw [update_list_length cells nc idx hidx] at hj
  rw [getD_update_list cells nc idx d hidx i, getD_update_list cells nc idx d hidx j]
  have hpg := (pairwise_getD R cells d).mp hp
  by_cases hi1 : i = idx
  · rw [if_pos hi1, if_neg (by omega)]
    exact hafter j (by omega) hj
  · rw [if_neg hi1]
    by_cases hj1 : j = idx
    · rw [if_pos hj1]
      exact hbefore i (by omega)
    · rw [if_neg hj1]
      exact hpg i j hij hj

/-- `find?` returns the element at the first satisfying index. -/
theorem find_first_getD {α : Type} (l : List α) (p : α → Bool) (d : α) :
    ∀ k, k < l.length → p (l.getD k d) = true →
    (∀ j, j < k → p (l.getD j d) = false) →
    l.find? p = some (l.getD k d) := by
  induction l with
  | nil =>
    intro k hk
    simp at hk
  | cons a l ih =>
    intro k hk hpk hbefore
    match k with
    | 0 =>
      simp only [List.getD_cons_zero] at hpk
      rw [List.find?_cons_of_pos _ hpk]
      simp
    | k + 1 =>
      have ha : p a = false := by
        have := hbefore 0 (by omega)
        simpa using this
      rw [List.find?_cons_of_neg _ (by simp [ha])]
      simp only [List.getD_cons_succ] at hpk ⊢
      exact ih k (by simpa using hk) hpk
        (fun j hj => by
          have := hbefore (j + 1) (by omega)
          simpa using this)

theorem u64FromLeBytes_lt (b : List Nat) (hb : isBytes b) :
    u64FromLeBytes b < U64_MOD := by
  unfold u64FromLeBytes
  split
  · rename_i b0 b1 b2 b3 b4 b5 b6 b7
    have h0 := hb b0 (by simp)
    have h1 := hb b1 (by simp)
    have h2 := hb b2 (by simp)
    have h3 := hb b3 (by simp)
    have h4 := hb b4 (by simp)
    have h5 := hb b5 (by simp)
    have h6 := hb b6 (by simp)
    have h7 := hb b7 (by simp)
    have hU : U64_MOD = 2 ^ 64 := rfl
    omega
  · decide

theorem read_u64_lt {p : List Nat} (hp : isBytes p) (off : Nat) :
    read_u64 p off < U64_MOD := by
  rw [read_u64]
  exact u64FromLeBytes_lt _ (isBytes_take (isBytes_drop hp off) 8)

/-- Overwriting a live cell in place with equally many bytes keeps
well-formedness over the updated cell list. -/
theorem overwrite_cell_spec {spec page cells} (hW : PageWF spec page cells)
    {idx : Nat} (hidx : idx < cells.length) (nc : List Nat)
    (hlen : nc.length = (cells.getD idx []).length) (hnb : isBytes nc) :
    PageWF spec (writeBytesAt page (slotOff page spec idx) nc)
      (cells.take idx ++ nc :: cells.drop (idx + 1)) ∧
    content_start (writeBytesAt page (slotOff page spec idx) nc) =
      content_start page := by
  have esw : SLOT_WIDTH = 2 := rfl
  have hps : PAGE_SIZE = 4096 := rfl
  have hco : CONTENT_START_OFFSET = 4 := rfl
  have hc2 : CELL_COUNT_OFFSET = 2 := rfl
  have hpto : PAGE_TYPE_OFFSET = 0 := rfl
  have e2 : cells.length * SLOT_WIDTH = cells.length * 2 := rfl
  have hmin := hW.hmin
  have hdir := hW.dir_le
  have hcsle := hW.cs_le
  obtain ⟨hpos, hcsi, hfiti, hdeci⟩ := hW.cellsOk idx hidx
  have hlen8 : slotOff page spec idx + nc.length ≤ page.length := by
    rw [hW.len, hlen]
    omega
  have hl : (writeBytesAt page (slotOff page spec idx) nc).length =
      PAGE_SIZE := by
    rw [length_writeBytesAt _ _ _ hlen8]
    exact hW.len
  have hcs : content_start (writeBytesAt page (slotOff page spec idx) nc) =
      content_start page := by
    simp only [content_start]
    exact read_u16_writeBytesAt_outside _ _ _ _ hlen8 (by omega)
  have hcnt : cell_count (writeBytesAt page (slotOff page spec idx) nc) =
      cell_count page := by
    simp only [cell_count]
    exact read_u16_writeBytesAt_outside _ _ _ _ hlen8 (by omega)
  have hslot : ∀ j, j < cells.length →
      slotOff (writeBytesAt page (slotOff page spec idx) nc) spec j =
      slotOff page spec j := by
    intro j hj
    have ej : j * SLOT_WIDTH = j * 2 := rfl
    exact read_u16_writeBytesAt_outside page nc (slotOff page spec idx)
      (spec.header_size + j * SLOT_WIDTH) hlen8 (Or.inl (by omega))
  refine ⟨⟨hl, isBytes_writeBytesAt hW.bytes hnb _, ?_, hW.hmin, ?_, ?_,
    by rw [hcs]; exact hW.cs_le, ?_, ?_, ?_⟩, hcs⟩
  · simp only [page_type]
    rw [getD_writeBytesAt _ _ _ _ hlen8, if_pos (by omega)]
    exact hW.ptype
  · rw [hcnt, hW.count, update_list_length cells nc idx hidx]
  · rw [hcs, update_list_length cells nc idx hidx]
    exact hW.dir_le
  · intro j hj
    rw [update_list_length cells nc idx hidx] at hj
    rw [getD_update_list cells nc idx [] hidx j, hslot j hj, hcs]
    by_cases hji : j = idx
    · rw [if_pos hji, hji]
      refine ⟨by omega, hcsi, by omega, ?_⟩
      exact drop_take_writeBytesAt_self _ _ _ hlen8
    · rw [if_neg hji]
      obtain ⟨h1, h2, h3, h4⟩ := hW.cellsOk j hj
      have hd : slotOff page spec j + (cells.getD j []).length ≤
          slotOff page spec idx ∨
          slotOff page spec idx + (cells.getD idx []).length ≤
          slotOff page spec j := by
        by_cases hlt : j < idx
        · exact hW.disj j idx hlt hidx
        · exact Or.symm (hW.disj idx j (by omega) hj)
      refine ⟨h1, h2, h3, ?_⟩
      rw [drop_take_writeBytesAt_outside _ _ _ _ _ hlen8
        (by rw [hW.len]; omega)
        (by rcases hd with h | h
            · left
              exact h
            · right
              omega)]
      exact h4
  · intro i j hij hj
    rw [update_list_length cells nc idx hidx] at hj
    rw [getD_update_list cells nc idx [] hidx i,
      getD_update_list cells nc idx [] hidx j,
      hslot i (by omega), hslot j (by omega)]
    by_cases hi1 : i = idx
    · rw [if_pos hi1, if_neg (by omega), hi1]
      rcases hW.disj idx j (by omega) hj with h | h
      · left
        omega
      · right
        exact h
    · rw [if_neg hi1]
      by_cases hj1 : j = idx
      · rw [if_pos hj1, hj1]
        rcases hW.disj i idx (by omega) hidx with h | h
        · left
          exact h
        · right
          omega
      · rw [if_neg hj1]
        exact hW.disj i j hij hj
  · rw [hcs]
    have hsum := sum_update_list cells nc idx hidx
    have := hW.space
    omega

/-- `set_slot_offset` pointing a live slot at a freshly written cell
`nc` (disjoint from all other live cells) keeps well-formedness over
the updated cell list. -/
theorem set_slot_offset_spec {spec page cells} (hW : PageWF spec page cells)
    (idx off : Nat) (nc : List Nat) (hidx : idx < cells.length)
    (hoff_cs : content_start page ≤ off)
    (hoff_fit : off + nc.length ≤ PAGE_SIZE)
    (hnc_len : 0 < nc.length)
    (hnc_read : (page.drop off).take nc.length = nc)
    (hdisj : ∀ i, i < cells.length → i ≠ idx →
      off + nc.length ≤ slotOff page spec i ∨
      slotOff page spec i + (cells.getD i []).length ≤ off)
    (hsum : ((cells.take idx ++ nc :: cells.drop (idx + 1)).map
      List.length).sum + content_start page ≤ PAGE_SIZE)
    (hoffb : off < 65536) :
    ∃ p3, set_slot_offset page spec idx off = .ok p3 ∧
      PageWF spec p3 (cells.take idx ++ nc :: cells.drop (idx + 1)) ∧
      content_start p3 = content_start page := by
  have esw : SLOT_WIDTH = 2 := rfl
  have hps : PAGE_SIZE = 4096 := rfl
  have hco : CONTENT_START_OFFSET = 4 := rfl
  have hc2 : CELL_COUNT_OFFSET = 2 := rfl
  have hpto : PAGE_TYPE_OFFSET = 0 := rfl
  have e2 : cells.length * SLOT_WIDTH = cells.length * 2 := rfl
  have e3 : (cells.length + 1) * SLOT_WIDTH = (cells.length + 1) * 2 := rfl
  have eidx : idx * SLOT_WIDTH = idx * 2 := rfl
  have hmin := hW.hmin
  have hdir := hW.dir_le
  have hcsle := hW.cs_le
  rw [set_slot_offset, validate_ok hW]
  simp only [hW.count]
  have ecm : (cells.length - 1 + 1) * SLOT_WIDTH =
      (cells.length - 1 + 1) * 2 := rfl
  rw [if_neg (by omega), write_slot_offset_raw,
    slot_position_ok' spec idx (cells.length - 1) (by omega) (by omega)]
  simp only []
  refine ⟨_, rfl, ?_, ?_⟩
  swap
  · rw [content_start, content_start]
    exact read_u16_write_u16_outside _ _ _ _
      (by rw [hW.len]; omega) (by omega)
  have hwlen : spec.header_size + idx * SLOT_WIDTH + 2 ≤ page.length := by
    rw [hW.len]
    omega
  have hl : (write_u16 page (spec.header_size + idx * SLOT_WIDTH) off).length =
      PAGE_SIZE := by
    rw [length_write_u16 _ _ _ hwlen]
    exact hW.len
  have hcs : content_start (write_u16 page
      (spec.header_size + idx * SLOT_WIDTH) off) = content_start page := by
    rw [content_start, content_start]
    exact read_u16_write_u16_outside _ _ _ _ hwlen (by omega)
  have hcnt : cell_count (write_u16 page
      (spec.header_size + idx * SLOT_WIDTH) off) = cell_count page := by
    rw [cell_count, cell_count]
    exact read_u16_write_u16_outside _ _ _ _ hwlen (by omega)
  have hslot : ∀ j, j < cells.length → j ≠ idx →
      slotOff (write_u16 page (spec.header_size + idx * SLOT_WIDTH) off)
        spec j = slotOff page spec j := by
    intro j hj hji
    have ej : j * SLOT_WIDTH = j * 2 := rfl
    exact read_u16_write_u16_outside _ _
      (spec.header_size + j * SLOT_WIDTH) _ hwlen (by omega)
  have hslotidx : slotOff (write_u16 page
      (spec.header_size + idx * SLOT_WIDTH) off) spec idx = off :=
    read_u16_write_u16_self _ _ _ hwlen (by omega)
  have hregion : ∀ a n, content_start page ≤ a → a + n ≤ PAGE_SIZE →
      ((write_u16 page (spec.header_size + idx * SLOT_WIDTH) off).drop a).take
        n = (page.drop a).take n := by
    intro a n ha hn
    exact drop_take_write_u16_outside _ _ _ _ _ hwlen
      (by rw [hW.len]; omega) (by omega)
  refine ⟨hl, isBytes_write_u16 hW.bytes _ _, ?_, hW.hmin,
    by rw [hcnt, hW.count, update_list_length cells nc idx hidx],
    by rw [hcs, update_list_length cells nc idx hidx]; exact hW.dir_le,
    by rw [hcs]; exact hW.cs_le, ?_, ?_, by rw [hcs]; exact hsum⟩
  · simp only [page_type]
    rw [hW.ptype.symm]
    simp only [page_type]
    exact getD_write_u16_outside _ _ _ _ hwlen (by omega)
  · intro j hj
    rw [update_list_length cells nc idx hidx] at hj
    rw [getD_update_list cells nc idx [] hidx j, hcs]
    by_cases hji : j = idx
    · rw [if_pos hji, hji, hslotidx]
      refine ⟨hnc_len, hoff_cs, hoff_fit, ?_⟩
      rw [hregion _ _ hoff_cs hoff_fit]
      exact hnc_read
    · rw [if_neg hji, hslot j hj hji]
      obtain ⟨h1, h2, h3, h4⟩ := hW.cellsOk j hj
      exact ⟨h1, h2, h3, by rw [hregion _ _ h2 h3]; exact h4⟩
  · intro i j hij hj
    rw [update_list_length cells nc idx hidx] at hj
    rw [getD_update_list cells nc idx [] hidx i,
      getD_update_list cells nc idx [] hidx j]
    by_cases hi1 : i = idx
    · rw [if_pos hi1, if_neg (by omega), hi1, hslotidx,
        hslot j hj (by omega)]
      rcases hdisj j hj (by omega) with h | h
      · left
        exact h
      · right
        exact h
    · rw [if_neg hi1, hslot i (by omega) hi1]
      by_cases hj1 : j = idx
      · rw [if_pos hj1, hj1, hslotidx]
        rcases hdisj i (by omega) hi1 with h | h
        · right
          exact h
        · left
          exact h
      · rw [if_neg hj1, hslot j hj hj1]
        exact hW.disj i j hij hj


/-!
## Decoding and search on well-formed leaf and interior pages
-/

/-- Decoding the live leaf cell at a slot returns its abstract
`(row_id, payload)` pair. -/
theorem decode_leaf_ok {page : List Nat} {cells : List (Nat × List Nat)}
    (hL : LeafWF page cells) {i : Nat} (hi : i < cells.length) :
    decode_leaf_cell_at_slot page i = .ok (cells.getD i (0, [])) := by
  have hi' : i < (cells.map (fun c => leafCellBytes c.1 c.2)).length := by
    rw [List.length_map]
    exact hi
  obtain ⟨hr16, hr64, hpay, hlen, hrow⟩ := leaf_cell_reads hL hi
  rw [decode_leaf_cell_at_slot, cell_bytes_at_slot_ok hL.1 hi']
  simp only []
  rw [hlen]
  simp only []
  rw [hr64, hr16, hpay, Prod.mk.eta]

/-- Decoding the live interior cell at a slot returns its abstract
`(left_child, row_id)` pair. -/
theorem decode_interior_ok {page : List Nat} {cells : List (Nat × Nat)}
    (hI : InteriorWF page cells) {i : Nat} (hi : i < cells.length) :
    decode_interior_cell_at_slot page i = .ok (cells.getD i (0, 0)) := by
  have hi' : i < (cells.map (fun c => encode_interior_cell c.1 c.2)).length := by
    rw [List.length_map]
    exact hi
  obtain ⟨hr0, hr8, hlen, hrow⟩ := interior_cell_reads hI hi
  rw [decode_interior_cell_at_slot, cell_bytes_at_slot_ok hI.1 hi']
  simp only []
  rw [hlen]
  simp only []
  rw [hr0, hr8, Prod.mk.eta]

/-- Searching a well-formed leaf for a key it holds returns that cell. -/
theorem leaf_search_mem {page : List Nat} {cells : List (Nat × List Nat)}
    (hL : LeafWF page cells) {i : Nat} (hi : i < cells.length) :
    leaf_search page ((cells.getD i (0, [])).1) =
      .ok (some (cells.getD i (0, []))) := by
  have hkey : (leafKeys cells).getD i 0 = (cells.getD i (0, [])).1 :=
    leafKeys_getD cells hi
  have hsort := leafKeys_sorted hL
  rcases leaf_find_spec hL ((cells.getD i (0, [])).1) with
    ⟨j, hfind, hj, hkeyj⟩ | ⟨l, hfind, hl, hlo, hhi⟩
  · rw [leafKeys_length] at hj
    have hij : i = j := by
      by_contra hne
      rcases Nat.lt_or_ge i j with h | h
      · have := hsort i j h (by rw [leafKeys_length]; omega)
        omega
      · have hji : j < i := by omega
        have := hsort j i hji (by rw [leafKeys_length]; omega)
        omega
    rw [leaf_search, hfind]
    simp only []
    rw [decode_leaf_ok hL hj, ← hij]
  · exfalso
    rw [leafKeys_length] at hl
    rcases Nat.lt_or_ge i l with h | h
    · have := hlo i h
      omega
    · have := hhi i h (by rw [leafKeys_length]; omega)
      omega


/-- The defragmentation length function decodes each live leaf cell. -/
theorem leaf_defrag_fn {page : List Nat} {cells : List (Nat × List Nat)}
    (hL : LeafWF page cells) :
    ∀ i, i < (cells.map (fun c => leafCellBytes c.1 c.2)).length →
    leaf_cell_len (page.drop (slotOff page LEAF_SPEC i)) =
      .ok (((cells.map (fun c => leafCellBytes c.1 c.2)).getD i []).length) := by
  intro i hi
  rw [List.length_map] at hi
  rw [(leaf_cell_reads hL hi).2.2.2.1]
  congr 1
  rw [getD_map _ cells (0, []) [] hi, leafCellBytes_length]

/-- Defragmenting a well-formed leaf keeps its cells and packs the
content region. -/
theorem leaf_defragment_spec {page : List Nat} {cells : List (Nat × List Nat)}
    (hL : LeafWF page cells) :
    ∃ p3, defragment page LEAF_SPEC leaf_cell_len = .ok p3 ∧ LeafWF p3 cells ∧
      content_start p3 = PAGE_SIZE -
        ((cells.map (fun c => leafCellBytes c.1 c.2)).map List.length).sum := by
  obtain ⟨p3, hdef, hwf, hcs⟩ :=
    defragment_spec hL.1 leaf_cell_len (leaf_defrag_fn hL)
  exact ⟨p3, hdef, ⟨hwf, hL.2.1, hL.2.2⟩, hcs⟩

/-- When the new leaf cell fits under the content start, the checked
append and the slot insertion both succeed and preserve leaf
well-formedness over the extended cell list. -/
theorem leaf_append_insert_step {page : List Nat}
    {cells : List (Nat × List Nat)} (hL : LeafWF page cells) (rid : Nat)
    (payload : List Nat) (hrid : rid < U64_MOD)
    (hpl : payload.length ≤ 0xFFFF) (hpb : isBytes payload)
    (hsmall : (leafCellBytes rid payload).length ≤ 0xFFFF)
    (l : Nat) (hl : l ≤ cells.length)
    (hlo : ∀ j, j < l → (cells.getD j (0, [])).1 < rid)
    (hhi : ∀ j, l ≤ j → j < cells.length → rid < (cells.getD j (0, [])).1)
    (hfit : LEAF_SPEC.header_size + (cells.length + 1) * SLOT_WIDTH +
      (leafCellBytes rid payload).length ≤ content_start page) :
    ∃ off p2 p3, try_append_cell_for_insert page LEAF_SPEC
        (leafCellBytes rid payload) = .ok (.appended off p2) ∧
      insert_slot p2 LEAF_SPEC l off = .ok p3 ∧
      LeafWF p3 (cells.take l ++ (rid, payload) :: cells.drop l) := by
  have hW := hL.1
  have hm : (cells.map (fun c => leafCellBytes c.1 c.2)).length =
      cells.length := List.length_map _ _
  have hnclen : (leafCellBytes rid payload).length =
      LEAF_CELL_PREFIX_SIZE + payload.length := leafCellBytes_length rid payload
  have hpfx : LEAF_CELL_PREFIX_SIZE = 10 := rfl
  have esw : SLOT_WIDTH = 2 := rfl
  have hps : PAGE_SIZE = 4096 := rfl
  have e1 : (cells.length + 1) * SLOT_WIDTH = (cells.length + 1) * 2 := rfl
  have e2 : ((cells.map (fun c => leafCellBytes c.1 c.2)).length + 1) *
      SLOT_WIDTH =
      ((cells.map (fun c => leafCellBytes c.1 c.2)).length + 1) * 2 := rfl
  have hcsle := hW.cs_le
  rcases try_append_cell_for_insert_spec hW (leafCellBytes rid payload)
      (by omega) hsmall (isBytes_leafCellBytes rid payload hpb) with
    ⟨hbad, _⟩ | ⟨_, hbad, _⟩ | ⟨hfit3, p2, happ, hwf2, hcs2, hslot2, hnew2,
      hreg2⟩
  · exact absurd hbad (by omega)
  · exact absurd hbad (by omega)
  · obtain ⟨p3, hins, hwf3, hcs3⟩ :=
      insert_slot_spec hwf2 l
        (content_start page - (leafCellBytes rid payload).length)
        (leafCellBytes rid payload)
        (by omega)
        (by rw [hcs2]; omega)
        (by rw [hcs2])
        (by omega)
        (by omega)
        hnew2
        (by
          intro i hi
          left
          have ei : i * SLOT_WIDTH = i * 2 := rfl
          rw [hslot2 i (by omega)]
          have := (hW.cellsOk i hi).2.1
          omega)
        (by
          have := hW.space
          rw [hcs2]
          omega)
        (by omega)
    refine ⟨_, p2, p3, happ, hins, ?_, ?_, ?_⟩
    · have hmap : (cells.take l ++ (rid, payload) :: cells.drop l).map
          (fun c => leafCellBytes c.1 c.2) =
          (cells.map (fun c => leafCellBytes c.1 c.2)).take l ++
            leafCellBytes rid payload ::
            (cells.map (fun c => leafCellBytes c.1 c.2)).drop l := by
        simp [List.map_take, List.map_drop]
      rw [hmap]
      exact hwf3
    · intro c hc
      rcases List.mem_append.mp hc with h | h
      · exact hL.2.1 c (List.mem_of_mem_take h)
      · rcases List.mem_cons.mp h with h | h
        · rw [h]
          exact ⟨hrid, hpl, hpb⟩
        · exact hL.2.1 c (List.mem_of_mem_drop h)
    · exact pairwise_insert_at _ cells (rid, payload) l (0, []) hl hL.2.2
        (fun j hj => hlo j hj) (fun j h1 h2 => hhi j h1 h2)


/-- Outcomes of `TableLeafPageMut::insert` on a well-formed leaf:
duplicate-key error exactly on present keys; otherwise success with the
cell inserted at its sorted position, or a non-duplicate error only
when the page cannot hold the new cell even after defragmentation. -/
theorem leaf_insert_spec {page : List Nat} {cells : List (Nat × List Nat)}
    (hL : LeafWF page cells) (rid : Nat) (payload : List Nat)
    (hrid : rid < U64_MOD) (hpl : payload.length ≤ 0xFFFF)
    (hpb : isBytes payload) :
    (rid ∈ leafKeys cells ∧
      leaf_insert page rid payload = .error (.DuplicateRowId rid)) ∨
    (rid ∉ leafKeys cells ∧
      ((∃ p2 l, leaf_insert page rid payload = .ok p2 ∧ l ≤ cells.length ∧
          (∀ j, j < l → (cells.getD j (0, [])).1 < rid) ∧
          (∀ j, l ≤ j → j < cells.length → rid < (cells.getD j (0, [])).1) ∧
          LeafWF p2 (cells.take l ++ (rid, payload) :: cells.drop l)) ∨
        (∃ e, leaf_insert page rid payload = .error e ∧
          (∀ r, e ≠ .DuplicateRowId r) ∧
          PAGE_SIZE < LEAF_HEADER_SIZE + (cells.length + 1) * SLOT_WIDTH +
            ((cells.map (fun c => leafCellBytes c.1 c.2)).map
              List.length).sum + (LEAF_CELL_PREFIX_SIZE + payload.length)))) := by
  have hW := hL.1
  have hm : (cells.map (fun c => leafCellBytes c.1 c.2)).length =
      cells.length := List.length_map _ _
  have hnclen : (leafCellBytes rid payload).length =
      LEAF_CELL_PREFIX_SIZE + payload.length := leafCellBytes_length rid payload
  have hpfx : LEAF_CELL_PREFIX_SIZE = 10 := rfl
  have esw : SLOT_WIDTH = 2 := rfl
  have hps : PAGE_SIZE = 4096 := rfl
  have ehs : LEAF_SPEC.header_size = 8 := rfl
  have ehs2 : LEAF_HEADER_SIZE = 8 := rfl
  have e1 : (cells.length + 1) * SLOT_WIDTH = (cells.length + 1) * 2 := rfl
  have e2 : ((cells.map (fun c => leafCellBytes c.1 c.2)).length + 1) *
      SLOT_WIDTH =
      ((cells.map (fun c => leafCellBytes c.1 c.2)).length + 1) * 2 := rfl
  have hcsle := hW.cs_le
  rcases leaf_find_spec hL rid with ⟨i, hfind, hi, hkey⟩ |
    ⟨l, hfind, hl, hlo, hhi⟩
  · left
    constructor
    · rw [← hkey]
      exact getD_mem_of_lt (leafKeys cells) 0 hi
    · rw [leaf_insert, hfind]
  · right
    rw [leafKeys_length] at hl
    have hnotmem : rid ∉ leafKeys cells := by
      intro hmem
      obtain ⟨j, hj, hget⟩ := List.mem_iff_getElem.mp hmem
      rw [leafKeys_length] at hj
      have hgd : (leafKeys cells).getD j 0 = rid := by
        rw [List.getD_eq_getElem?_getD,
          List.getElem?_eq_getElem (by rw [leafKeys_length]; exact hj), hget]
        rfl
      rcases Nat.lt_or_ge j l with h | h
      · have := hlo j h
        omega
      · have := hhi j h (by rw [leafKeys_length]; exact hj)
        omega
    refine ⟨hnotmem, ?_⟩
    have hlo' : ∀ j, j < l → (cells.getD j (0, [])).1 < rid := by
      intro j hj
      have := hlo j hj
      rwa [leafKeys_getD cells (by omega)] at this
    have hhi' : ∀ j, l ≤ j → j < cells.length → rid <
        (cells.getD j (0, [])).1 := by
      intro j h1 h2
      have := hhi j h1 (by rw [leafKeys_length]; exact h2)
      rwa [leafKeys_getD cells h2] at this
    by_cases hsmall : (leafCellBytes rid payload).length ≤ 0xFFFF
    swap
    · right
      have htry : try_append_cell_for_insert page LEAF_SPEC
          (leafCellBytes rid payload) =
          .error (.CellTooLarge (leafCellBytes rid payload).length) := by
        rw [try_append_cell_for_insert, validate_ok hW]
        simp only []
        rw [if_pos (by omega)]
      have hretry : write_leaf_cell_for_insert_with_retry page rid payload =
          .error (.CellTooLarge (leafCellBytes rid payload).length) := by
        rw [write_leaf_cell_for_insert_with_retry,
          try_append_leaf_cell_for_insert, leaf_cell_encoded_len,
          if_neg (by omega)]
        simp only []
        rw [htry]
      refine ⟨_, by rw [leaf_insert, hfind]; simp only []; rw [hretry], ?_, ?_⟩
      · intro r h
        cases h
      · omega
    by_cases hfit : LEAF_SPEC.header_size + (cells.length + 1) * SLOT_WIDTH +
        (leafCellBytes rid payload).length ≤ content_start page
    · left
      obtain ⟨off, p2, p3, happ, hins, hwf3⟩ :=
        leaf_append_insert_step hL rid payload hrid hpl hpb hsmall l hl
          hlo' hhi' hfit
      refine ⟨p3, l, ?_, hl, hlo', hhi', hwf3⟩
      rw [leaf_insert, hfind]
      simp only []
      rw [write_leaf_cell_for_insert_with_retry,
        try_append_leaf_cell_for_insert, leaf_cell_encoded_len,
        if_neg (by omega)]
      simp only []
      rw [happ]
      simp only []
      exact hins
    · rcases try_append_cell_for_insert_spec hW (leafCellBytes rid payload)
          (by omega) hsmall (isBytes_leafCellBytes rid payload hpb) with
        ⟨hbad, heq⟩ | ⟨hsde, hsp, heq⟩ | ⟨hfit3, p2, happ, _, _, _, _, _⟩
      · right
        have hretry : write_leaf_cell_for_insert_with_retry page rid
            payload =
            .error (.CorruptPage "slot directory exceeds page size") := by
          rw [write_leaf_cell_for_insert_with_retry,
            try_append_leaf_cell_for_insert, leaf_cell_encoded_len,
            if_neg (by omega)]
          simp only []
          rw [heq]
        refine ⟨_, by rw [leaf_insert, hfind]; simp only []; rw [hretry],
          ?_, ?_⟩
        · intro r h
          cases h
        · omega
      · obtain ⟨pd, hdef, hwfd, hcsd⟩ := leaf_defragment_spec hL
        by_cases hfit2 : LEAF_SPEC.header_size +
            (cells.length + 1) * SLOT_WIDTH +
            (leafCellBytes rid payload).length ≤ content_start pd
        · left
          obtain ⟨off, p2, p3, happ2, hins2, hwf3⟩ :=
            leaf_append_insert_step hwfd rid payload hrid hpl hpb hsmall l
              hl hlo' hhi' hfit2
          refine ⟨p3, l, ?_, hl, hlo', hhi', hwf3⟩
          rw [leaf_insert, hfind]
          simp only []
          rw [write_leaf_cell_for_insert_with_retry,
            try_append_leaf_cell_for_insert, leaf_cell_encoded_len,
            if_neg (by omega)]
          simp only []
          rw [heq]
          simp only []
          rw [hdef]
          simp only []
          rw [try_append_leaf_cell_for_insert, leaf_cell_encoded_len,
            if_neg (by omega)]
          simp only []
          rw [happ2]
          simp only []
          exact hins2
        · right
          rcases try_append_cell_for_insert_spec hwfd.1
              (leafCellBytes rid payload) (by omega) hsmall
              (isBytes_leafCellBytes rid payload hpb) with
            ⟨hbad2, heq2⟩ | ⟨hsde2, hsp2, heq2⟩ |
            ⟨hfit4, p2, happ2, _, _, _, _, _⟩
          · refine ⟨.CorruptPage "slot directory exceeds page size",
              ?_, ?_, ?_⟩
            · rw [leaf_insert, hfind]
              simp only []
              rw [write_leaf_cell_for_insert_with_retry,
                try_append_leaf_cell_for_insert, leaf_cell_encoded_len,
                if_neg (by omega)]
              simp only []
              rw [heq]
              simp only []
              rw [hdef]
              simp only []
              rw [try_append_leaf_cell_for_insert, leaf_cell_encoded_len,
                if_neg (by omega)]
              simp only []
              rw [heq2]
            · intro r h
              cases h
            · omega
          · refine ⟨.PageFull (leafCellBytes rid payload).length
              (content_start pd - (LEAF_SPEC.header_size +
                ((cells.map (fun c => leafCellBytes c.1 c.2)).length + 1) *
                  SLOT_WIDTH)), ?_, ?_, ?_⟩
            · rw [leaf_insert, hfind]
              simp only []
              rw [write_leaf_cell_for_insert_with_retry,
                try_append_leaf_cell_for_insert, leaf_cell_encoded_len,
                if_neg (by omega)]
              simp only []
              rw [heq]
              simp only []
              rw [hdef]
              simp only []
              rw [try_append_leaf_cell_for_insert, leaf_cell_encoded_len,
                if_neg (by omega)]
              simp only []
              rw [heq2]
            · intro r h
              cases h
            · rw [hcsd] at hfit2
              have hsum_le : ((cells.map (fun c => leafCellBytes c.1
                  c.2)).map List.length).sum + content_start page ≤
                  PAGE_SIZE := hW.space
              omega
          · exact absurd hfit4 (by rw [hcsd] at hfit2; omega)
      · exact absurd hfit3 (by omega)


/-- When the replacement leaf cell fits under the content start, the
unchecked append and the slot redirect both succeed and preserve leaf
well-formedness over the updated cell list. -/
theorem leaf_append_update_step {page : List Nat}
    {cells : List (Nat × List Nat)} (hL : LeafWF page cells) (rid : Nat)
    (payload : List Nat) (hrid : rid < U64_MOD)
    (hpl : payload.length ≤ 0xFFFF) (hpb : isBytes payload)
    (hsmall : (leafCellBytes rid payload).length ≤ 0xFFFF)
    (i : Nat) (hi : i < cells.length)
    (hkeyi : (cells.getD i (0, [])).1 = rid)
    (hfit : LEAF_SPEC.header_size + cells.length * SLOT_WIDTH +
      (leafCellBytes rid payload).length ≤ content_start page) :
    ∃ off p2 p3, try_append_cell page LEAF_SPEC
        (leafCellBytes rid payload) = .ok (.appended off p2) ∧
      set_slot_offset p2 LEAF_SPEC i off = .ok p3 ∧
      LeafWF p3 (cells.take i ++ (rid, payload) :: cells.drop (i + 1)) := by
  have hW := hL.1
  have hm : (cells.map (fun c => leafCellBytes c.1 c.2)).length =
      cells.length := List.length_map _ _
  have hnclen : (leafCellBytes rid payload).length =
      LEAF_CELL_PREFIX_SIZE + payload.length := leafCellBytes_length rid payload
  have hpfx : LEAF_CELL_PREFIX_SIZE = 10 := rfl
  have esw : SLOT_WIDTH = 2 := rfl
  have hps : PAGE_SIZE = 4096 := rfl
  have e1 : cells.length * SLOT_WIDTH = cells.length * 2 := rfl
  have e2 : (cells.map (fun c => leafCellBytes c.1 c.2)).length *
      SLOT_WIDTH = (cells.map (fun c => leafCellBytes c.1 c.2)).length * 2 :=
    rfl
  have hcsle := hW.cs_le
  have hi' : i < (cells.map (fun c => leafCellBytes c.1 c.2)).length := by
    omega
  rcases try_append_cell_spec hW (leafCellBytes rid payload)
      (by omega) hsmall (isBytes_leafCellBytes rid payload hpb) with
    ⟨hbad, _⟩ | ⟨hfit3, p2, happ, hwf2, hcs2, hslot2, hnew2, hreg2⟩
  · exact absurd hbad (by omega)
  · have hupdsum := sum_update_list
      (cells.map (fun c => leafCellBytes c.1 c.2))
      (leafCellBytes rid payload) i hi'
    obtain ⟨p3, hset, hwf3, hcs3⟩ :=
      set_slot_offset_spec hwf2 i
        (content_start page - (leafCellBytes rid payload).length)
        (leafCellBytes rid payload) hi'
        (by rw [hcs2])
        (by omega)
        (by omega)
        hnew2
        (by
          intro j hj hji
          left
          have ej : j * SLOT_WIDTH = j * 2 := rfl
          rw [hslot2 j (by omega)]
          have := (hW.cellsOk j hj).2.1
          omega)
        (by
          have := hW.space
          rw [hcs2]
          omega)
        (by omega)
    refine ⟨_, p2, p3, happ, hset, ?_, ?_, ?_⟩
    · have hmap : (cells.take i ++ (rid, payload) :: cells.drop (i + 1)).map
          (fun c => leafCellBytes c.1 c.2) =
          (cells.map (fun c => leafCellBytes c.1 c.2)).take i ++
            leafCellBytes rid payload ::
            (cells.map (fun c => leafCellBytes c.1 c.2)).drop (i + 1) := by
        simp [List.map_take, List.map_drop]
      rw [hmap]
      exact hwf3
    · intro c hc
      rcases List.mem_append.mp hc with h | h
      · exact hL.2.1 c (List.mem_of_mem_take h)
      · rcases List.mem_cons.mp h with h | h
        · rw [h]
          exact ⟨hrid, hpl, hpb⟩
        · exact hL.2.1 c (List.mem_of_mem_drop h)
    · have hpg := (pairwise_getD (fun a b : Nat × List Nat => a.1 < b.1)
        cells (0, [])).mp hL.2.2
      exact pairwise_update_at _ cells (rid, payload) i (0, []) hi hL.2.2
        (fun j hj => by
          have := hpg j i hj hi
          simp only [] at this ⊢
          omega)
        (fun j h1 h2 => by
          have := hpg i j h1 h2
          simp only [] at this ⊢
          omega)

/-- Outcomes of `TableLeafPageMut::update` reaching `.ok`: the key was
present and its cell now carries the new payload. -/
theorem leaf_update_spec {page : List Nat} {cells : List (Nat × List Nat)}
    (hL : LeafWF page cells) (rid : Nat) (payload : List Nat)
    (hpb : isBytes payload) :
    ∀ p2, leaf_update page rid payload = .ok p2 →
    payload.length ≤ 0xFFFF ∧
    ∃ i, i < cells.length ∧ (cells.getD i (0, [])).1 = rid ∧
      LeafWF p2 (cells.take i ++ (rid, payload) :: cells.drop (i + 1)) := by
  intro p2 h
  have hW := hL.1
  have hm : (cells.map (fun c => leafCellBytes c.1 c.2)).length =
      cells.length := List.length_map _ _
  have e2 : (cells.map (fun c => leafCellBytes c.1 c.2)).length *
      SLOT_WIDTH = (cells.map (fun c => leafCellBytes c.1 c.2)).length * 2 :=
    rfl
  have hpfx : LEAF_CELL_PREFIX_SIZE = 10 := rfl
  have esw : SLOT_WIDTH = 2 := rfl
  have hps : PAGE_SIZE = 4096 := rfl
  have hnclen : (leafCellBytes rid payload).length =
      LEAF_CELL_PREFIX_SIZE + payload.length := leafCellBytes_length rid payload
  have e1 : cells.length * SLOT_WIDTH = cells.length * 2 := rfl
  have hcsle := hW.cs_le
  rcases leaf_find_spec hL rid with ⟨i, hfind, hi, hkey⟩ |
    ⟨l, hfind, hl, hlo, hhi⟩
  swap
  · rw [leaf_update, hfind] at h
    simp at h
  rw [leafKeys_length] at hi
  have hi' : i < (cells.map (fun c => leafCellBytes c.1 c.2)).length := by
    omega
  have hkeyi : (cells.getD i (0, [])).1 = rid := by
    rw [← leafKeys_getD cells hi]
    exact hkey
  have hrid : rid < U64_MOD := by
    rw [← hkeyi]
    exact (hL.2.1 (cells.getD i (0, [])) (getD_mem_of_lt cells (0, []) hi)).1
  rw [leaf_update, hfind] at h
  simp only [] at h
  rw [cell_bytes_at_slot_ok hW hi'] at h
  simp only [] at h
  rw [(leaf_cell_reads hL hi).2.2.2.1] at h
  simp only [] at h
  by_cases hpl : payload.length ≤ 0xFFFF
  swap
  · rw [leaf_cell_encoded_len, if_pos (by omega)] at h
    simp at h
  refine ⟨hpl, ?_⟩
  rw [leaf_cell_encoded_len, if_neg (by omega)] at h
  simp only [] at h
  have hbi : ((cells.map (fun c => leafCellBytes c.1 c.2)).getD i
      []).length = LEAF_CELL_PREFIX_SIZE +
      (cells.getD i (0, [])).2.length := by
    rw [getD_map _ cells (0, []) [] hi, leafCellBytes_length]
  by_cases hsz : LEAF_CELL_PREFIX_SIZE + (cells.getD i (0, [])).2.length =
      LEAF_CELL_PREFIX_SIZE + payload.length
  · rw [if_pos hsz] at h
    rw [slot_offset_ok hW hi'] at h
    simp only [] at h
    obtain ⟨hwfu, hcsu⟩ := overwrite_cell_spec hW hi'
      (leafCellBytes rid payload) (by omega)
      (isBytes_leafCellBytes rid payload hpb)
    have hp2 : p2 = writeBytesAt page
        (slotOff page LEAF_SPEC i) (leafCellBytes rid payload) :=
      (Except.ok.inj h).symm
    subst hp2
    refine ⟨i, hi, hkeyi, ?_, ?_, ?_⟩
    · have hmap : (cells.take i ++ (rid, payload) :: cells.drop (i + 1)).map
          (fun c => leafCellBytes c.1 c.2) =
          (cells.map (fun c => leafCellBytes c.1 c.2)).take i ++
            leafCellBytes rid payload ::
            (cells.map (fun c => leafCellBytes c.1 c.2)).drop (i + 1) := by
        simp [List.map_take, List.map_drop]
      rw [hmap]
      exact hwfu
    · intro c hc
      rcases List.mem_append.mp hc with hh | hh
      · exact hL.2.1 c (List.mem_of_mem_take hh)
      · rcases List.mem_cons.mp hh with hh | hh
        · rw [hh]
          exact ⟨hrid, hpl, hpb⟩
        · exact hL.2.1 c (List.mem_of_mem_drop hh)
    · have hpg := (pairwise_getD (fun a b : Nat × List Nat => a.1 < b.1)
        cells (0, [])).mp hL.2.2
      exact pairwise_update_at _ cells (rid, payload) i (0, []) hi hL.2.2
        (fun j hj => by
          have := hpg j i hj hi
          simp only [] at this ⊢
          omega)
        (fun j h1 h2 => by
          have := hpg i j h1 h2
          simp only [] at this ⊢
          omega)
  · rw [if_neg hsz] at h
    by_cases hsmall : (leafCellBytes rid payload).length ≤ 0xFFFF
    swap
    · rw [write_leaf_cell_for_update_with_retry, try_append_leaf_cell,
        leaf_cell_encoded_len, if_neg (by omega)] at h
      simp only [] at h
      rw [try_append_cell, validate_ok hW] at h
      simp only [] at h
      rw [if_pos (by omega)] at h
      simp at h
    by_cases hfit : LEAF_SPEC.header_size + cells.length * SLOT_WIDTH +
        (leafCellBytes rid payload).length ≤ content_start page
    · obtain ⟨off, p2', p3, happ, hset, hwf3⟩ :=
        leaf_append_update_step hL rid payload hrid hpl hpb hsmall i hi
          hkeyi hfit
      rw [write_leaf_cell_for_update_with_retry, try_append_leaf_cell,
        leaf_cell_encoded_len, if_neg (by omega)] at h
      simp only [] at h
      rw [happ] at h
      simp only [] at h
      rw [hset] at h
      exact ⟨i, hi, hkeyi, (Except.ok.inj h) ▸ hwf3⟩
    · rcases try_append_cell_spec hW (leafCellBytes rid payload)
          (by omega) hsmall (isBytes_leafCellBytes rid payload hpb) with
        ⟨hsp, heq⟩ | ⟨hfit3, _, _, _, _, _, _⟩
      swap
      · exact absurd hfit3 (by omega)
      obtain ⟨pd, hdef, hwfd, hcsd⟩ := leaf_defragment_spec hL
      by_cases hfit2 : LEAF_SPEC.header_size + cells.length * SLOT_WIDTH +
          (leafCellBytes rid payload).length ≤ content_start pd
      · obtain ⟨off, p2', p3, happ2, hset2, hwf3⟩ :=
          leaf_append_update_step hwfd rid payload hrid hpl hpb hsmall i hi
            hkeyi hfit2
        rw [write_leaf_cell_for_update_with_retry, try_append_leaf_cell,
          leaf_cell_encoded_len, if_neg (by omega)] at h
        simp only [] at h
        rw [heq] at h
        simp only [] at h
        rw [hdef] at h
        simp only [] at h
        rw [try_append_leaf_cell, leaf_cell_encoded_len,
          if_neg (by omega)] at h
        simp only [] at h
        rw [happ2] at h
        simp only [] at h
        rw [hset2] at h
        exact ⟨i, hi, hkeyi, (Except.ok.inj h) ▸ hwf3⟩
      · rcases try_append_cell_spec hwfd.1 (leafCellBytes rid payload)
            (by omega) hsmall (isBytes_leafCellBytes rid payload hpb) with
          ⟨hsp2, heq2⟩ | ⟨hfit4, _, _, _, _, _, _⟩
        swap
        · exact absurd hfit4 (by omega)
        rw [write_leaf_cell_for_update_with_retry, try_append_leaf_cell,
          leaf_cell_encoded_len, if_neg (by omega)] at h
        simp only [] at h
        rw [heq] at h
        simp only [] at h
        rw [hdef] at h
        simp only [] at h
        rw [try_append_leaf_cell, leaf_cell_encoded_len,
          if_neg (by omega)] at h
        simp only [] at h
        rw [heq2] at h
        simp at h

/-- Outcomes of `TableLeafPageMut::delete` reaching `.ok`: the key was
present and its cell is removed. -/
theorem leaf_delete_spec {page : List Nat} {cells : List (Nat × List Nat)}
    (hL : LeafWF page cells) (rid : Nat) :
    ∀ p2, leaf_delete page rid = .ok p2 →
    ∃ i, i < cells.length ∧ (cells.getD i (0, [])).1 = rid ∧
      LeafWF p2 (cells.take i ++ cells.drop (i + 1)) := by
  intro p2 h
  have hW := hL.1
  have hm : (cells.map (fun c => leafCellBytes c.1 c.2)).length =
      cells.length := List.length_map _ _
  rcases leaf_find_spec hL rid with ⟨i, hfind, hi, hkey⟩ |
    ⟨l, hfind, hl, hlo, hhi⟩
  swap
  · rw [leaf_delete, hfind] at h
    simp at h
  rw [leafKeys_length] at hi
  have hi' : i < (cells.map (fun c => leafCellBytes c.1 c.2)).length := by
    omega
  have hkeyi : (cells.getD i (0, [])).1 = rid := by
    rw [← leafKeys_getD cells hi]
    exact hkey
  rw [leaf_delete, hfind] at h
  simp only [] at h
  obtain ⟨p3, hrem, hwf3, hcs3⟩ := remove_slot_spec hW i hi'
  rw [hrem] at h
  have hp2 : p3 = p2 := Except.ok.inj h
  subst hp2
  refine ⟨i, hi, hkeyi, ?_, ?_, ?_⟩
  · have hmap : (cells.take i ++ cells.drop (i + 1)).map
        (fun c => leafCellBytes c.1 c.2) =
        (cells.map (fun c => leafCellBytes c.1 c.2)).take i ++
          (cells.map (fun c => leafCellBytes c.1 c.2)).drop (i + 1) := by
      simp [List.map_take, List.map_drop]
    rw [hmap]
    exact hwf3
  · intro c hc
    rcases List.mem_append.mp hc with hh | hh
    · exact hL.2.1 c (List.mem_of_mem_take hh)
    · exact hL.2.1 c (List.mem_of_mem_drop hh)
  · exact pairwise_remove_at _ cells i (0, []) hi hL.2.2


/-- The defragmentation length function decodes each live interior
cell. -/
theorem interior_defrag_fn {page : List Nat} {cells : List (Nat × Nat)}
    (hI : InteriorWF page cells) :
    ∀ i, i < (cells.map (fun c => encode_interior_cell c.1 c.2)).length →
    interior_cell_len (page.drop (slotOff page INTERIOR_SPEC i)) =
      .ok (((cells.map (fun c => encode_interior_cell c.1 c.2)).getD i
        []).length) := by
  intro i hi
  rw [List.length_map] at hi
  rw [(interior_cell_reads hI hi).2.2.1]
  congr 1
  rw [getD_map _ cells (0, 0) [] hi, encode_interior_cell_length]

/-- `defragment_interior_page` on a well-formed interior page keeps its
cells and packs the content region. -/
theorem defragment_interior_spec {page : List Nat} {cells : List (Nat × Nat)}
    (hI : InteriorWF page cells) :
    ∃ p3, defragment_interior_page page = .ok p3 ∧ InteriorWF p3 cells ∧
      content_start p3 = PAGE_SIZE -
        ((cells.map (fun c => encode_interior_cell c.1 c.2)).map
          List.length).sum := by
  have hW := hI.1
  have esw : SLOT_WIDTH = 2 := rfl
  have hps : PAGE_SIZE = 4096 := rfl
  have e2 : (cells.map (fun c => encode_interior_cell c.1 c.2)).length *
      SLOT_WIDTH =
      (cells.map (fun c => encode_interior_cell c.1 c.2)).length * 2 := rfl
  have hhs := hW.hs_le
  rw [defragment_interior_page, validate_ok hW]
  simp only [hW.count]
  rw [defragCollect_spec hW interior_cell_len
    (cells.map (fun c => encode_interior_cell c.1 c.2)).length 0 (by omega)
    (fun j h1 h2 => interior_defrag_fn hI j (by omega))]
  simp only [List.drop_zero, List.take_length]
  obtain ⟨p2, hinit, hwf0, hcs0⟩ := init_empty_spec page INTERIOR_SPEC
    hW.hmin (by omega) (by rw [← hW.ptype]; exact isBytes_getD hW.bytes _)
  rw [hinit]
  simp only []
  obtain ⟨hwfh, hcsh, hcnth, hreadh⟩ := pageWF_write_header_u64 hwf0
    INTERIOR_RIGHTMOST_CHILD_OFFSET
    (read_u64 page INTERIOR_RIGHTMOST_CHILD_OFFSET)
    (by decide) (by decide) (read_u64_lt hW.bytes _)
  obtain ⟨p3, hrun, hwf3, hcs3⟩ :=
    defragAppend_spec INTERIOR_SPEC
      (cells.map (fun c => encode_interior_cell c.1 c.2)) []
      (write_u64_at p2 INTERIOR_RIGHTMOST_CHILD_OFFSET
        (read_u64 page INTERIOR_RIGHTMOST_CHILD_OFFSET)) hwfh
      (by
        intro c hc
        obtain ⟨i, hi, hget⟩ := List.mem_iff_getElem.mp hc
        have hc' : (cells.map (fun c => encode_interior_cell c.1
            c.2)).getD i [] = c := by
          rw [List.getD_eq_getElem?_getD, List.getElem?_eq_getElem hi, hget]
          rfl
        rw [← hc']
        exact ⟨(hW.cellsOk i hi).1, pageWF_cell_le hW hi,
          pageWF_cell_bytes hW hi⟩)
      (by
        have e6 : ((List.length ([] : List (List Nat))) +
            (cells.map (fun c => encode_interior_cell c.1 c.2)).length) *
            SLOT_WIDTH =
            (0 + (cells.map (fun c => encode_interior_cell c.1
              c.2)).length) * 2 := rfl
        rw [hcsh, hcs0, e6]
        have := hW.space
        have := hW.dir_le
        have := hW.cs_le
        omega)
  have h0 : (List.length ([] : List (List Nat))) = 0 := rfl
  rw [h0] at hrun
  rw [hrun]
  refine ⟨p3, rfl, ⟨by simpa using hwf3, hI.2.1, hI.2.2⟩, ?_⟩
  rw [hcs3, hcsh, hcs0]

/-- When the new interior cell fits under the content start, the
checked append and the slot insertion both succeed and preserve
interior well-formedness over the extended cell list. -/
theorem interior_append_insert_step {page : List Nat}
    {cells : List (Nat × Nat)} (hI : InteriorWF page cells)
    (rid lc : Nat) (hrid : rid < U64_MOD) (hlc : lc < U64_MOD)
    (l : Nat) (hl : l ≤ cells.length)
    (hlo : ∀ j, j < l → (cells.getD j (0, 0)).2 < rid)
    (hhi : ∀ j, l ≤ j → j < cells.length → rid < (cells.getD j (0, 0)).2)
    (hfit : INTERIOR_SPEC.header_size + (cells.length + 1) * SLOT_WIDTH +
      (encode_interior_cell lc rid).length ≤ content_start page) :
    ∃ off p2 p3, try_append_cell_for_insert page INTERIOR_SPEC
        (encode_interior_cell lc rid) = .ok (.appended off p2) ∧
      insert_slot p2 INTERIOR_SPEC l off = .ok p3 ∧
      InteriorWF p3 (cells.take l ++ (lc, rid) :: cells.drop l) := by
  have hW := hI.1
  have hm : (cells.map (fun c => encode_interior_cell c.1 c.2)).length =
      cells.length := List.length_map _ _
  have hnclen : (encode_interior_cell lc rid).length = INTERIOR_CELL_SIZE :=
    encode_interior_cell_length lc rid
  have hsz16 : INTERIOR_CELL_SIZE = 16 := rfl
  have esw : SLOT_WIDTH = 2 := rfl
  have hps : PAGE_SIZE = 4096 := rfl
  have e1 : (cells.length + 1) * SLOT_WIDTH = (cells.length + 1) * 2 := rfl
  have e2 : ((cells.map (fun c => encode_interior_cell c.1 c.2)).length +
      1) * SLOT_WIDTH =
      ((cells.map (fun c => encode_interior_cell c.1 c.2)).length + 1) * 2 :=
    rfl
  have hcsle := hW.cs_le
  rcases try_append_cell_for_insert_spec hW (encode_interior_cell lc rid)
      (by omega) (by omega) (isBytes_encode_interior_cell lc rid) with
    ⟨hbad, _⟩ | ⟨_, hbad, _⟩ | ⟨hfit3, p2, happ, hwf2, hcs2, hslot2, hnew2,
      hreg2⟩
  · exact absurd hbad (by omega)
  · exact absurd hbad (by omega)
  · obtain ⟨p3, hins, hwf3, hcs3⟩ :=
      insert_slot_spec hwf2 l
        (content_start page - (encode_interior_cell lc rid).length)
        (encode_interior_cell lc rid)
        (by omega)
        (by rw [hcs2]; omega)
        (by rw [hcs2])
        (by omega)
        (by omega)
        hnew2
        (by
          intro i hi
          left
          have ei : i * SLOT_WIDTH = i * 2 := rfl
          rw [hslot2 i (by omega)]
          have := (hW.cellsOk i hi).2.1
          omega)
        (by
          have := hW.space
          rw [hcs2]
          omega)
        (by omega)
    refine ⟨_, p2, p3, happ, hins, ?_, ?_, ?_⟩
    · have hmap : (cells.take l ++ (lc, rid) :: cells.drop l).map
          (fun c => encode_interior_cell c.1 c.2) =
          (cells.map (fun c => encode_interior_cell c.1 c.2)).take l ++
            encode_interior_cell lc rid ::
            (cells.map (fun c => encode_interior_cell c.1 c.2)).drop l := by
        simp [List.map_take, List.map_drop]
      rw [hmap]
      exact hwf3
    · intro c hc
      rcases List.mem_append.mp hc with h | h
      · exact hI.2.1 c (List.mem_of_mem_take h)
      · rcases List.mem_cons.mp h with h | h
        · rw [h]
          exact ⟨hlc, hrid⟩
        · exact hI.2.1 c (List.mem_of_mem_drop h)
    · exact pairwise_insert_at _ cells (lc, rid) l (0, 0) hl hI.2.2
        (fun j hj => hlo j hj) (fun j h1 h2 => hhi j h1 h2)


/-- Outcomes of `TableInteriorPageMut::insert` on a well-formed interior
page: duplicate-key error exactly on present separator keys; otherwise
success at the sorted position, or a non-duplicate error only when the
page cannot hold the new cell even after defragmentation. -/
theorem interior_insert_spec {page : List Nat} {cells : List (Nat × Nat)}
    (hI : InteriorWF page cells) (rid lc : Nat)
    (hrid : rid < U64_MOD) (hlc : lc < U64_MOD) :
    (rid ∈ interiorKeys cells ∧
      interior_insert page rid lc = .error (.DuplicateRowId rid)) ∨
    (rid ∉ interiorKeys cells ∧
      ((∃ p2 l, interior_insert page rid lc = .ok p2 ∧ l ≤ cells.length ∧
          (∀ j, j < l → (cells.getD j (0, 0)).2 < rid) ∧
          (∀ j, l ≤ j → j < cells.length → rid < (cells.getD j (0, 0)).2) ∧
          InteriorWF p2 (cells.take l ++ (lc, rid) :: cells.drop l)) ∨
        (∃ e, interior_insert page rid lc = .error e ∧
          (∀ r, e ≠ .DuplicateRowId r) ∧
          PAGE_SIZE < INTERIOR_HEADER_SIZE +
            (cells.length + 1) * SLOT_WIDTH +
            ((cells.map (fun c => encode_interior_cell c.1 c.2)).map
              List.length).sum + INTERIOR_CELL_SIZE))) := by
  have hW := hI.1
  have hm : (cells.map (fun c => encode_interior_cell c.1 c.2)).length =
      cells.length := List.length_map _ _
  have hnclen : (encode_interior_cell lc rid).length = INTERIOR_CELL_SIZE :=
    encode_interior_cell_length lc rid
  have hsz16 : INTERIOR_CELL_SIZE = 16 := rfl
  have esw : SLOT_WIDTH = 2 := rfl
  have hps : PAGE_SIZE = 4096 := rfl
  have ehs : INTERIOR_SPEC.header_size = 16 := rfl
  have ehs2 : INTERIOR_HEADER_SIZE = 16 := rfl
  have e1 : (cells.length + 1) * SLOT_WIDTH = (cells.length + 1) * 2 := rfl
  have e2 : ((cells.map (fun c => encode_interior_cell c.1 c.2)).length +
      1) * SLOT_WIDTH =
      ((cells.map (fun c => encode_interior_cell c.1 c.2)).length + 1) * 2 :=
    rfl
  have hcsle := hW.cs_le
  rcases interior_find_spec hI rid with ⟨i, hfind, hi, hkey⟩ |
    ⟨l, hfind, hl, hlo, hhi⟩
  · left
    constructor
    · rw [← hkey]
      exact getD_mem_of_lt (interiorKeys cells) 0 hi
    · rw [interior_insert, hfind]
  · right
    rw [interiorKeys_length] at hl
    have hnotmem : rid ∉ interiorKeys cells := by
      intro hmem
      obtain ⟨j, hj, hget⟩ := List.mem_iff_getElem.mp hmem
      rw [interiorKeys_length] at hj
      have hgd : (interiorKeys cells).getD j 0 = rid := by
        rw [List.getD_eq_getElem?_getD,
          List.getElem?_eq_getElem (by rw [interiorKeys_length]; exact hj),
          hget]
        rfl
      rcases Nat.lt_or_ge j l with h | h
      · have := hlo j h
        omega
      · have := hhi j h (by rw [interiorKeys_length]; exact hj)
        omega
    refine ⟨hnotmem, ?_⟩
    have hlo' : ∀ j, j < l → (cells.getD j (0, 0)).2 < rid := by
      intro j hj
      have := hlo j hj
      rwa [interiorKeys_getD cells (by omega)] at this
    have hhi' : ∀ j, l ≤ j → j < cells.length → rid <
        (cells.getD j (0, 0)).2 := by
      intro j h1 h2
      have := hhi j h1 (by rw [interiorKeys_length]; exact h2)
      rwa [interiorKeys_getD cells h2] at this
    by_cases hfit : INTERIOR_SPEC.header_size +
        (cells.length + 1) * SLOT_WIDTH +
        (encode_interior_cell lc rid).length ≤ content_start page
    · left
      obtain ⟨off, p2, p3, happ, hins, hwf3⟩ :=
        interior_append_insert_step hI rid lc hrid hlc l hl hlo' hhi' hfit
      refine ⟨p3, l, ?_, hl, hlo', hhi', hwf3⟩
      rw [interior_insert, hfind]
      simp only []
      rw [insert_interior_cell, happ]
      simp only []
      exact hins
    · rcases try_append_cell_for_insert_spec hW
          (encode_interior_cell lc rid) (by omega) (by omega)
          (isBytes_encode_interior_cell lc rid) with
        ⟨hbad, heq⟩ | ⟨hsde, hsp, heq⟩ | ⟨hfit3, p2, happ, _, _, _, _, _⟩
      · right
        refine ⟨.CorruptPage "slot directory exceeds page size",
          ?_, ?_, ?_⟩
        · rw [interior_insert, hfind]
          simp only []
          rw [insert_interior_cell, heq]
        · intro r h
          cases h
        · omega
      · obtain ⟨pd, hdef, hwfd, hcsd⟩ := defragment_interior_spec hI
        by_cases hfit2 : INTERIOR_SPEC.header_size +
            (cells.length + 1) * SLOT_WIDTH +
            (encode_interior_cell lc rid).length ≤ content_start pd
        · left
          obtain ⟨off, p2, p3, happ2, hins2, hwf3⟩ :=
            interior_append_insert_step hwfd rid lc hrid hlc l hl hlo'
              hhi' hfit2
          refine ⟨p3, l, ?_, hl, hlo', hhi', hwf3⟩
          rw [interior_insert, hfind]
          simp only []
          rw [insert_interior_cell, heq]
          simp only []
          rw [hdef]
          simp only []
          rw [happ2]
          simp only []
          exact hins2
        · right
          rcases try_append_cell_for_insert_spec hwfd.1
              (encode_interior_cell lc rid) (by omega) (by omega)
              (isBytes_encode_interior_cell lc rid) with
            ⟨hbad2, heq2⟩ | ⟨hsde2, hsp2, heq2⟩ |
            ⟨hfit4, p2, happ2, _, _, _, _, _⟩
          · refine ⟨.CorruptPage "slot directory exceeds page size",
              ?_, ?_, ?_⟩
            · rw [interior_insert, hfind]
              simp only []
              rw [insert_interior_cell, heq]
              simp only []
              rw [hdef]
              simp only []
              rw [heq2]
            · intro r h
              cases h
            · omega
          · refine ⟨.PageFull (encode_interior_cell lc rid).length
              (content_start pd - (INTERIOR_SPEC.header_size +
                ((cells.map (fun c => encode_interior_cell c.1
                  c.2)).length + 1) * SLOT_WIDTH)), ?_, ?_, ?_⟩
            · rw [interior_insert, hfind]
              simp only []
              rw [insert_interior_cell, heq]
              simp only []
              rw [hdef]
              simp only []
              rw [heq2]
            · intro r h
              cases h
            · rw [hcsd] at hfit2
              have hsum_le := hW.space
              omega
          · exact absurd hfit4 (by rw [hcsd] at hfit2; omega)
      · exact absurd hfit3 (by omega)

/-- Outcomes of `TableInteriorPageMut::update` reaching `.ok`: the key
was present and its cell now carries the new left child. -/
theorem interior_update_spec {page : List Nat} {cells : List (Nat × Nat)}
    (hI : InteriorWF page cells) (rid lc : Nat) (hlc : lc < U64_MOD) :
    ∀ p2, interior_update page rid lc = .ok p2 →
    ∃ i, i < cells.length ∧ (cells.getD i (0, 0)).2 = rid ∧
      InteriorWF p2 (cells.take i ++ (lc, rid) :: cells.drop (i + 1)) := by
  intro p2 h
  have hW := hI.1
  have hm : (cells.map (fun c => encode_interior_cell c.1 c.2)).length =
      cells.length := List.length_map _ _
  have hsz16 : INTERIOR_CELL_SIZE = 16 := rfl
  rcases interior_find_spec hI rid with ⟨i, hfind, hi, hkey⟩ |
    ⟨l, hfind, hl, hlo, hhi⟩
  swap
  · rw [interior_update, hfind] at h
    simp at h
  rw [interiorKeys_length] at hi
  have hi' : i < (cells.map (fun c => encode_interior_cell c.1 c.2)).length := by
    omega
  have hkeyi : (cells.getD i (0, 0)).2 = rid := by
    rw [← interiorKeys_getD cells hi]
    exact hkey
  have hrid : rid < U64_MOD := by
    rw [← hkeyi]
    exact (hI.2.1 (cells.getD i (0, 0)) (getD_mem_of_lt cells (0, 0) hi)).2
  rw [interior_update, hfind] at h
  simp only [] at h
  rw [cell_bytes_at_slot_ok hW hi'] at h
  simp only [] at h
  rw [(interior_cell_reads hI hi).2.2.1] at h
  simp only [] at h
  rw [slot_offset_ok hW hi'] at h
  simp only [] at h
  obtain ⟨hwfu, hcsu⟩ := overwrite_cell_spec hW hi'
    (encode_interior_cell lc rid)
    (by rw [encode_interior_cell_length, getD_map _ cells (0, 0) [] hi,
      encode_interior_cell_length])
    (isBytes_encode_interior_cell lc rid)
  have hp2 : p2 = writeBytesAt page
      (slotOff page INTERIOR_SPEC i) (encode_interior_cell lc rid) :=
    (Except.ok.inj h).symm
  subst hp2
  refine ⟨i, hi, hkeyi, ?_, ?_, ?_⟩
  · have hmap : (cells.take i ++ (lc, rid) :: cells.drop (i + 1)).map
        (fun c => encode_interior_cell c.1 c.2) =
        (cells.map (fun c => encode_interior_cell c.1 c.2)).take i ++
          encode_interior_cell lc rid ::
          (cells.map (fun c => encode_interior_cell c.1 c.2)).drop (i + 1) := by
      simp [List.map_take, List.map_drop]
    rw [hmap]
    exact hwfu
  · intro c hc
    rcases List.mem_append.mp hc with hh | hh
    · exact hI.2.1 c (List.mem_of_mem_take hh)
    · rcases List.mem_cons.mp hh with hh | hh
      · rw [hh]
        exact ⟨hlc, hrid⟩
      · exact hI.2.1 c (List.mem_of_mem_drop hh)
  · have hpg := (pairwise_getD (fun a b : Nat × Nat => a.2 < b.2)
      cells (0, 0)).mp hI.2.2
    exact pairwise_update_at _ cells (lc, rid) i (0, 0) hi hI.2.2
      (fun j hj => by
        have := hpg j i hj hi
        simp only [] at this ⊢
        omega)
      (fun j h1 h2 => by
        have := hpg i j h1 h2
        simp only [] at this ⊢
        omega)

/-- Outcomes of `TableInteriorPageMut::delete` reaching `.ok`: the key
was present and its cell is removed. -/
theorem interior_delete_spec {page : List Nat} {cells : List (Nat × Nat)}
    (hI : InteriorWF page cells) (rid : Nat) :
    ∀ p2, interior_delete page rid = .ok p2 →
    ∃ i, i < cells.length ∧ (cells.getD i (0, 0)).2 = rid ∧
      InteriorWF p2 (cells.take i ++ cells.drop (i + 1)) := by
  intro p2 h
  have hW := hI.1
  have hm : (cells.map (fun c => encode_interior_cell c.1 c.2)).length =
      cells.length := List.length_map _ _
  rcases interior_find_spec hI rid with ⟨i, hfind, hi, hkey⟩ |
    ⟨l, hfind, hl, hlo, hhi⟩
  swap
  · rw [interior_delete, hfind] at h
    simp at h
  rw [interiorKeys_length] at hi
  have hi' : i < (cells.map (fun c => encode_interior_cell c.1 c.2)).length := by
    omega
  have hkeyi : (cells.getD i (0, 0)).2 = rid := by
    rw [← interiorKeys_getD cells hi]
    exact hkey
  rw [interior_delete, hfind] at h
  simp only [] at h
  obtain ⟨p3, hrem, hwf3, hcs3⟩ := remove_slot_spec hW i hi'
  rw [hrem] at h
  have hp2 : p3 = p2 := Except.ok.inj h
  subst hp2
  refine ⟨i, hi, hkeyi, ?_, ?_, ?_⟩
  · have hmap : (cells.take i ++ cells.drop (i + 1)).map
        (fun c => encode_interior_cell c.1 c.2) =
        (cells.map (fun c => encode_interior_cell c.1 c.2)).take i ++
          (cells.map (fun c => encode_interior_cell c.1 c.2)).drop (i + 1) := by
      simp [List.map_take, List.map_drop]
    rw [hmap]
    exact hwf3
  · intro c hc
    rcases List.mem_append.mp hc with hh | hh
    · exact hI.2.1 c (List.mem_of_mem_take hh)
    · exact hI.2.1 c (List.mem_of_mem_drop hh)
  · exact pairwise_remove_at _ cells i (0, 0) hi hI.2.2


/-- An oversized payload can never be inserted. -/
theorem leaf_insert_big_payload {page : List Nat}
    {cells : List (Nat × List Nat)} (hL : LeafWF page cells) (rid : Nat)
    (payload : List Nat) (hbig : 0xFFFF < payload.length) (p2 : List Nat) :
    leaf_insert page rid payload ≠ .ok p2 := by
  intro hok
  rcases leaf_find_spec hL rid with ⟨i, hfind, _, _⟩ | ⟨l, hfind, _, _, _⟩
  · rw [leaf_insert, hfind] at hok
    simp at hok
  · rw [leaf_insert, hfind] at hok
    simp only [] at hok
    rw [write_leaf_cell_for_insert_with_retry,
      try_append_leaf_cell_for_insert, leaf_cell_encoded_len,
      if_pos (by omega)] at hok
    simp at hok

/-- Every reachable leaf state is well formed over some cell list. -/
theorem leafReach_wf : ∀ p, LeafReach p → ∃ cells, LeafWF p cells := by
  intro p h
  induction h with
  | init page p hinit =>
    obtain ⟨p', hinit', hwf, hcs⟩ := init_empty_spec page LEAF_SPEC
      (by decide) (by decide) (by decide)
    rw [leaf_init_empty, hinit'] at hinit
    have hp : p' = p := Except.ok.inj hinit
    subst hp
    exact ⟨[], hwf, fun c hc => absurd hc (by simp), List.Pairwise.nil⟩
  | insert q rid payload p2 hreach hrid hpb hok ih =>
    obtain ⟨cells, hL⟩ := ih
    by_cases hpl : payload.length ≤ 0xFFFF
    · rcases leaf_insert_spec hL rid payload hrid hpl hpb with
        ⟨_, herr⟩ | ⟨_, ⟨p2', l, hins, _, _, _, hwf⟩ | ⟨e, herr, _, _⟩⟩
      · rw [herr] at hok
        simp at hok
      · rw [hins] at hok
        have hp : p2' = p2 := Except.ok.inj hok
        subst hp
        exact ⟨_, hwf⟩
      · rw [herr] at hok
        simp at hok
    · exact absurd hok (leaf_insert_big_payload hL rid payload (by omega) p2)
  | update q rid payload p2 hreach hpb hok ih =>
    obtain ⟨cells, hL⟩ := ih
    obtain ⟨_, i, hi, _, hwf⟩ := leaf_update_spec hL rid payload hpb p2 hok
    exact ⟨_, hwf⟩
  | delete q rid p2 hreach hok ih =>
    obtain ⟨cells, hL⟩ := ih
    obtain ⟨i, hi, _, hwf⟩ := leaf_delete_spec hL rid p2 hok
    exact ⟨_, hwf⟩
  | defrag q p2 hreach hok ih =>
    obtain ⟨cells, hL⟩ := ih
    obtain ⟨p3, hdef, hwf, _⟩ := leaf_defragment_spec hL
    rw [leaf_defragment, hdef] at hok
    have hp : p3 = p2 := Except.ok.inj hok
    subst hp
    exact ⟨cells, hwf⟩

/-- Every reachable interior state is well formed over some cell
list. -/
theorem interiorReach_wf : ∀ p, InteriorReach p →
    ∃ cells, InteriorWF p cells := by
  intro p h
  induction h with
  | init page rightmost p hrm hinit =>
    obtain ⟨p', hinit', hwf, hcs⟩ := init_empty_spec page INTERIOR_SPEC
      (by decide) (by decide) (by decide)
    rw [interior_init_empty, hinit'] at hinit
    simp only [] at hinit
    obtain ⟨hwfh, _, _, _⟩ := pageWF_write_header_u64 hwf
      INTERIOR_RIGHTMOST_CHILD_OFFSET rightmost (by decide) (by decide) hrm
    have hp : write_u64_at p' INTERIOR_RIGHTMOST_CHILD_OFFSET rightmost =
        p := Except.ok.inj hinit
    rw [hp] at hwfh
    exact ⟨[], hwfh, fun c hc => absurd hc (by simp), List.Pairwise.nil⟩
  | insert q rid lc p2 hreach hrid hlc hok ih =>
    obtain ⟨cells, hI⟩ := ih
    rcases interior_insert_spec hI rid lc hrid hlc with
      ⟨_, herr⟩ | ⟨_, ⟨p2', l, hins, _, _, _, hwf⟩ | ⟨e, herr, _, _⟩⟩
    · rw [herr] at hok
      simp at hok
    · rw [hins] at hok
      have hp : p2' = p2 := Except.ok.inj hok
      subst hp
      exact ⟨_, hwf⟩
    · rw [herr] at hok
      simp at hok
  | update q rid lc p2 hreach hlc hok ih =>
    obtain ⟨cells, hI⟩ := ih
    obtain ⟨i, hi, _, hwf⟩ := interior_update_spec hI rid lc hlc p2 hok
    exact ⟨_, hwf⟩
  | delete q rid p2 hreach hok ih =>
    obtain ⟨cells, hI⟩ := ih
    obtain ⟨i, hi, _, hwf⟩ := interior_delete_spec hI rid p2 hok
    exact ⟨_, hwf⟩
  | defrag q p2 hreach hok ih =>
    obtain ⟨cells, hI⟩ := ih
    obtain ⟨p3, hdef, hwf, _⟩ := defragment_interior_spec hI
    rw [hdef] at hok
    have hp : p3 = p2 := Except.ok.inj hok
    subst hp
    exact ⟨cells, hwf⟩
  | setRightmost q page_id p2 hreach hpid hok ih =>
    obtain ⟨cells, hI⟩ := ih
    rw [set_rightmost_child, validate_ok hI.1] at hok
    simp only [] at hok
    obtain ⟨hwfh, _, _, _⟩ := pageWF_write_header_u64 hI.1
      INTERIOR_RIGHTMOST_CHILD_OFFSET page_id (by decide) (by decide) hpid
    have hp : write_u64_at q INTERIOR_RIGHTMOST_CHILD_OFFSET page_id =
        p2 := Except.ok.inj hok
    rw [hp] at hwfh
    exact ⟨cells, hwfh, hI.2.1, hI.2.2⟩


/-- C2: on a well-formed leaf page, `insert(rowId, payload)` fails with
`DuplicateRowId(rowId)` exactly when a cell with that row id already
exists, and after every successful insert a `search(rowId)` returns
the cell with a payload byte-for-byte equal to the inserted one
(witnessed concretely from a freshly initialized leaf page). -/
theorem leaf_insert_search_spec :
    (∀ page cells rid payload, LeafWF page cells → rid < U64_MOD →
      payload.length ≤ 0xFFFF → isBytes payload →
      (leaf_insert page rid payload = .error (.DuplicateRowId rid) ↔
        rid ∈ leafKeys cells)) ∧
    (∀ page cells rid payload p2, LeafWF page cells → rid < U64_MOD →
      payload.length ≤ 0xFFFF → isBytes payload →
      leaf_insert page rid payload = .ok p2 →
      leaf_search p2 rid = .ok (some (rid, payload))) ∧
    (∃ p p2, leaf_init_empty [] = .ok p ∧
      leaf_insert p 7 [1, 2, 3] = .ok p2 ∧
      leaf_search p2 7 = .ok (some (7, [1, 2, 3]))) := by
  have hmain2 : ∀ page cells rid payload p2, LeafWF page cells →
      rid < U64_MOD → payload.length ≤ 0xFFFF → isBytes payload →
      leaf_insert page rid payload = .ok p2 →
      leaf_search p2 rid = .ok (some (rid, payload)) := by
    intro page cells rid payload p2 hL hrid hpl hpb hok
    rcases leaf_insert_spec hL rid payload hrid hpl hpb with
      ⟨_, herr⟩ | ⟨_, ⟨p2', l, hins, hl, _, _, hwf⟩ | ⟨e, herr, _, _⟩⟩
    · rw [herr] at hok
      simp at hok
    · rw [hins] at hok
      have hp : p2' = p2 := Except.ok.inj hok
      subst hp
      have hlen := insert_list_length cells (rid, payload) l hl
      have hgd : (cells.take l ++ (rid, payload) :: cells.drop l).getD l
          (0, []) = (rid, payload) := by
        rw [getD_insert_list cells (rid, payload) l (0, []) hl l,
          if_neg (by omega), if_pos rfl]
      have hfound := @leaf_search_mem _
        (cells.take l ++ (rid, payload) :: cells.drop l) hwf l (by omega)
      rwa [hgd] at hfound
    · rw [herr] at hok
      simp at hok
  refine ⟨?_, hmain2, ?_⟩
  · intro page cells rid payload hL hrid hpl hpb
    rcases leaf_insert_spec hL rid payload hrid hpl hpb with
      ⟨hmem, herr⟩ | ⟨hnot, hrest⟩
    · exact ⟨fun _ => hmem, fun _ => herr⟩
    · constructor
      · intro h
        rcases hrest with ⟨p2, l, hins, _⟩ | ⟨e, herr, hne, _⟩
        · rw [hins] at h
          simp at h
        · rw [herr] at h
          exact absurd (Except.error.inj h) (hne rid)
      · intro h
        exact absurd h hnot
  · obtain ⟨p', hinit', hwf0, _⟩ := init_empty_spec [] LEAF_SPEC
      (by decide) (by decide) (by decide)
    have hL0 : LeafWF p' [] :=
      ⟨hwf0, fun c hc => absurd hc (by simp), List.Pairwise.nil⟩
    rcases leaf_insert_spec hL0 7 [1, 2, 3] (by decide) (by decide)
        (by unfold isBytes; decide) with
      ⟨hmem, _⟩ | ⟨_, ⟨p2, l, hins, hl, _, _, hwf⟩ | ⟨e, _, _, hbound⟩⟩
    · simp [leafKeys] at hmem
    · refine ⟨p', p2, ?_, hins, ?_⟩
      · rw [leaf_init_empty, hinit']
      · exact hmain2 p' [] 7 [1, 2, 3] p2 hL0 (by decide) (by decide)
          (by unfold isBytes; decide) hins
    · exfalso
      have hsum0 : (((([] : List (Nat × List Nat))).map
          (fun c => leafCellBytes c.1 c.2)).map List.length).sum = 0 := rfl
      have eb : ((([] : List (Nat × List Nat)).length) + 1) * SLOT_WIDTH =
          2 := rfl
      have epl : ([1, 2, 3] : List Nat).length = 3 := rfl
      have hpfx : LEAF_CELL_PREFIX_SIZE = 10 := rfl
      have ehs : LEAF_HEADER_SIZE = 8 := rfl
      have hps : PAGE_SIZE = 4096 := rfl
      have el0 : ([] : List (Nat × List Nat)).length = 0 := rfl
      omega


/-- C3: every leaf or interior page state reachable by successful
operations (insert, update, delete, defragment) from an initialized
page validates, and its slots in slot-directory order decode to cells
whose row ids strictly increase — ascending with no duplicates
(witnessed concretely by reachable states). -/
theorem page_slot_order_spec :
    (∀ p, LeafReach p → ∃ cells, LeafWF p cells ∧
      validate p LEAF_SPEC = .ok () ∧ cell_count p = cells.length ∧
      (∀ i, i < cells.length →
        decode_leaf_cell_at_slot p i = .ok (cells.getD i (0, []))) ∧
      (∀ i j, i < j → j < cells.length →
        (cells.getD i (0, [])).1 < (cells.getD j (0, [])).1)) ∧
    (∀ p, InteriorReach p → ∃ cells, InteriorWF p cells ∧
      validate p INTERIOR_SPEC = .ok () ∧ cell_count p = cells.length ∧
      (∀ i, i < cells.length →
        decode_interior_cell_at_slot p i = .ok (cells.getD i (0, 0))) ∧
      (∀ i j, i < j → j < cells.length →
        (cells.getD i (0, 0)).2 < (cells.getD j (0, 0)).2)) ∧
    (∃ p p2 p3, leaf_init_empty [] = .ok p ∧
      leaf_insert p 2 [0] = .ok p2 ∧ leaf_insert p2 1 [5] = .ok p3 ∧
      LeafReach p3) ∧
    (∃ q, interior_init_empty [] 9 = .ok q ∧ InteriorReach q) := by
  refine ⟨?_, ?_, ?_, ?_⟩
  · intro p h
    obtain ⟨cells, hL⟩ := leafReach_wf p h
    refine ⟨cells, hL, validate_ok hL.1, ?_,
      fun i hi => decode_leaf_ok hL hi, ?_⟩
    · rw [hL.1.count, List.length_map]
    · exact fun i j hij hj =>
        (pairwise_getD (fun a b : Nat × List Nat => a.1 < b.1) cells
          (0, [])).mp hL.2.2 i j hij hj
  · intro p h
    obtain ⟨cells, hI⟩ := interiorReach_wf p h
    refine ⟨cells, hI, validate_ok hI.1, ?_,
      fun i hi => decode_interior_ok hI hi, ?_⟩
    · rw [hI.1.count, List.length_map]
    · exact fun i j hij hj =>
        (pairwise_getD (fun a b : Nat × Nat => a.2 < b.2) cells
          (0, 0)).mp hI.2.2 i j hij hj
  · obtain ⟨p', hinit', hwf0, _⟩ := init_empty_spec [] LEAF_SPEC
      (by decide) (by decide) (by decide)
    have hL0 : LeafWF p' [] :=
      ⟨hwf0, fun c hc => absurd hc (by simp), List.Pairwise.nil⟩
    have hinit : leaf_init_empty [] = .ok p' := by
      rw [leaf_init_empty, hinit']
    rcases leaf_insert_spec hL0 2 [0] (by decide) (by decide)
        (by unfold isBytes; decide) with
      ⟨hmem, _⟩ | ⟨_, ⟨p2, l1, hins1, hl1, _, _, hwf2⟩ | ⟨e, _, _, hbound⟩⟩
    · simp [leafKeys] at hmem
    · have hl1z : l1 = 0 := by
        have el0 : ([] : List (Nat × List Nat)).length = 0 := rfl
        omega
      subst hl1z
      have hcells2 : (([] : List (Nat × List Nat)).take 0 ++
          (2, [0]) :: ([] : List (Nat × List Nat)).drop 0) = [(2, [0])] := by
        simp
      rw [hcells2] at hwf2
      rcases leaf_insert_spec hwf2 1 [5] (by decide) (by decide)
          (by unfold isBytes; decide) with
        ⟨hmem2, _⟩ | ⟨_, ⟨p3, l2, hins2, hl2, _, _, hwf3⟩ |
          ⟨e2, _, _, hbound2⟩⟩
      · simp [leafKeys] at hmem2
      · refine ⟨p', p2, p3, hinit, hins1, hins2, ?_⟩
        exact LeafReach.insert p2 1 [5] p3
          (LeafReach.insert p' 2 [0] p2 (LeafReach.init [] p' hinit)
            (by decide) (by unfold isBytes; decide) hins1)
          (by decide) (by unfold isBytes; decide) hins2
      · exfalso
        have hsum1 : ((([(2, [0])] : List (Nat × List Nat)).map
            (fun c => leafCellBytes c.1 c.2)).map List.length).sum = 11 := by
          decide
        have eb : ((([(2, [0])] : List (Nat × List Nat)).length) + 1) *
            SLOT_WIDTH = 4 := rfl
        have el1 : ([(2, [0])] : List (Nat × List Nat)).length = 1 := rfl
        have epl : ([5] : List Nat).length = 1 := rfl
        have hpfx : LEAF_CELL_PREFIX_SIZE = 10 := rfl
        have ehs : LEAF_HEADER_SIZE = 8 := rfl
        have hps : PAGE_SIZE = 4096 := rfl
        omega
    · exfalso
      have hsum0 : (((([] : List (Nat × List Nat))).map
          (fun c => leafCellBytes c.1 c.2)).map List.length).sum = 0 := rfl
      have eb : ((([] : List (Nat × List Nat)).length) + 1) * SLOT_WIDTH =
          2 := rfl
      have el0 : ([] : List (Nat × List Nat)).length = 0 := rfl
      have epl : ([0] : List Nat).length = 1 := rfl
      have hpfx : LEAF_CELL_PREFIX_SIZE = 10 := rfl
      have ehs : LEAF_HEADER_SIZE = 8 := rfl
      have hps : PAGE_SIZE = 4096 := rfl
      omega
  · obtain ⟨p', hinit', hwf0, _⟩ := init_empty_spec [] INTERIOR_SPEC
      (by decide) (by decide) (by decide)
    have hinit : interior_init_empty [] 9 =
        .ok (write_u64_at p' INTERIOR_RIGHTMOST_CHILD_OFFSET 9) := by
      rw [interior_init_empty, hinit']
    exact ⟨_, hinit, InteriorReach.init [] 9 _ (by decide) hinit⟩

/-- C7: on a well-formed interior page, `child_for_row_id(target)`
returns the left child of the first cell in slot order whose separator
row id is at least the target, and the header's rightmost child when no
such separator exists (witnessed concretely on a freshly initialized
interior page, where the rightmost child is returned). -/
theorem interior_child_for_row_id_spec :
    (∀ page cells target, InteriorWF page cells →
      child_for_row_id page target =
        .ok (match cells.find? (fun c => decide (target ≤ c.2)) with
          | some c => c.1
          | none => rightmost_child page)) ∧
    (∃ page q, interior_init_empty page 9 = .ok q ∧
      rightmost_child q = 9 ∧ child_for_row_id q 5 = .ok 9) := by
  have hmain : ∀ page cells target, InteriorWF page cells →
      child_for_row_id page target =
        .ok (match cells.find? (fun c => decide (target ≤ c.2)) with
          | some c => c.1
          | none => rightmost_child page) := by
    intro page cells target hI
    have hW := hI.1
    have hm : (cells.map (fun c => encode_interior_cell c.1 c.2)).length =
        cells.length := List.length_map _ _
    rcases interior_find_spec hI target with ⟨i, hfind, hi, hkey⟩ |
      ⟨l, hfind, hl, hlo, hhi⟩
    · rw [interiorKeys_length] at hi
      have hkeyi : (cells.getD i (0, 0)).2 = target := by
        rw [← interiorKeys_getD cells hi]
        exact hkey
      have hfindq : cells.find? (fun c => decide (target ≤ c.2)) =
          some (cells.getD i (0, 0)) := by
        apply find_first_getD cells _ (0, 0) i hi
        · simp only [decide_eq_true_eq]
          omega
        · intro j hj
          have hs := interiorKeys_sorted hI j i hj
            (by rw [interiorKeys_length]; omega)
          rw [interiorKeys_getD cells (by omega),
            interiorKeys_getD cells hi] at hs
          simp only [decide_eq_false_iff_not, Nat.not_le]
          omega
      rw [child_for_row_id, hfind]
      simp only []
      rw [decode_interior_ok hI hi]
      simp only []
      rw [hfindq]
    · rw [interiorKeys_length] at hl
      have hlo' : ∀ j, j < l → (cells.getD j (0, 0)).2 < target := by
        intro j hj
        have := hlo j hj
        rwa [interiorKeys_getD cells (by omega)] at this
      rw [child_for_row_id, hfind]
      simp only []
      rw [hW.count]
      by_cases hlt : l < cells.length
      · rw [if_pos (by omega)]
        simp only []
        rw [decode_interior_ok hI hlt]
        simp only []
        have hfindq : cells.find? (fun c => decide (target ≤ c.2)) =
            some (cells.getD l (0, 0)) := by
          apply find_first_getD cells _ (0, 0) l hlt
          · simp only [decide_eq_true_eq]
            have := hhi l (le_refl l) (by rw [interiorKeys_length]; omega)
            rw [interiorKeys_getD cells hlt] at this
            omega
          · intro j hj
            simp only [decide_eq_false_iff_not, Nat.not_le]
            have := hlo' j hj
            omega
        rw [hfindq]
      · rw [if_neg (by omega)]
        simp only []
        have hfindq : cells.find? (fun c => decide (target ≤ c.2)) =
            none := by
          rw [List.find?_eq_none]
          intro x hx
          obtain ⟨j, hj, hget⟩ := List.mem_iff_getElem.mp hx
          have hgd : cells.getD j (0, 0) = x := by
            rw [List.getD_eq_getElem?_getD, List.getElem?_eq_getElem hj,
              hget]
            rfl
          have := hlo' j (by omega)
          rw [hgd] at this
          simp only [decide_eq_true_eq]
          omega
        rw [hfindq]
  refine ⟨hmain, ?_⟩
  obtain ⟨p', hinit', hwf0, _⟩ := init_empty_spec [] INTERIOR_SPEC
    (by decide) (by decide) (by decide)
  obtain ⟨hwfh, hcsh, hcnth, hreadh⟩ := pageWF_write_header_u64 hwf0
    INTERIOR_RIGHTMOST_CHILD_OFFSET 9 (by decide) (by decide) (by decide)
  have hI : InteriorWF (write_u64_at p' INTERIOR_RIGHTMOST_CHILD_OFFSET 9)
      [] := ⟨hwfh, fun c hc => absurd hc (by simp), List.Pairwise.nil⟩
  have hrm : rightmost_child
      (write_u64_at p' INTERIOR_RIGHTMOST_CHILD_OFFSET 9) = 9 := hreadh
  refine ⟨[], _, by rw [interior_init_empty, hinit'], hrm, ?_⟩
  rw [hmain _ [] 5 hI]
  simp only [List.find?_nil]
  rw [hrm]

end Databas
